import Mathlib

/-!
# babl: leaf kernels and the tagged allocator

A shallow embedding of three source files of babl:

* `babl/base/type-u16.c`   : the `u16 <-> double` type conversions,
* `extensions/sse2-float.c`: the SSE2 float kernels,
* `babl/babl-memory.c`     : the tagged allocator.

Conventions of the embedding.

* C `double` and `float` values are exact rationals (`ℚ`) where arithmetic is
  done on them, and an arbitrary type where they are only moved around.
* C loops are functions with a fuel argument: every iteration evaluates the
  loop condition on the current state, `none` means the fuel ran out.
* C `long` and `int` loop counters are `Int`; the narrowing `int i = samples`
  is explicit (`toInt32`).
-/

namespace Babl

/-! ## babl/base/type-u16.c -/

/-- Conversion of a C `double` to an integer type: the fractional part is
discarded (truncation toward zero). -/
def truncDouble (q : ℚ) : Int :=
  if 0 ≤ q then Int.floor q else Int.ceil q

/-- Assignment of a `double` to an `unsigned short`: truncation, the value
then being stored in 16 bits. -/
def doubleToUShort (q : ℚ) : Nat :=
  (truncDouble q).toNat % 65536

/-- The body of the loop of `convert_double_u16_scaled`: the value stored for
one sample `dval`. -/
def double_u16_sample (min_val max_val : ℚ) (min max : Nat) (dval : ℚ) : Nat :=
  if dval < min_val then min
  else if dval > max_val then max
  else doubleToUShort
    ((dval - min_val) / (max_val - min_val) * (((max : Int) - (min : Int) : Int) : ℚ)
      + ((min : Int) : ℚ))

/-- The body of the loop of `convert_u16_double_scaled`: the value stored for
one sample `u16val` (an `int` loaded from an `unsigned short`). -/
def u16_double_sample (min_val max_val : ℚ) (min max : Nat) (u16val : Int) : ℚ :=
  if u16val < (min : Int) then min_val
  else if u16val > (max : Int) then max_val
  else ((u16val - (min : Int) : Int) : ℚ) / ((((max : Int) - (min : Int) : Int)) : ℚ)
      * (max_val - min_val) + min_val

/-- Result of a pitched kernel: the returned `long` and the stores performed,
in program order, each as (byte address, value stored). -/
structure KernelResult (β : Type) where
  ret : Int
  stores : List (Int × β)
deriving DecidableEq

/-- The function `convert_double_u16_scaled`.  `mem a` is the `double` read at byte address
`a`; `src`, `dst` are byte addresses, advanced by the signed byte pitches.
`while (n--)` tests `n` and then decrements it, also on the failing test, and
the function returns that `n`. -/
def convert_double_u16_scaled (min_val max_val : ℚ) (min max : Nat)
    (mem : Int → ℚ) (src_pitch dst_pitch : Int) :
    Nat → Int → Int → Int → List (Int × Nat) → Option (KernelResult Nat)
  | 0, _, _, _, _ => none
  | fuel + 1, src, dst, n, acc =>
    if n ≠ 0 then
      let dval := mem src
      let u16val := double_u16_sample min_val max_val min max dval
      convert_double_u16_scaled min_val max_val min max mem src_pitch dst_pitch fuel
        (src + src_pitch) (dst + dst_pitch) (n - 1) (acc ++ [(dst, u16val)])
    else
      some ⟨n - 1, acc⟩

/-- The function `convert_u16_double_scaled`.  `mem a` is the `unsigned short` read at byte
address `a`. -/
def convert_u16_double_scaled (min_val max_val : ℚ) (min max : Nat)
    (mem : Int → Nat) (src_pitch dst_pitch : Int) :
    Nat → Int → Int → Int → List (Int × ℚ) → Option (KernelResult ℚ)
  | 0, _, _, _, _ => none
  | fuel + 1, src, dst, n, acc =>
    if n ≠ 0 then
      let u16val : Int := (mem src : Int)
      let dval := u16_double_sample min_val max_val min max u16val
      convert_u16_double_scaled min_val max_val min max mem src_pitch dst_pitch fuel
        (src + src_pitch) (dst + dst_pitch) (n - 1) (acc ++ [(dst, dval)])
    else
      some ⟨n - 1, acc⟩

/-- The function `convert_u16_double`, from `MAKE_CONVERSIONS(u16, 0.0, 1.0, 0, 0xffff)`. -/
def convert_u16_double (fuel : Nat) (mem : Int → Nat) (src dst src_pitch dst_pitch n : Int) :
    Option (KernelResult ℚ) :=
  convert_u16_double_scaled 0 1 0 0xffff mem src_pitch dst_pitch fuel src dst n []

/-- The function `convert_double_u16`, from `MAKE_CONVERSIONS(u16, 0.0, 1.0, 0, 0xffff)`. -/
def convert_double_u16 (fuel : Nat) (mem : Int → ℚ) (src dst src_pitch dst_pitch n : Int) :
    Option (KernelResult Nat) :=
  convert_double_u16_scaled 0 1 0 0xffff mem src_pitch dst_pitch fuel src dst n []

/-- One sample of `convert_u16_double`. -/
def u16_to_double (v : Nat) : ℚ := u16_double_sample 0 1 0 0xffff (v : Int)

/-- One sample of `convert_double_u16`. -/
def double_to_u16 (x : ℚ) : Nat := double_u16_sample 0 1 0 0xffff x

/-- Memory holding the `unsigned short` sequence `xs` from byte address 0 on,
two bytes apart. -/
def u16Array (xs : List Nat) : Int → Nat :=
  fun a => xs.getD (a / 2).toNat 0

/-- Memory holding the `double` sequence `xs` from byte address 0 on, eight
bytes apart. -/
def doubleArray (xs : List ℚ) : Int → ℚ :=
  fun a => xs.getD (a / 8).toNat 0

/-- The bytes of the destination after the stores of a pitched kernel, made
in order: a store of `v` at byte address `a` writes the `width` bytes
`enc v 0`, ..., `enc v (width - 1)` from `a` on. -/
def applyStores {β : Type} (width : Nat) (enc : β → Nat → Nat) :
    List (Int × β) → (Int → Nat) → (Int → Nat)
  | [], m => m
  | (a, v) :: rest, m =>
    applyStores width enc rest
      (fun b => if a ≤ b ∧ b < a + width then enc v (b - a).toNat else m b)

/-! ## extensions/sse2-float.c

The SSE2 intrinsics are those of `emmintrin.h`/`xmmintrin.h`; their lane
semantics is transcribed here (names without the leading underscore).  A float
buffer is a function from the float index, counted from the pointer the kernel
receives, to the float stored there.  Source and destination are distinct
buffers. -/

/-- The vector type `__v4sf`: four lanes, lane 0 at the lowest address. -/
structure V4 (α : Type) where
  e0 : α
  e1 : α
  e2 : α
  e3 : α
deriving DecidableEq

/-- Lane `k` of a vector (`k` is a two-bit selector). -/
def V4.lane {α : Type} (v : V4 α) : Nat → α
  | 0 => v.e0
  | 1 => v.e1
  | 2 => v.e2
  | _ => v.e3

/-- Lane-wise application of a scalar function. -/
def V4.map {α : Type} (T : α → α) (v : V4 α) : V4 α :=
  ⟨T v.e0, T v.e1, T v.e2, T v.e3⟩

/-- Lane-wise product, the `*` of two `__v4sf`. -/
def V4.mul {α : Type} [Mul α] (a b : V4 α) : V4 α :=
  ⟨a.e0 * b.e0, a.e1 * b.e1, a.e2 * b.e2, a.e3 * b.e3⟩

/-- The selector `_MM_SHUFFLE(z, y, x, w) = (z << 6) | (y << 4) | (x << 2) | w`
for two-bit fields. -/
def MM_SHUFFLE (z y x w : Nat) : Nat := z * 64 + y * 16 + x * 4 + w

/-- The intrinsic `_mm_shuffle_ps (a, b, imm)`: lanes 0, 1 are picked from `a`,
lanes 2, 3 from `b`. -/
def mm_shuffle_ps {α : Type} (a b : V4 α) (imm : Nat) : V4 α :=
  ⟨a.lane (imm % 4), a.lane (imm / 4 % 4), b.lane (imm / 16 % 4), b.lane (imm / 64 % 4)⟩

/-- The intrinsic `_mm_shuffle_epi32 (a, imm)`: all four lanes picked from `a`. -/
def mm_shuffle_epi32 {α : Type} (a : V4 α) (imm : Nat) : V4 α :=
  ⟨a.lane (imm % 4), a.lane (imm / 4 % 4), a.lane (imm / 16 % 4), a.lane (imm / 64 % 4)⟩

/-- The intrinsic `_mm_movelh_ps (a, b)`. -/
def mm_movelh_ps {α : Type} (a b : V4 α) : V4 α := ⟨a.e0, a.e1, b.e0, b.e1⟩

/-- The intrinsic `_mm_movehl_ps (a, b)`. -/
def mm_movehl_ps {α : Type} (a b : V4 α) : V4 α := ⟨b.e2, b.e3, a.e2, a.e3⟩

/-- The intrinsic `_mm_unpackhi_ps (a, b)`. -/
def mm_unpackhi_ps {α : Type} (a b : V4 α) : V4 α := ⟨a.e2, b.e2, a.e3, b.e3⟩

/-- The intrinsic `_mm_unpacklo_ps (a, b)`. -/
def mm_unpacklo_ps {α : Type} (a b : V4 α) : V4 α := ⟨a.e0, b.e0, a.e1, b.e1⟩

/-- The intrinsic `_mm_setzero_ps ()`. -/
def mm_setzero_ps {α : Type} [Zero α] : V4 α := ⟨0, 0, 0, 0⟩

/-- The intrinsic `_mm_load1_ps (&x)`. -/
def mm_load1_ps {α : Type} (x : α) : V4 α := ⟨x, x, x, x⟩

/-- The intrinsic `_mm_set_ss (x)`. -/
def mm_set_ss {α : Type} [Zero α] (x : α) : V4 α := ⟨x, 0, 0, 0⟩

/-- The intrinsic `_mm_move_ss (a, b)`: lane 0 of `b`, the rest of `a`. -/
def mm_move_ss {α : Type} (a b : V4 α) : V4 α := ⟨b.e0, a.e1, a.e2, a.e3⟩

/-- The intrinsic `_mm_div_ss (a, b)`: lane 0 divided, the rest of `a`. -/
def mm_div_ss {α : Type} [Div α] (a b : V4 α) : V4 α := ⟨a.e0 / b.e0, a.e1, a.e2, a.e3⟩

/-- The intrinsic `_mm_ucomile_ss (a, b)`: lane 0 of `a` at most lane 0 of `b`. -/
def mm_ucomile_ss (a b : V4 ℚ) : Bool := decide (a.e0 ≤ b.e0)

/-- A float buffer. -/
abbrev FBuf (α : Type) := Int → α

/-- Store of one float at index `p`. -/
def store1 {α : Type} (m : FBuf α) (p : Int) (x : α) : FBuf α :=
  fun k => if k = p then x else m k

/-- The loads `_mm_load_ps (p)`, `_mm_loadu_ps (p)` and `*s`: four consecutive
floats. -/
def mm_load_ps {α : Type} (m : FBuf α) (p : Int) : V4 α :=
  ⟨m p, m (p + 1), m (p + 2), m (p + 3)⟩

/-- The stores `_mm_store_ps (p, v)`, `_mm_storeu_ps (p, v)` and `*d = v`. -/
def mm_store_ps {α : Type} (m : FBuf α) (p : Int) (v : V4 α) : FBuf α :=
  store1 (store1 (store1 (store1 m p v.e0) (p + 1) v.e1) (p + 2) v.e2) (p + 3) v.e3

/-- The intrinsic `_mm_storel_pi (p, v)`: the two low lanes. -/
def mm_storel_pi {α : Type} (m : FBuf α) (p : Int) (v : V4 α) : FBuf α :=
  store1 (store1 m p v.e0) (p + 1) v.e1

/-- The intrinsic `_mm_storeh_pi (p, v)`: the two high lanes. -/
def mm_storeh_pi {α : Type} (m : FBuf α) (p : Int) (v : V4 α) : FBuf α :=
  store1 (store1 m p v.e2) (p + 1) v.e3

/-- Result of a float kernel: the returned `long` and the destination buffer. -/
structure FloatResult (α : Type) where
  ret : Int
  dst : FBuf α

/-- The alignment test `((uintptr_t)src % 16) + ((uintptr_t)dst % 16) == 0` on
the two addresses. -/
def aligned16 (srcAddr dstAddr : Nat) : Bool := srcAddr % 16 + dstAddr % 16 == 0

/-- The vector loop `for ( ; i < n; i += 2)` of
`conv_rgbaF_linear_rgbAF_linear`; `s` and `d` are float indices. -/
def conv_rgbaF_linear_rgbAF_linear_vec {α : Type} [Mul α] (src : FBuf α) (n : Int) :
    Nat → Int → Int → Int → FBuf α → Option (Int × FBuf α)
  | 0, _, _, _, _ => none
  | fuel + 1, i, s, d, dst =>
    if i < n then
      let rgba0 := mm_load_ps src s
      let s := s + 4
      let rgba1 := mm_load_ps src s
      let s := s + 4
      let aaaa0 := mm_shuffle_epi32 rgba0 (MM_SHUFFLE 3 3 3 3)
      let aaaa1 := mm_shuffle_epi32 rgba1 (MM_SHUFFLE 3 3 3 3)
      let rgba0 := V4.mul rgba0 aaaa0
      let rgba1 := V4.mul rgba1 aaaa1
      let rbaa0 := mm_shuffle_ps rgba0 aaaa0 (MM_SHUFFLE 0 0 2 0)
      let rbaa1 := mm_shuffle_ps rgba1 aaaa1 (MM_SHUFFLE 0 0 2 0)
      let rgba0 := mm_shuffle_ps rgba0 rbaa0 (MM_SHUFFLE 2 1 1 0)
      let rgba1 := mm_shuffle_ps rgba1 rbaa1 (MM_SHUFFLE 2 1 1 0)
      let dst := mm_store_ps dst d rgba0
      let d := d + 4
      let dst := mm_store_ps dst d rgba1
      let d := d + 4
      conv_rgbaF_linear_rgbAF_linear_vec src n fuel (i + 2) s d dst
    else
      some (i, dst)

/-- The scalar loop `while (remainder--)` of `conv_rgbaF_linear_rgbAF_linear`;
`sp` and `dp` are the float indices `src` and `dst` point to. -/
def conv_rgbaF_linear_rgbAF_linear_scalar {α : Type} [Mul α] (src : FBuf α) :
    Nat → Int → Int → Int → FBuf α → Option (FBuf α)
  | 0, _, _, _, _ => none
  | fuel + 1, remainder, sp, dp, dst =>
    if remainder ≠ 0 then
      let a := src (sp + 3)
      let dst := store1 dst (dp + 0) (src (sp + 0) * a)
      let dst := store1 dst (dp + 1) (src (sp + 1) * a)
      let dst := store1 dst (dp + 2) (src (sp + 2) * a)
      let dst := store1 dst (dp + 3) a
      conv_rgbaF_linear_rgbAF_linear_scalar src fuel (remainder - 1) (sp + 4) (dp + 4) dst
    else
      some dst

/-- The function `conv_rgbaF_linear_rgbAF_linear (src, dst, samples)`.  `srcAddr`, `dstAddr`
are the addresses of the two buffers, `src` and `dst` their contents. -/
def conv_rgbaF_linear_rgbAF_linear {α : Type} [Mul α] (fuel : Nat) (srcAddr dstAddr : Nat)
    (src dst : FBuf α) (samples : Int) : Option (FloatResult α) :=
  let vec : Option (Int × FBuf α) :=
    if aligned16 srcAddr dstAddr then
      conv_rgbaF_linear_rgbAF_linear_vec src (Int.tdiv samples 2 * 2) fuel 0 0 0 dst
    else some (0, dst)
  match vec with
  | none => none
  | some (i, dst) =>
    match conv_rgbaF_linear_rgbAF_linear_scalar src fuel (samples - i) (i * 4) (i * 4) dst with
    | none => none
    | some dst => some ⟨samples, dst⟩

/-- The vector loop `for ( ; i < n; i += 1)` of
`conv_rgbAF_linear_rgbaF_linear_shuffle`. -/
def conv_rgbAF_linear_rgbaF_linear_shuffle_vec (src : FBuf ℚ) (n : Int) :
    Nat → Int → Int → Int → FBuf ℚ → Option (Int × FBuf ℚ)
  | 0, _, _, _, _ => none
  | fuel + 1, i, s, d, dst =>
    if i < n then
      let alpha0 := src (s + 3)
      let pre_rgba0 := mm_load_ps src s
      let rgba0 : V4 ℚ :=
        if alpha0 ≤ 0 then
          mm_setzero_ps
        else
          let recip0 := 1 / alpha0
          let raaaa0 := mm_load1_ps recip0
          V4.mul pre_rgba0 raaaa0
      let rbaa0 := mm_shuffle_ps rgba0 pre_rgba0 (MM_SHUFFLE 3 3 2 0)
      let rgba0 := mm_shuffle_ps rgba0 rbaa0 (MM_SHUFFLE 2 1 1 0)
      let s := s + 4
      let dst := mm_store_ps dst d rgba0
      let d := d + 4
      conv_rgbAF_linear_rgbaF_linear_shuffle_vec src n fuel (i + 1) s d dst
    else
      some (i, dst)

/-- The scalar loop `while (remainder--)` shared, textually, by
`conv_rgbAF_linear_rgbaF_linear_shuffle` and `conv_rgbAF_linear_rgbaF_linear_spin`. -/
def conv_rgbAF_linear_rgbaF_linear_scalar (src : FBuf ℚ) :
    Nat → Int → Int → Int → FBuf ℚ → Option (FBuf ℚ)
  | 0, _, _, _, _ => none
  | fuel + 1, remainder, sp, dp, dst =>
    if remainder ≠ 0 then
      let alpha := src (sp + 3)
      let recip : ℚ := if alpha ≤ 0 then 0 else 1 / alpha
      let dst := store1 dst (dp + 0) (src (sp + 0) * recip)
      let dst := store1 dst (dp + 1) (src (sp + 1) * recip)
      let dst := store1 dst (dp + 2) (src (sp + 2) * recip)
      let dst := store1 dst (dp + 3) alpha
      conv_rgbAF_linear_rgbaF_linear_scalar src fuel (remainder - 1) (sp + 4) (dp + 4) dst
    else
      some dst

/-- The function `conv_rgbAF_linear_rgbaF_linear_shuffle (src, dst, samples)`. -/
def conv_rgbAF_linear_rgbaF_linear_shuffle (fuel : Nat) (srcAddr dstAddr : Nat)
    (src dst : FBuf ℚ) (samples : Int) : Option (FloatResult ℚ) :=
  let vec : Option (Int × FBuf ℚ) :=
    if aligned16 srcAddr dstAddr then
      conv_rgbAF_linear_rgbaF_linear_shuffle_vec src samples fuel 0 0 0 dst
    else some (0, dst)
  match vec with
  | none => none
  | some (i, dst) =>
    match conv_rgbAF_linear_rgbaF_linear_scalar src fuel (samples - i) (i * 4) (i * 4) dst with
    | none => none
    | some dst => some ⟨samples, dst⟩

/-- The narrowing of a `long` to `int` in `int i = samples` (two's complement,
32 bits). -/
def toInt32 (x : Int) : Int := (x + 2 ^ 31) % 2 ^ 32 - 2 ^ 31

/-- The body of the first loop of `GAMMA_RGBA`: four pixels are transposed
into three colour vectors and one alpha vector ("Pack the rgb components from
4 pixels into 3 vectors, gammafy, unpack"). -/
def GAMMA_RGBA_body4 {α : Type} (munge : V4 α → V4 α) (src : FBuf α) (sp dp : Int)
    (dst : FBuf α) : FBuf α :=
  let x0 := mm_load_ps src sp
  let x1 := mm_load_ps src (sp + 4)
  let x2 := mm_load_ps src (sp + 8)
  let x3 := mm_load_ps src (sp + 12)
  let y0 := mm_movelh_ps x0 x1
  let y1 := mm_movelh_ps x2 x3
  let z0 := mm_unpackhi_ps x0 x1
  let z1 := mm_unpackhi_ps x2 x3
  let y2 := mm_movelh_ps z0 z1
  let y3 := mm_movehl_ps z1 z0
  let y0 := munge y0
  let dst := mm_storel_pi dst dp y0
  let dst := mm_storeh_pi dst (dp + 4) y0
  let y1 := munge y1
  let dst := mm_storel_pi dst (dp + 8) y1
  let dst := mm_storeh_pi dst (dp + 12) y1
  let y2 := munge y2
  let z0 := mm_unpacklo_ps y2 y3
  let z1 := mm_unpackhi_ps y2 y3
  let dst := mm_storel_pi dst (dp + 2) z0
  let dst := mm_storeh_pi dst (dp + 6) z0
  let dst := mm_storel_pi dst (dp + 10) z1
  let dst := mm_storeh_pi dst (dp + 14) z1
  dst

/-- The first loop of `GAMMA_RGBA`,
`for (; i > 3; i -= 4, src += 16, dst += 16)`. -/
def GAMMA_RGBA_loop4 {α : Type} (munge : V4 α → V4 α) (src : FBuf α) :
    Nat → Int → Int → Int → FBuf α → Option (Int × Int × Int × FBuf α)
  | 0, _, _, _, _ => none
  | fuel + 1, i, sp, dp, dst =>
    if i > 3 then
      GAMMA_RGBA_loop4 munge src fuel (i - 4) (sp + 16) (dp + 16)
        (GAMMA_RGBA_body4 munge src sp dp dst)
    else
      some (i, sp, dp, dst)

/-- The one-pixel loop of `GAMMA_RGBA`, `for (; i > 0; i--, src += 4, dst += 4)`,
which appears with aligned and with unaligned loads and stores. -/
def GAMMA_RGBA_loop1 {α : Type} (munge : V4 α → V4 α) (src : FBuf α) :
    Nat → Int → Int → Int → FBuf α → Option (FBuf α)
  | 0, _, _, _, _ => none
  | fuel + 1, i, sp, dp, dst =>
    if i > 0 then
      let x := munge (mm_load_ps src sp)
      let a := src (sp + 3)
      let dst := mm_store_ps dst dp x
      let dst := store1 dst (dp + 3) a
      GAMMA_RGBA_loop1 munge src fuel (i - 1) (sp + 4) (dp + 4) dst
    else
      some dst

/-- The function the macro `GAMMA_RGBA(func, munge)` defines. -/
def GAMMA_RGBA {α : Type} (munge : V4 α → V4 α) (fuel : Nat) (srcAddr dstAddr : Nat)
    (src dst : FBuf α) (samples : Int) : Option (FloatResult α) :=
  let i := toInt32 samples
  if aligned16 srcAddr dstAddr then
    match GAMMA_RGBA_loop4 munge src fuel i 0 0 dst with
    | none => none
    | some (i, sp, dp, dst) =>
      match GAMMA_RGBA_loop1 munge src fuel i sp dp dst with
      | none => none
      | some dst => some ⟨samples, dst⟩
  else
    match GAMMA_RGBA_loop1 munge src fuel i 0 0 dst with
    | none => none
    | some dst => some ⟨samples, dst⟩

/-- The function `linear_to_gamma_2_2_sse2`: every operation in it (`pow_1_24`, the products
with splatted constants, `_mm_cmpgt_ps` and the mask selection) acts lane by
lane, so it is the lane-wise application of one scalar function `T`. -/
def linear_to_gamma_2_2_sse2 {α : Type} (T : α → α) (x : V4 α) : V4 α := V4.map T x

/-- The function `gamma_2_2_to_linear_sse2`: lane-wise like `linear_to_gamma_2_2_sse2`. -/
def gamma_2_2_to_linear_sse2 {α : Type} (T : α → α) (x : V4 α) : V4 α := V4.map T x

/-- The instance `GAMMA_RGBA(conv_rgbaF_linear_rgbaF_gamma, linear_to_gamma_2_2_sse2)`. -/
def conv_rgbaF_linear_rgbaF_gamma {α : Type} (T : α → α) :=
  GAMMA_RGBA (linear_to_gamma_2_2_sse2 T)

/-- The instance `GAMMA_RGBA(conv_rgbaF_gamma_rgbaF_linear, gamma_2_2_to_linear_sse2)`. -/
def conv_rgbaF_gamma_rgbaF_linear {α : Type} (T : α → α) :=
  GAMMA_RGBA (gamma_2_2_to_linear_sse2 T)

/-- Pixel `i` of an RGBA float buffer. -/
def pixel {α : Type} (m : FBuf α) (i : Int) : V4 α := mm_load_ps m (4 * i)

/-- The buffer holding the floats `xs` from index 0 on, and `z` elsewhere. -/
def bufOf {α : Type} (z : α) (xs : List α) : FBuf α :=
  fun k => if 0 ≤ k then xs.getD k.toNat z else z

/-- The premultiplied pixel `(r*a, g*a, b*a, a)`. -/
def premultiplied {α : Type} [Mul α] (v : V4 α) : V4 α :=
  ⟨v.e0 * v.e3, v.e1 * v.e3, v.e2 * v.e3, v.e3⟩

/-- The un-premultiplied pixel: `(r/a, g/a, b/a, a)` when `a > 0` and
`(0, 0, 0, a)` when `a ≤ 0`. -/
def unpremultiplied (v : V4 ℚ) : V4 ℚ :=
  if 0 < v.e3 then ⟨v.e0 / v.e3, v.e1 / v.e3, v.e2 / v.e3, v.e3⟩ else ⟨0, 0, 0, v.e3⟩

/-- The gamma-converted pixel `(T r, T g, T b, a)`. -/
def gammaPixel {α : Type} (T : α → α) (v : V4 α) : V4 α := ⟨T v.e0, T v.e1, T v.e2, v.e3⟩

/-- The relation `Converted f src out0 out lo hi`: every pixel `j` with `lo ≤ j < hi` of
`out` is `f` of pixel `j` of `src`, and every float of `out` outside those
pixels is as in `out0`. -/
def Converted {α : Type} (f : V4 α → V4 α) (src out0 out : FBuf α) (lo hi : Int) : Prop :=
  (∀ j, lo ≤ j → j < hi → pixel out j = f (pixel src j)) ∧
  (∀ k, (k < 4 * lo ∨ 4 * hi ≤ k) → out k = out0 k)

/-- The vector loop `for ( ; i < n; i += 1)` of
`conv_rgbAF_linear_rgbaF_linear_spin`; `zero` and `one` are the two constant
vectors set up in front of the loop. -/
def conv_rgbAF_linear_rgbaF_linear_spin_vec (src : FBuf ℚ) (n : Int) :
    Nat → Int → Int → Int → FBuf ℚ → Option (Int × FBuf ℚ)
  | 0, _, _, _, _ => none
  | fuel + 1, i, s, d, dst =>
    if i < n then
      let zero : V4 ℚ := mm_setzero_ps
      let one : V4 ℚ := mm_set_ss 1
      let rgba0 := mm_load_ps src s
      let pre_abgr0 := mm_shuffle_epi32 rgba0 (MM_SHUFFLE 0 1 2 3)
      let abgr0 : V4 ℚ :=
        if mm_ucomile_ss pre_abgr0 zero then
          zero
        else
          let raaaa0 := mm_div_ss one pre_abgr0
          let raaaa0 := mm_shuffle_epi32 raaaa0 (MM_SHUFFLE 0 0 0 0)
          V4.mul pre_abgr0 raaaa0
      let abgr0 := mm_move_ss abgr0 pre_abgr0
      let rgba0 := mm_shuffle_epi32 abgr0 (MM_SHUFFLE 0 1 2 3)
      let dst := mm_store_ps dst d rgba0
      let d := d + 4
      let s := s + 4
      conv_rgbAF_linear_rgbaF_linear_spin_vec src n fuel (i + 1) s d dst
    else
      some (i, dst)

/-- The function `conv_rgbAF_linear_rgbaF_linear_spin (src, dst, samples)`. -/
def conv_rgbAF_linear_rgbaF_linear_spin (fuel : Nat) (srcAddr dstAddr : Nat)
    (src dst : FBuf ℚ) (samples : Int) : Option (FloatResult ℚ) :=
  let vec : Option (Int × FBuf ℚ) :=
    if aligned16 srcAddr dstAddr then
      conv_rgbAF_linear_rgbaF_linear_spin_vec src samples fuel 0 0 0 dst
    else some (0, dst)
  match vec with
  | none => none
  | some (i, dst) =>
    match conv_rgbAF_linear_rgbaF_linear_scalar src fuel (samples - i) (i * 4) (i * 4) dst with
    | none => none
    | some dst => some ⟨samples, dst⟩

/-- The macro `YA_APPLY(load, store, convert)`: two vectors, that is four
luminance-alpha pairs, are loaded from `s`, the four luminances are gathered
in one vector and converted, and the pairs are stored at `d`. -/
def YA_APPLY {α : Type} (convert : V4 α → V4 α) (src : FBuf α) (s d : Int) (dst : FBuf α) :
    FBuf α :=
  let yaya0 := mm_load_ps src s
  let yaya1 := mm_load_ps src (s + 4)
  let yyyy01 := mm_shuffle_ps yaya0 yaya1 (MM_SHUFFLE 0 2 0 2)
  let yyyy01 := convert yyyy01
  let yyaa0 := mm_shuffle_ps yyyy01 yaya0 (MM_SHUFFLE 3 1 0 1)
  let yaya0 := mm_shuffle_epi32 yyaa0 (MM_SHUFFLE 3 1 2 0)
  let yyaa1 := mm_shuffle_ps yyyy01 yaya1 (MM_SHUFFLE 3 1 2 3)
  let yaya1 := mm_shuffle_epi32 yyaa1 (MM_SHUFFLE 3 1 2 0)
  let dst := mm_store_ps dst d yaya0
  let dst := mm_store_ps dst (d + 4) yaya1
  dst

/-- The loop `while (samples > 4) { YA_APPLY (...); samples -= 4; }` of the two
`yaF` kernels, which appears with aligned and with unaligned loads and stores. -/
def conv_yaF_vec {α : Type} (convert : V4 α → V4 α) (src : FBuf α) :
    Nat → Int → Int → Int → FBuf α → Option (Int × Int × Int × FBuf α)
  | 0, _, _, _, _ => none
  | fuel + 1, samples, s, d, dst =>
    if samples > 4 then
      conv_yaF_vec convert src fuel (samples - 4) (s + 8) (d + 8) (YA_APPLY convert src s d dst)
    else
      some (samples, s, d, dst)

/-- The loop `while (samples--) { *dst++ = f (*src++); *dst++ = *src++; }` of
the two `yaF` kernels, `f` being the scalar transfer function. -/
def conv_yaF_scalar {α : Type} (f : α → α) (src : FBuf α) :
    Nat → Int → Int → Int → FBuf α → Option (FBuf α)
  | 0, _, _, _, _ => none
  | fuel + 1, samples, sp, dp, dst =>
    if samples ≠ 0 then
      let dst := store1 dst dp (f (src sp))
      let dst := store1 dst (dp + 1) (src (sp + 1))
      conv_yaF_scalar f src fuel (samples - 1) (sp + 2) (dp + 2) dst
    else
      some dst

/-- The body shared by `conv_yaF_linear_yaF_gamma` and
`conv_yaF_gamma_yaF_linear`, which differ only in the vector function
`convert` and the scalar function `f` they apply. -/
def conv_yaF {α : Type} (convert : V4 α → V4 α) (f : α → α) (fuel : Nat)
    (srcAddr dstAddr : Nat) (src dst : FBuf α) (samples : Int) : Option (FloatResult α) :=
  let total := samples
  let vec :=
    if aligned16 srcAddr dstAddr then conv_yaF_vec convert src fuel samples 0 0 dst
    else conv_yaF_vec convert src fuel samples 0 0 dst
  match vec with
  | none => none
  | some (samples, s, d, dst) =>
    match conv_yaF_scalar f src fuel samples s d dst with
    | none => none
    | some dst => some ⟨total, dst⟩

/-- The function `conv_yaF_linear_yaF_gamma`; `Ts` stands for the scalar
`babl_linear_to_gamma_2_2` of `base/util.h`. -/
def conv_yaF_linear_yaF_gamma {α : Type} (Tv Ts : α → α) :=
  conv_yaF (linear_to_gamma_2_2_sse2 Tv) Ts

/-- The function `conv_yaF_gamma_yaF_linear`; `Ts` stands for the scalar
`babl_gamma_2_2_to_linear` of `base/util.h`. -/
def conv_yaF_gamma_yaF_linear {α : Type} (Tv Ts : α → α) :=
  conv_yaF (gamma_2_2_to_linear_sse2 Tv) Ts

/-- The loop `while (samples > 4)` of the two `yF` kernels: one vector of four
samples is loaded, converted and stored. -/
def conv_yF_vec {α : Type} (convert : V4 α → V4 α) (src : FBuf α) :
    Nat → Int → Int → Int → FBuf α → Option (Int × Int × Int × FBuf α)
  | 0, _, _, _, _ => none
  | fuel + 1, samples, s, d, dst =>
    if samples > 4 then
      let rgba0 := mm_load_ps src s
      let rgba0 := convert rgba0
      let dst := mm_store_ps dst d rgba0
      conv_yF_vec convert src fuel (samples - 4) (s + 4) (d + 4) dst
    else
      some (samples, s, d, dst)

/-- The loop `while (samples--) { *dst++ = f (*src++); }` of the two `yF`
kernels. -/
def conv_yF_scalar {α : Type} (f : α → α) (src : FBuf α) :
    Nat → Int → Int → Int → FBuf α → Option (FBuf α)
  | 0, _, _, _, _ => none
  | fuel + 1, samples, sp, dp, dst =>
    if samples ≠ 0 then
      conv_yF_scalar f src fuel (samples - 1) (sp + 1) (dp + 1) (store1 dst dp (f (src sp)))
    else
      some dst

/-- The body shared by `conv_yF_linear_yF_gamma` and `conv_yF_gamma_yF_linear`. -/
def conv_yF {α : Type} (convert : V4 α → V4 α) (f : α → α) (fuel : Nat)
    (srcAddr dstAddr : Nat) (src dst : FBuf α) (samples : Int) : Option (FloatResult α) :=
  let total := samples
  let vec :=
    if aligned16 srcAddr dstAddr then conv_yF_vec convert src fuel samples 0 0 dst
    else conv_yF_vec convert src fuel samples 0 0 dst
  match vec with
  | none => none
  | some (samples, s, d, dst) =>
    match conv_yF_scalar f src fuel samples s d dst with
    | none => none
    | some dst => some ⟨total, dst⟩

/-- The function `conv_yF_linear_yF_gamma`. -/
def conv_yF_linear_yF_gamma {α : Type} (Tv Ts : α → α) :=
  conv_yF (linear_to_gamma_2_2_sse2 Tv) Ts

/-- The function `conv_yF_gamma_yF_linear`. -/
def conv_yF_gamma_yF_linear {α : Type} (Tv Ts : α → α) :=
  conv_yF (gamma_2_2_to_linear_sse2 Tv) Ts

/-- The function `conv_rgbF_linear_rgbF_gamma`:
`conv_yF_linear_yF_gamma (src, dst, samples * 3) / 3`. -/
def conv_rgbF_linear_rgbF_gamma {α : Type} (Tv Ts : α → α) (fuel : Nat)
    (srcAddr dstAddr : Nat) (src dst : FBuf α) (samples : Int) : Option (FloatResult α) :=
  match conv_yF_linear_yF_gamma Tv Ts fuel srcAddr dstAddr src dst (samples * 3) with
  | none => none
  | some r => some ⟨Int.tdiv r.ret 3, r.dst⟩

/-- The function `conv_rgbF_gamma_rgbF_linear`:
`conv_yF_gamma_yF_linear (src, dst, samples * 3) / 3`. -/
def conv_rgbF_gamma_rgbF_linear {α : Type} (Tv Ts : α → α) (fuel : Nat)
    (srcAddr dstAddr : Nat) (src dst : FBuf α) (samples : Int) : Option (FloatResult α) :=
  match conv_yF_gamma_yF_linear Tv Ts fuel srcAddr dstAddr src dst (samples * 3) with
  | none => none
  | some r => some ⟨Int.tdiv r.ret 3, r.dst⟩

/-- The relation `Filled val out0 out lo hi`: every float `k` with
`lo ≤ k < hi` of `out` is `val k`, and every float of `out` outside that range
is as in `out0`. -/
def Filled {α : Type} (val : Int → α) (out0 out : FBuf α) (lo hi : Int) : Prop :=
  (∀ k, lo ≤ k → k < hi → out k = val k) ∧ (∀ k, (k < lo ∨ hi ≤ k) → out k = out0 k)

/-- The value a `yF` kernel leaves at float `k` of a run of `samples`
floats: the vector loop handles the first `4 * ((samples - 1) / 4)` floats
with the lane function `Tv`, the scalar loop the rest with `Ts`. -/
def yValue {α : Type} (Tv Ts : α → α) (src : FBuf α) (samples : Nat) (k : Int) : α :=
  if k < 4 * (((samples - 1) / 4 : Nat) : Int) then Tv (src k) else Ts (src k)

/-- The value a `yaF` kernel leaves at float `k` of a run of `samples`
luminance-alpha pairs: luminances (even `k`) are converted, by `Tv` in the
first `4 * ((samples - 1) / 4)` pairs and by `Ts` in the rest, alphas are
copied. -/
def yaValue {α : Type} (Tv Ts : α → α) (src : FBuf α) (samples : Nat) (k : Int) : α :=
  if k % 2 = 0 then
    if k < 8 * (((samples - 1) / 4 : Nat) : Int) then Tv (src k) else Ts (src k)
  else src k

/-- The macro `FLT_ONE`: the bit pattern of `1.0f`, read as an `int`. -/
def FLT_ONE : Int := 0x3f800000

/-- The macro `FLT_MANTISSA`, `1 << 23`. -/
def FLT_MANTISSA : Int := 2 ^ 23

/-- One lane of `init_newton (x, exponent, c0, c1, c2)`.  The cast `(__v4si)x` reads the
bits of the float as a 32-bit integer: `bits x`; `_mm_cvtepi32_ps` turns the
integer difference into a float; `ln2` is the constant `M_LN2` of `math.h`. -/
def init_newton (bits : ℚ → Int) (ln2 : ℚ) (x exponent c0 c1 c2 : ℚ) : ℚ :=
  let norm := exponent * ln2 / (FLT_MANTISSA : ℚ)
  let y : ℚ := ((bits x - FLT_ONE : Int) : ℚ)
  c0 + c1 * norm * y + c2 * norm * norm * y * y

/-- One lane of `pow_1_24 (x)`: two steps of Newton's method for `x^(-1/6)` on
the square root of `x`; `msqrt` is the lane function of `_mm_sqrt_ps`. -/
def pow_1_24 (bits : ℚ → Int) (ln2 : ℚ) (msqrt : ℚ → ℚ) (x : ℚ) : ℚ :=
  let y := init_newton bits ln2 x (-1 / 12) 0.9976800269 0.9885126933 0.5908575383
  let x := msqrt x
  let z := (1 / 6) * x
  let y := (7 / 6) * y - z * ((y * y) * (y * y) * (y * y * y))
  let y := (7 / 6) * y - z * ((y * y) * (y * y) * (y * y * y))
  x * y

/-- One lane of `pow_24 (x)`: two steps of Newton's method for `x^(-1/5)`,
then the cube of `x * y`. -/
def pow_24 (bits : ℚ → Int) (ln2 : ℚ) (x : ℚ) : ℚ :=
  let y := init_newton bits ln2 x (-1 / 5) 0.9953189663 0.9594345146 0.6742970332
  let z := (1 / 5) * x
  let y := (6 / 5) * y - z * ((y * y * y) * (y * y * y))
  let y := (6 / 5) * y - z * ((y * y * y) * (y * y * y))
  let x := x * y
  x * x * x

/-- One lane of `linear_to_gamma_2_2_sse2 (x)`: the mask of `_mm_cmpgt_ps`
selects `curve` where `x > 0.003130804954f` and `line` elsewhere.  The
function `linear_to_gamma_2_2_sse2` of the source is
`linear_to_gamma_2_2_sse2 (linear_to_gamma_2_2_lane bits ln2 msqrt)`. -/
def linear_to_gamma_2_2_lane (bits : ℚ → Int) (ln2 : ℚ) (msqrt : ℚ → ℚ) (x : ℚ) : ℚ :=
  let curve := pow_1_24 bits ln2 msqrt x * 1.055 - 0.055
  let line := x * 12.92
  if x > 0.003130804954 then curve else line

/-- One lane of `gamma_2_2_to_linear_sse2 (x)`. -/
def gamma_2_2_to_linear_lane (bits : ℚ → Int) (ln2 : ℚ) (x : ℚ) : ℚ :=
  let curve := pow_24 bits ln2 ((x + 0.055) * (1 / 1.055))
  let line := x * (1 / 12.92)
  if x > 0.04045 then curve else line

/-! ## babl/babl-memory.c

Pointers are natural numbers, `0` being `NULL`.  Memory is a map from
addresses to the object stored there: the `signature` pointer of a
`BablAllocInfo` header at its address, its `size` field eight bytes further
on, and one byte at every payload address.  The functions `malloc_f` and
`free_f` are function pointers: the state records which functions are
installed (by address) and which chunks the allocator has handed out and not
taken back; the pointer the installed allocator returns for a request is an
argument `raw` of each operation that may allocate. -/

/-- The macro `OFFSET`, `sizeof (BablAllocInfo)`: a pointer and a `size_t`. -/
def OFFSET : Nat := 16

/-- The way a call can stop the program instead of returning. -/
inductive Fault where
  /-- A failed `babl_assert (expr)`. -/
  | assertion
  /-- The fatal error "babl memory function(s) attempted switched on the fly". -/
  | switched
  /-- The fatal error "args=(%i): failed" of `babl_malloc`: the allocator returned `NULL`. -/
  | alloc_failed
  /-- The fatal error "memory not allocated by babl allocator". -/
  | not_babl
deriving DecidableEq, Repr

/-- The file-scope variables of `babl-memory.c`, the memory and the chunks
the allocator has outstanding (start address and length). -/
structure Mem where
  malloc_f : Nat
  free_f : Nat
  first_malloc_used : Nat
  first_free_used : Nat
  signature : Nat
  mallocs : Int
  frees : Int
  strdups : Int
  reallocs : Int
  callocs : Int
  dups : Int
  cell : Nat → Nat
  live : List (Nat × Nat)

/-- The state at program start: `malloc_f = malloc`, `free_f = free`, no
function used yet, all counters zero. -/
def Mem.init (malloc free signature : Nat) (cell : Nat → Nat) : Mem :=
  { malloc_f := malloc, free_f := free, first_malloc_used := 0, first_free_used := 0,
    signature := signature, mallocs := 0, frees := 0, strdups := 0, reallocs := 0,
    callocs := 0, dups := 0, cell := cell, live := [] }

/-- The function `babl_set_malloc`. -/
def babl_set_malloc (malloc_function : Nat) (st : Mem) : Mem :=
  { st with malloc_f := malloc_function }

/-- The function `babl_set_free`. -/
def babl_set_free (free_function : Nat) (st : Mem) : Mem :=
  { st with free_f := free_function }

/-- The macro `BAI(ptr)`: the address of the header in front of `ptr`. -/
def BAI (ptr : Nat) : Nat := ptr - OFFSET

/-- The field `BAI(ptr)->signature`. -/
def BAI_signature (st : Mem) (ptr : Nat) : Nat := st.cell (BAI ptr)

/-- The field `BAI(ptr)->size` (at offset 8 in the header). -/
def BAI_size (st : Mem) (ptr : Nat) : Nat := st.cell (BAI ptr + 8)

/-- The macro `IS_BAI(ptr)`. -/
def IS_BAI (st : Mem) (ptr : Nat) : Bool := BAI_signature st ptr == st.signature

/-- Modelled from the spec: `babl_assert` and `babl_fatal` are macros of
`babl-internal.h`, which is not among the sources; a failed assertion and a
fatal error halt the calling process (spec §7, "the library halts the calling
process"), so the call ends in a `Fault`. -/
abbrev Run (α : Type) := Except Fault α

/-- The function `functions_sanity`. -/
def functions_sanity (st : Mem) : Run Mem :=
  if st.first_malloc_used ≠ st.malloc_f ∨ st.first_free_used ≠ st.free_f then
    if st.first_malloc_used = 0 then
      .ok { st with first_malloc_used := st.malloc_f, first_free_used := st.free_f }
    else
      .error Fault.switched
  else
    .ok st

/-- A store of one object into memory. -/
def poke (cell : Nat → Nat) (a v : Nat) : Nat → Nat :=
  fun k => if k = a then v else cell k

/-- The library function `memcpy (dst, src, n)` on memory. -/
def memcpy (cell : Nat → Nat) (dst src n : Nat) : Nat → Nat :=
  fun k => if dst ≤ k ∧ k < dst + n then cell (src + (k - dst)) else cell k

/-- The function `babl_malloc (size)`; `raw` is what `malloc_f (size + OFFSET)` returns, the
request being computed in `size_t`. -/
def babl_malloc (raw : Nat) (size : Nat) (st : Mem) : Run (Nat × Mem) :=
  if size = 0 then .error Fault.assertion
  else
    match functions_sanity st with
    | .error e => .error e
    | .ok st =>
      let ret := raw
      if ret = 0 then .error Fault.alloc_failed
      else
        let st := { st with live := (ret, (size + OFFSET) % 2 ^ 64) :: st.live }
        let st := { st with cell := poke st.cell (BAI (ret + OFFSET)) st.signature }
        let st := { st with cell := poke st.cell (BAI (ret + OFFSET) + 8) size }
        let st := { st with mallocs := st.mallocs + 1 }
        .ok (ret + OFFSET, st)

/-- The function `babl_dup (ptr)`: allocate, copy, `dups++`, `mallocs--`, `return NULL`. -/
def babl_dup (raw : Nat) (ptr : Nat) (st : Mem) : Run (Nat × Mem) :=
  if ¬ IS_BAI st ptr then .error Fault.assertion
  else
    match babl_malloc raw (BAI_size st ptr) st with
    | .error e => .error e
    | .ok (ret, st) =>
      let st := { st with cell := memcpy st.cell ret ptr (BAI_size st ptr) }
      let st := { st with dups := st.dups + 1 }
      let st := { st with mallocs := st.mallocs - 1 }
      .ok (0, st)

/-- The function `babl_free (ptr)`; `free_f (BAI (ptr))` takes the chunk back. -/
def babl_free (ptr : Nat) (st : Mem) : Run Mem :=
  if ptr = 0 then .ok st
  else if ¬ IS_BAI st ptr then .error Fault.not_babl
  else
    match functions_sanity st with
    | .error e => .error e
    | .ok st =>
      let st := { st with live := st.live.eraseP (fun c => c.1 == BAI ptr) }
      .ok { st with frees := st.frees + 1 }

/-- The function `babl_sizeof (ptr)`. -/
def babl_sizeof (ptr : Nat) (st : Mem) : Run Nat :=
  if ¬ IS_BAI st ptr then .error Fault.assertion
  else .ok (BAI_size st ptr)

/-- The function `babl_realloc (ptr, size)`.  The statements after the `if`/`else if` can
only be reached when neither `babl_sizeof (ptr) >= size` nor
`babl_sizeof (ptr) < size`; they end in `return NULL`. -/
def babl_realloc (raw : Nat) (ptr size : Nat) (st : Mem) : Run (Nat × Mem) :=
  if ptr = 0 then babl_malloc raw size st
  else if ¬ IS_BAI st ptr then .error Fault.assertion
  else if size = 0 then
    match babl_free ptr st with
    | .error e => .error e
    | .ok st => .ok (0, st)
  else
    match babl_sizeof ptr st with
    | .error e => .error e
    | .ok sz =>
      if sz ≥ size then .ok (ptr, st)
      else if sz < size then
        match babl_malloc raw size st with
        | .error e => .error e
        | .ok (ret, st) =>
          match babl_sizeof ptr st with
          | .error e => .error e
          | .ok n =>
            let st := { st with cell := memcpy st.cell ret ptr n }
            match babl_free ptr st with
            | .error e => .error e
            | .ok st => .ok (ret, { st with reallocs := st.reallocs + 1 })
      else .ok (0, st)

/-- The bytes of the block at `ptr`: `n` bytes from `ptr` on. -/
def payload (st : Mem) (ptr n : Nat) : List Nat :=
  (List.range n).map (fun k => st.cell (ptr + k))

/-- The pointer `ptr` is a live babl allocation of `size` bytes: it carries the signature
and the size in its header, and its chunk, header included, is outstanding. -/
def LiveBlock (st : Mem) (ptr size : Nat) : Prop :=
  OFFSET ≤ ptr ∧ IS_BAI st ptr = true ∧ BAI_size st ptr = size ∧
    (BAI ptr, (size + OFFSET) % 2 ^ 64) ∈ st.live

/-- The installed functions are the ones first used, or none has been used
yet: `functions_sanity` does not stop the program. -/
def HooksSane (st : Mem) : Prop :=
  (st.first_malloc_used = st.malloc_f ∧ st.first_free_used = st.free_f) ∨
    st.first_malloc_used = 0

/-- The chunk `[raw, raw + len)` shares no address with the chunk
`[raw2, raw2 + len2)`. -/
def Disjoint2 (raw len raw2 len2 : Nat) : Prop :=
  raw + len ≤ raw2 ∨ raw2 + len2 ≤ raw

/-- The allocator returned a usable chunk for a request of `len` bytes: it is
not `NULL` and shares no address with a chunk that is still outstanding. -/
def FreshChunk (st : Mem) (raw len : Nat) : Prop :=
  raw ≠ 0 ∧ ∀ c ∈ st.live, Disjoint2 raw len c.1 c.2

/-- The state `functions_sanity` leaves when it returns. -/
def afterSanity (st : Mem) : Mem :=
  { st with first_malloc_used := st.malloc_f, first_free_used := st.free_f }

/-- The state a returning `babl_malloc (size)` leaves, the allocator having
returned `raw`. -/
def afterMalloc (raw size : Nat) (st : Mem) : Mem :=
  { afterSanity st with
    live := (raw, (size + OFFSET) % 2 ^ 64) :: st.live
    cell := poke (poke st.cell raw st.signature) (raw + 8) size
    mallocs := st.mallocs + 1 }

/-- The state a returning `babl_free (ptr)` leaves, for `ptr` not `NULL`. -/
def afterFree (ptr : Nat) (st : Mem) : Mem :=
  { afterSanity st with
    live := st.live.eraseP (fun c => c.1 == BAI ptr)
    frees := st.frees + 1 }

/-- A state with one live block: the one `babl_malloc (8)` leaves at program
start when the allocator returns the chunk at address 4096. -/
def oneBlock : Mem := afterMalloc 4096 8 (Mem.init 1 2 3 (fun _ => 0))

/-- The state a growing `babl_realloc (ptr, size)` leaves: `babl_malloc`, then
`memcpy` of the `s` bytes recorded for `ptr`, then `babl_free (ptr)`, then
`reallocs++`. -/
def afterGrow (raw ptr size s : Nat) (st : Mem) : Mem :=
  { afterFree ptr
      { afterMalloc raw size st with
        cell := memcpy (afterMalloc raw size st).cell (raw + OFFSET) ptr s } with
    reallocs := st.reallocs + 1 }

/-- The library function `memset (dst, c, n)` on memory. -/
def memset (cell : Nat → Nat) (dst c n : Nat) : Nat → Nat :=
  fun k => if dst ≤ k ∧ k < dst + n then c else cell k

/-- The library function `strcpy (dst, s)` on memory, for a string `s` given by
the characters before its terminating NUL: the characters, then the NUL. -/
def strcpy (cell : Nat → Nat) (dst : Nat) (s : List Nat) : Nat → Nat :=
  fun k =>
    if dst ≤ k ∧ k < dst + s.length then s.getD (k - dst) 0
    else if k = dst + s.length then 0
    else cell k

/-- The library function `strlen (p)` on a string that lives in memory: the
scan for the first NUL, `n` characters having been passed. -/
def strlen (cell : Nat → Nat) (p : Nat) : Nat → Nat → Option Nat
  | 0, _ => none
  | fuel + 1, n => if cell (p + n) = 0 then some n else strlen cell p fuel (n + 1)

/-- The conversion of an `int` to `size_t` (64 bits, modular). -/
def toSizeT (x : Int) : Nat := (x % 2 ^ 64).toNat

/-- The function `babl_calloc (nmemb, size)`; the product is computed in
`size_t`.  The test `if (!ret)` repeats the one `babl_malloc` has made. -/
def babl_calloc (raw : Nat) (nmemb size : Nat) (st : Mem) : Run (Nat × Mem) :=
  match babl_malloc raw (nmemb * size % 2 ^ 64) st with
  | .error e => .error e
  | .ok (ret, st) =>
    if ret = 0 then .error Fault.alloc_failed
    else
      let st := { st with cell := memset st.cell ret 0 (nmemb * size % 2 ^ 64) }
      let st := { st with callocs := st.callocs + 1 }
      let st := { st with mallocs := st.mallocs - 1 }
      .ok (ret, st)

/-- The function `babl_strdup (s)`, for a string `s` given by the characters
before its terminating NUL (`babl_log` only prints). -/
def babl_strdup (raw : Nat) (s : List Nat) (st : Mem) : Run (Nat × Mem) :=
  match babl_malloc raw ((s.length + 1) % 2 ^ 64) st with
  | .error e => .error e
  | .ok (ret, st) =>
    let st := { st with cell := strcpy st.cell ret s }
    let st := { st with strdups := st.strdups + 1 }
    let st := { st with mallocs := st.mallocs - 1 }
    .ok (ret, st)

/-- The loop `while (new_size < src_len + dst_len + 1) new_size *= 2;` of
`babl_strcat`, `need` being the bound converted to `size_t`. -/
def babl_strcat_grow (need : Nat) : Nat → Nat → Option Nat
  | 0, _ => none
  | fuel + 1, new_size =>
    if new_size < need then babl_strcat_grow need fuel (new_size * 2 % 2 ^ 64)
    else some new_size

/-- The function `babl_strcat (dest, src)`; `src` is given by the characters
before its terminating NUL, `dest` is a pointer.  The lengths are stored in
`int` variables; `none` means the fuel of a loop ran out. -/
def babl_strcat (fuel : Nat) (raw : Nat) (dest : Nat) (src : List Nat) (st : Mem) :
    Option (Run (Nat × Mem)) :=
  let src_len : Int := toInt32 (src.length : Int)
  if dest = 0 then
    match babl_malloc raw (toSizeT (src_len + 1)) st with
    | .error e => some (.error e)
    | .ok (ret, st) => some (.ok (ret, { st with cell := strcpy st.cell ret src }))
  else if ¬ IS_BAI st dest then some (.error Fault.assertion)
  else
    match strlen st.cell dest fuel 0 with
    | none => none
    | some n =>
      let dst_len : Int := toInt32 (n : Int)
      match babl_sizeof dest st with
      | .error e => some (.error e)
      | .ok sz =>
        if sz < toSizeT (src_len + dst_len + 1) then
          match babl_strcat_grow (toSizeT (src_len + dst_len + 1)) fuel sz with
          | none => none
          | some new_size =>
            match babl_realloc raw dest new_size st with
            | .error e => some (.error e)
            | .ok (ret, st) =>
              some (.ok (ret,
                { st with cell := strcpy st.cell ((ret : Int) + dst_len).toNat src }))
        else
          some (.ok (dest,
            { st with cell := strcpy st.cell ((dest : Int) + dst_len).toNat src }))

/-- The figure `mem_stats` prints as `allocs`. -/
def mem_stats_allocs (st : Mem) : Int :=
  st.mallocs + st.callocs + st.strdups + st.dups

/-- The function `babl_memory_sanity`. -/
def babl_memory_sanity (st : Mem) : Int :=
  if st.frees ≠ st.mallocs + st.strdups + st.callocs then -1 else 0

/-- A call into `babl-memory.c`, with the allocator's answer `raw` for the
calls that may allocate. -/
inductive Call where
  | set_malloc (malloc_function : Nat)
  | set_free (free_function : Nat)
  | malloc (raw size : Nat)
  | calloc (raw nmemb size : Nat)
  | strdup (raw : Nat) (s : List Nat)
  | dup (raw ptr : Nat)
  | free (ptr : Nat)
  | realloc (raw ptr size : Nat)
  | strcat (fuel raw dest : Nat) (src : List Nat)

/-- The state a call leaves; `none` when a loop ran out of fuel. -/
def Call.exec (st : Mem) : Call → Option (Run Mem)
  | .set_malloc g => some (.ok (babl_set_malloc g st))
  | .set_free g => some (.ok (babl_set_free g st))
  | .malloc raw size => some ((babl_malloc raw size st).map Prod.snd)
  | .calloc raw nmemb size => some ((babl_calloc raw nmemb size st).map Prod.snd)
  | .strdup raw s => some ((babl_strdup raw s st).map Prod.snd)
  | .dup raw ptr => some ((babl_dup raw ptr st).map Prod.snd)
  | .free ptr => some (babl_free ptr st)
  | .realloc raw ptr size => some ((babl_realloc raw ptr size st).map Prod.snd)
  | .strcat fuel raw dest src => (babl_strcat fuel raw dest src st).map (Except.map Prod.snd)

/-- The state reached by a sequence of calls that all return (`none` when one
of them stops the program or runs out of fuel). -/
def execAll : List Call → Mem → Option Mem
  | [], st => some st
  | c :: cs, st =>
    match c.exec st with
    | some (.ok st') => execAll cs st'
    | _ => none

/-- The state `oneBlock` after `babl_set_malloc` has installed another
function (address 7) than the one first used. -/
def switchedBlock : Mem := babl_set_malloc 7 oneBlock

/-- The pair `(first_malloc_used, first_free_used)`. -/
def firstUsed (st : Mem) : Nat × Nat := (st.first_malloc_used, st.first_free_used)

/-- The pair `(malloc_f, free_f)` of installed functions. -/
def installed (st : Mem) : Nat × Nat := (st.malloc_f, st.free_f)

/-- The memory from `p` on holds the NUL-terminated string whose characters
are `d`: the characters, none of them NUL, then a NUL. -/
def HoldsString (cell : Nat → Nat) (p : Nat) (d : List Nat) : Prop :=
  (∀ k, k < d.length → cell (p + k) = d.getD k 0 ∧ d.getD k 0 ≠ 0) ∧ cell (p + d.length) = 0

/-- The counters of `st'` are those of `st` plus the increments `dm` (`mallocs`),
`dc` (`callocs`), `ds` (`strdups`), `dd` (`dups`), `df` (`frees`) and `dr`
(`reallocs`). -/
def CountersMove (st st' : Mem) (dm dc ds dd df dr : Int) : Prop :=
  st'.mallocs = st.mallocs + dm ∧ st'.callocs = st.callocs + dc ∧
  st'.strdups = st.strdups + ds ∧ st'.dups = st.dups + dd ∧
  st'.frees = st.frees + df ∧ st'.reallocs = st.reallocs + dr

/-- The allocations `mem_stats` counts, minus the frees, minus the number of
chunks outstanding. -/
def balance (st : Mem) : Int :=
  mem_stats_allocs st - st.frees - (st.live.length : Int)

/-- The chunk of the block at `ptr` is outstanding: the allocator has handed
it out and not taken it back. -/
def outstanding (st : Mem) (ptr : Nat) : Bool :=
  st.live.any (fun c => c.1 == BAI ptr)

/-- The pointer the call hands to `babl_free`, if any, is `NULL` or a block
whose chunk is outstanding (C leaves freeing any other pointer undefined). -/
def Call.onLive (st : Mem) : Call → Bool
  | .free ptr => ptr == 0 || outstanding st ptr
  | .realloc _ ptr _ => ptr == 0 || outstanding st ptr
  | .strcat _ _ dest _ => dest == 0 || outstanding st dest
  | _ => true

/-- Every call of the sequence satisfies `Call.onLive` in the state it is made in. -/
def allOnLive : List Call → Mem → Bool
  | [], _ => true
  | c :: cs, st =>
    c.onLive st &&
      (match c.exec st with
       | some (.ok st') => allOnLive cs st'
       | _ => true)

/-- The calls of the witness of C25: `babl_malloc (8)`, `babl_calloc (2, 4)`,
`babl_strdup ("hi")`, `babl_dup`, a growing `babl_realloc`, a growing
`babl_strcat`, `babl_free` of the `calloc` block and `babl_free (NULL)`. -/
def tallyCalls : List Call :=
  [Call.malloc 4096 8, Call.calloc 8192 2 4, Call.strdup 12288 [104, 105],
   Call.dup 16384 4112, Call.realloc 20480 4112 64, Call.strcat 10 24576 12304 [33],
   Call.free 8208, Call.free 0]

/-! ### Theorems: type-u16.c -/

theorem convert_u16_double_scaled_run (min_val max_val : ℚ) (min max : Nat)
    (mem : Int → Nat) (sp dp : Int) (n extra : Nat) :
    ∀ (src dst : Int) (acc : List (Int × ℚ)),
      convert_u16_double_scaled min_val max_val min max mem sp dp (extra + (n + 1))
          src dst (n : Int) acc
        = some ⟨-1, acc ++ (List.range n).map (fun (i : Nat) =>
            (dst + (i : Int) * dp,
             u16_double_sample min_val max_val min max (mem (src + (i : Int) * sp) : Int)))⟩ := by
  induction n with
  | zero =>
    intro src dst acc
    simp [convert_u16_double_scaled]
  | succ k ih =>
    intro src dst acc
    have h1 : extra + (k + 1 + 1) = (extra + (k + 1)) + 1 := by omega
    have h2 : ((k + 1 : Nat) : Int) ≠ 0 := by omega
    have h3 : ((k + 1 : Nat) : Int) - 1 = (k : Int) := by omega
    rw [h1, convert_u16_double_scaled, if_pos h2, h3, ih]
    simp only [List.range_succ_eq_map, List.map_cons, List.map_map, List.append_assoc,
      List.singleton_append]
    congr 3
    simp only [Nat.cast_zero, zero_mul, add_zero, List.cons.injEq, true_and]
    apply List.map_congr_left
    intro i _
    have e1 : dst + dp + (i : Int) * dp = dst + ((Nat.succ i : Nat) : Int) * dp := by
      push_cast; ring
    have e2 : src + sp + (i : Int) * sp = src + ((Nat.succ i : Nat) : Int) * sp := by
      push_cast; ring
    simp only [Function.comp, e1, e2]

theorem convert_double_u16_scaled_run (min_val max_val : ℚ) (min max : Nat)
    (mem : Int → ℚ) (sp dp : Int) (n extra : Nat) :
    ∀ (src dst : Int) (acc : List (Int × Nat)),
      convert_double_u16_scaled min_val max_val min max mem sp dp (extra + (n + 1))
          src dst (n : Int) acc
        = some ⟨-1, acc ++ (List.range n).map (fun (i : Nat) =>
            (dst + (i : Int) * dp,
             double_u16_sample min_val max_val min max (mem (src + (i : Int) * sp))))⟩ := by
  induction n with
  | zero =>
    intro src dst acc
    simp [convert_double_u16_scaled]
  | succ k ih =>
    intro src dst acc
    have h1 : extra + (k + 1 + 1) = (extra + (k + 1)) + 1 := by omega
    have h2 : ((k + 1 : Nat) : Int) ≠ 0 := by omega
    have h3 : ((k + 1 : Nat) : Int) - 1 = (k : Int) := by omega
    rw [h1, convert_double_u16_scaled, if_pos h2, h3, ih]
    simp only [List.range_succ_eq_map, List.map_cons, List.map_map, List.append_assoc,
      List.singleton_append]
    congr 3
    simp only [Nat.cast_zero, zero_mul, add_zero, List.cons.injEq, true_and]
    apply List.map_congr_left
    intro i _
    have e1 : dst + dp + (i : Int) * dp = dst + ((Nat.succ i : Nat) : Int) * dp := by
      push_cast; ring
    have e2 : src + sp + (i : Int) * sp = src + ((Nat.succ i : Nat) : Int) * sp := by
      push_cast; ring
    simp only [Function.comp, e1, e2]

theorem u16_to_double_eq (v : Nat) (hv : v ≤ 0xffff) : u16_to_double v = (v : ℚ) / 0xffff := by
  unfold u16_to_double u16_double_sample
  have h1 : ¬ ((v : Int) < ((0 : Nat) : Int)) := by omega
  have h2 : ¬ ((v : Int) > ((0xffff : Nat) : Int)) := by omega
  rw [if_neg h1, if_neg h2]
  norm_num

theorem double_to_u16_eq (x : ℚ) (h0 : 0 ≤ x) (h1 : x ≤ 1) :
    ((double_to_u16 x : Nat) : Int) = Int.floor (x * 0xffff) := by
  unfold double_to_u16 double_u16_sample doubleToUShort truncDouble
  have hx0 : ¬ (x < 0) := not_lt.mpr h0
  have hx1 : ¬ (x > 1) := not_lt.mpr h1
  rw [if_neg hx0, if_neg hx1]
  have e : (x - 0) / (1 - 0) * ((((0xffff : Nat) : Int) - ((0 : Nat) : Int) : Int) : ℚ)
      + (((0 : Nat) : Int) : ℚ) = x * 0xffff := by norm_num
  rw [e]
  have hp : (0 : ℚ) ≤ x * 0xffff := by positivity
  rw [if_pos hp]
  have hf0 : 0 ≤ Int.floor (x * 0xffff) := Int.floor_nonneg.mpr hp
  have hf1 : Int.floor (x * 0xffff) ≤ 0xffff := by
    have : x * 0xffff ≤ ((0xffff : Int) : ℚ) := by push_cast; nlinarith
    exact Int.cast_le.mp (le_trans (Int.floor_le _) this)
  omega

theorem u16_roundtrip_sample (x : ℚ) (h0 : 0 ≤ x) (h1 : x ≤ 1) :
    |u16_to_double (double_to_u16 x) - x| ≤ 1 / 0xffff := by
  have hf := double_to_u16_eq x h0 h1
  have hp : (0 : ℚ) ≤ x * 0xffff := by positivity
  have hle : double_to_u16 x ≤ 0xffff := by
    have : x * 0xffff ≤ ((0xffff : Int) : ℚ) := by push_cast; nlinarith
    have hf1 : Int.floor (x * 0xffff) ≤ 0xffff :=
      Int.cast_le.mp (le_trans (Int.floor_le _) this)
    omega
  rw [u16_to_double_eq _ hle]
  have hc : ((double_to_u16 x : Nat) : ℚ) = ((Int.floor (x * 0xffff) : Int) : ℚ) := by
    rw [← hf]; simp
  rw [hc]
  have hlo : ((Int.floor (x * 0xffff) : Int) : ℚ) ≤ x * 0xffff := Int.floor_le _
  have hhi : x * 0xffff < ((Int.floor (x * 0xffff) : Int) : ℚ) + 1 := Int.lt_floor_add_one _
  rw [abs_le]
  constructor
  · rw [le_sub_iff_add_le, neg_add_eq_sub, sub_le_iff_le_add, div_add_div_same,
      le_div_iff₀ (by norm_num)]
    linarith
  · rw [sub_le_iff_le_add, div_le_iff₀ (by norm_num)]
    have : (0:ℚ) ≤ 1 / 0xffff := by norm_num
    nlinarith

/-- C1: for every pixel count `n` and all pitches, `convert_u16_double` and
`convert_double_u16` terminate having performed exactly `n` stores, and the
value they return is `-1` (the counter after the failing `while (n--)` test),
not the number `n` of pixels processed. -/
theorem u16_kernels_return_minus_one (memU : Int → Nat) (memD : Int → ℚ)
    (src dst sp dp : Int) (n extra : Nat) :
    (∃ st, convert_u16_double (extra + (n + 1)) memU src dst sp dp (n : Int) = some ⟨-1, st⟩
        ∧ st.length = n) ∧
    (∃ st, convert_double_u16 (extra + (n + 1)) memD src dst sp dp (n : Int) = some ⟨-1, st⟩
        ∧ st.length = n) := by
  have hU := convert_u16_double_scaled_run 0 1 0 0xffff memU sp dp n extra src dst []
  have hD := convert_double_u16_scaled_run 0 1 0 0xffff memD sp dp n extra src dst []
  exact ⟨⟨_, hU, by simp⟩, ⟨_, hD, by simp⟩⟩

/-- C2: when the source holds 16-bit values, `convert_u16_double` stores, for
pixel `i`, the exact quotient `v_i / 0xffff` at byte offset `i * dst_pitch`. -/
theorem convert_u16_double_exact (mem : Int → Nat) (src dst sp dp : Int) (n extra : Nat)
    (hmem : ∀ a, mem a ≤ 0xffff) :
    ∃ r, convert_u16_double (extra + (n + 1)) mem src dst sp dp (n : Int) = some r ∧
      r.stores = (List.range n).map (fun (i : Nat) =>
        (dst + (i : Int) * dp, ((mem (src + (i : Int) * sp) : Nat) : ℚ) / 0xffff)) := by
  have h := convert_u16_double_scaled_run 0 1 0 0xffff mem sp dp n extra src dst []
  refine ⟨_, h, ?_⟩
  simp only [List.nil_append]
  apply List.map_congr_left
  intro i _
  have := u16_to_double_eq (mem (src + (i : Int) * sp)) (hmem _)
  unfold u16_to_double at this
  rw [this]

theorem u16Array_le (a : Int) : u16Array [0, 0x8000, 0xffff] a ≤ 0xffff := by
  unfold u16Array
  generalize (a / 2).toNat = k
  rcases k with _ | _ | _ | k <;> simp [List.getD]

/-- C2, on the sequence `[0, 0x8000, 0xffff]`: the stored doubles are
`[0, 0x8000/0xffff, 1]`. -/
theorem convert_u16_double_exact_witness :
    (∀ a, u16Array [0, 0x8000, 0xffff] a ≤ 0xffff) ∧
    ∃ r, convert_u16_double 4 (u16Array [0, 0x8000, 0xffff]) 0 0 2 8 3 = some r ∧
      r.stores = [(0, 0), (8, 0x8000 / 0xffff), (16, 1)] := by
  refine ⟨u16Array_le, ?_⟩
  obtain ⟨r, h1, h2⟩ :=
    convert_u16_double_exact (u16Array [0, 0x8000, 0xffff]) 0 0 2 8 3 0 u16Array_le
  refine ⟨r, h1, ?_⟩
  rw [h2]
  simp [List.range_succ, u16Array]

/-- C3: run `convert_double_u16` over `n` doubles that all lie in `[0, 1]`, then
`convert_u16_double` over the `n` values it stored: the double stored for
pixel `i` differs from the original by at most `1 / 0xffff`. -/
theorem u16_roundtrip_within (memD : Int → ℚ) (src mid dst sp1 dp1 dp2 : Int)
    (n e1 e2 : Nat)
    (hD : ∀ i : Nat, i < n → 0 ≤ memD (src + (i : Int) * sp1) ∧ memD (src + (i : Int) * sp1) ≤ 1) :
    ∃ u : Nat → Nat,
      convert_double_u16 (e1 + (n + 1)) memD src mid sp1 dp1 (n : Int)
        = some ⟨-1, (List.range n).map (fun (i : Nat) => (mid + (i : Int) * dp1, u i))⟩ ∧
      ∀ memU : Int → Nat, (∀ i : Nat, i < n → memU (mid + (i : Int) * dp1) = u i) →
        ∃ y : Nat → ℚ,
          convert_u16_double (e2 + (n + 1)) memU mid dst dp1 dp2 (n : Int)
            = some ⟨-1, (List.range n).map (fun (i : Nat) => (dst + (i : Int) * dp2, y i))⟩ ∧
          ∀ i : Nat, i < n → |y i - memD (src + (i : Int) * sp1)| ≤ 1 / 0xffff := by
  refine ⟨fun i => double_to_u16 (memD (src + (i : Int) * sp1)), ?_, ?_⟩
  · unfold convert_double_u16
    rw [convert_double_u16_scaled_run]
    simp [double_to_u16]
  · intro memU hU
    refine ⟨fun i => u16_to_double (double_to_u16 (memD (src + (i : Int) * sp1))), ?_, ?_⟩
    · unfold convert_u16_double
      rw [convert_u16_double_scaled_run]
      simp only [List.nil_append]
      congr 2
      apply List.map_congr_left
      intro i hi
      rw [hU i (List.mem_range.mp hi)]
      rfl
    · intro i hi
      exact u16_roundtrip_sample _ (hD i hi).1 (hD i hi).2

theorem doubleArray_unit (i : Nat) (hi : i < 5) :
    0 ≤ doubleArray [0, 1/4, 1/2, 3/4, 1] (0 + (i : Int) * 8) ∧
      doubleArray [0, 1/4, 1/2, 3/4, 1] (0 + (i : Int) * 8) ≤ 1 := by
  interval_cases i <;> simp [doubleArray] <;> norm_num

/-- C3, on the sequence `[0, 1/4, 1/2, 3/4, 1]`. -/
theorem u16_roundtrip_within_witness :
    (∀ i : Nat, i < 5 → 0 ≤ doubleArray [0, 1/4, 1/2, 3/4, 1] (0 + (i : Int) * 8) ∧
        doubleArray [0, 1/4, 1/2, 3/4, 1] (0 + (i : Int) * 8) ≤ 1) ∧
    ∃ u : Nat → Nat,
      convert_double_u16 (0 + (5 + 1)) (doubleArray [0, 1/4, 1/2, 3/4, 1]) 0 0 8 2 ((5 : Nat) : Int)
        = some ⟨-1, (List.range 5).map (fun (i : Nat) => (0 + (i : Int) * 2, u i))⟩ ∧
      ∀ memU : Int → Nat, (∀ i : Nat, i < 5 → memU (0 + (i : Int) * 2) = u i) →
        ∃ y : Nat → ℚ,
          convert_u16_double (0 + (5 + 1)) memU 0 0 2 8 ((5 : Nat) : Int)
            = some ⟨-1, (List.range 5).map (fun (i : Nat) => (0 + (i : Int) * 8, y i))⟩ ∧
          ∀ i : Nat, i < 5 →
            |y i - doubleArray [0, 1/4, 1/2, 3/4, 1] (0 + (i : Int) * 8)| ≤ 1 / 0xffff :=
  ⟨doubleArray_unit,
    u16_roundtrip_within (doubleArray [0, 1/4, 1/2, 3/4, 1]) 0 0 0 8 2 8 5 0 0 doubleArray_unit⟩


theorem applyStores_frame {β : Type} (width : Nat) (enc : β → Nat → Nat) (b : Int) :
    ∀ (stores : List (Int × β)) (m : Int → Nat),
      (∀ s ∈ stores, b < s.1 ∨ s.1 + (width : Int) ≤ b) →
      applyStores width enc stores m b = m b := by
  intro stores
  induction stores with
  | nil => intro m _; rfl
  | cons s rest ih =>
    intro m h
    obtain ⟨a, v⟩ := s
    unfold applyStores
    rw [ih _ (fun s hs => h s (List.mem_cons_of_mem _ hs))]
    have := h (a, v) (List.mem_cons_self _ _)
    simp only at this
    rw [if_neg (by omega)]

/-- C17: for every `n` and all signed pitches, `convert_u16_double` and
`convert_double_u16` perform, in this order, the stores for `i = 0, ..., n-1`,
store `i` writing at byte address `dst + i * dst_pitch` the conversion of the
sample read at `src + i * src_pitch`; every destination byte outside the
samples stored (8 bytes for a `double`, 2 for an `unsigned short`) is left
as it was. -/
theorem u16_kernels_follow_pitches (memU : Int → Nat) (memD : Int → ℚ)
    (src dst sp dp : Int) (n extra : Nat) (m : Int → Nat) (encD : ℚ → Nat → Nat)
    (encU : Nat → Nat → Nat) :
    (∃ r, convert_u16_double (extra + (n + 1)) memU src dst sp dp (n : Int) = some r ∧
      r.stores = (List.range n).map (fun (i : Nat) =>
        (dst + (i : Int) * dp, u16_to_double (memU (src + (i : Int) * sp)))) ∧
      ∀ b : Int, (∀ i : Nat, i < n → b < dst + (i : Int) * dp ∨ dst + (i : Int) * dp + 8 ≤ b) →
        applyStores 8 encD r.stores m b = m b) ∧
    (∃ r, convert_double_u16 (extra + (n + 1)) memD src dst sp dp (n : Int) = some r ∧
      r.stores = (List.range n).map (fun (i : Nat) =>
        (dst + (i : Int) * dp, double_to_u16 (memD (src + (i : Int) * sp)))) ∧
      ∀ b : Int, (∀ i : Nat, i < n → b < dst + (i : Int) * dp ∨ dst + (i : Int) * dp + 2 ≤ b) →
        applyStores 2 encU r.stores m b = m b) := by
  have hU := convert_u16_double_scaled_run 0 1 0 0xffff memU sp dp n extra src dst []
  have hD := convert_double_u16_scaled_run 0 1 0 0xffff memD sp dp n extra src dst []
  constructor
  · refine ⟨_, hU, by simp [u16_to_double], ?_⟩
    intro b hb
    apply applyStores_frame
    intro s hs
    simp only [List.nil_append, List.mem_map, List.mem_range] at hs
    obtain ⟨i, hi, rfl⟩ := hs
    simpa using hb i hi
  · refine ⟨_, hD, by simp [double_to_u16], ?_⟩
    intro b hb
    apply applyStores_frame
    intro s hs
    simp only [List.nil_append, List.mem_map, List.mem_range] at hs
    obtain ⟨i, hi, rfl⟩ := hs
    simpa using hb i hi


theorem double_to_u16_le (x : ℚ) : double_to_u16 x ≤ 0xffff := by
  unfold double_to_u16 double_u16_sample doubleToUShort
  split_ifs <;> omega

theorem double_to_u16_neg (x : ℚ) (h : x < 0) : double_to_u16 x = 0 := by
  unfold double_to_u16 double_u16_sample
  rw [if_pos h]

theorem double_to_u16_big (x : ℚ) (h : 1 < x) : double_to_u16 x = 0xffff := by
  unfold double_to_u16 double_u16_sample
  have h0 : ¬ (x < 0) := by linarith
  rw [if_neg h0, if_pos h]

theorem double_to_u16_mono (x y : ℚ) (h : x ≤ y) : double_to_u16 x ≤ double_to_u16 y := by
  by_cases hx : x < 0
  · rw [double_to_u16_neg x hx]
    exact Nat.zero_le _
  · by_cases hy : 1 < y
    · rw [double_to_u16_big y hy]
      exact double_to_u16_le x
    · have hx0 : 0 ≤ x := not_lt.mp hx
      have hy1 : y ≤ 1 := not_lt.mp hy
      have ex := double_to_u16_eq x hx0 (le_trans h hy1)
      have ey := double_to_u16_eq y (le_trans hx0 h) hy1
      have hm : Int.floor (x * 0xffff) ≤ Int.floor (y * 0xffff) :=
        Int.floor_mono (by nlinarith)
      omega

/-- C22: `convert_double_u16` stores `double_to_u16` of every sample, and that
value is at most `0xffff`, is `0` for every `x < 0`, is `0xffff` for every
`x > 1`, is the floor of `x * 0xffff` for `0 ≤ x ≤ 1` (exact arithmetic), and
is monotone in `x`. -/
theorem convert_double_u16_clamps_monotone (memD : Int → ℚ) (src dst sp dp : Int)
    (n extra : Nat) :
    (∃ r, convert_double_u16 (extra + (n + 1)) memD src dst sp dp (n : Int) = some r ∧
      r.stores = (List.range n).map (fun (i : Nat) =>
        (dst + (i : Int) * dp, double_to_u16 (memD (src + (i : Int) * sp))))) ∧
    (∀ x : ℚ, 0 ≤ double_to_u16 x ∧ double_to_u16 x ≤ 0xffff) ∧
    (∀ x : ℚ, x < 0 → double_to_u16 x = 0) ∧
    (∀ x : ℚ, 1 < x → double_to_u16 x = 0xffff) ∧
    (∀ x : ℚ, 0 ≤ x → x ≤ 1 → ((double_to_u16 x : Nat) : Int) = Int.floor (x * 0xffff)) ∧
    (∀ x y : ℚ, x ≤ y → double_to_u16 x ≤ double_to_u16 y) := by
  have hD := convert_double_u16_scaled_run 0 1 0 0xffff memD sp dp n extra src dst []
  exact ⟨⟨_, hD, by simp [double_to_u16]⟩,
    fun x => ⟨Nat.zero_le _, double_to_u16_le x⟩, double_to_u16_neg, double_to_u16_big,
    double_to_u16_eq, double_to_u16_mono⟩

theorem u16_lossless_sample (v : Nat) (hv : v ≤ 0xffff) :
    double_to_u16 (u16_to_double v) = v := by
  rw [u16_to_double_eq v hv]
  have h0 : (0 : ℚ) ≤ (v : ℚ) / 0xffff := by positivity
  have h1 : (v : ℚ) / 0xffff ≤ 1 := by
    rw [div_le_one (by norm_num)]
    exact_mod_cast hv
  have h := double_to_u16_eq _ h0 h1
  have e : (v : ℚ) / 0xffff * 0xffff = ((v : Int) : ℚ) := by
    rw [div_mul_cancel₀ _ (by norm_num)]
    simp
  rw [e, Int.floor_intCast] at h
  exact_mod_cast h

/-- C23: run `convert_u16_double` over `n` 16-bit values, then
`convert_double_u16` over the `n` doubles it stored: the value stored for pixel
`i` is the original 16-bit value `v_i` (exact arithmetic); sample by sample,
`double_to_u16 (u16_to_double v) = v` for every `v ≤ 0xffff`. -/
theorem u16_double_u16_lossless (memU : Int → Nat) (src mid dst sp1 dp1 dp2 : Int)
    (n e1 e2 : Nat) (hU : ∀ a, memU a ≤ 0xffff) :
    (∀ v : Nat, v ≤ 0xffff → double_to_u16 (u16_to_double v) = v) ∧
    ∃ d : Nat → ℚ,
      convert_u16_double (e1 + (n + 1)) memU src mid sp1 dp1 (n : Int)
        = some ⟨-1, (List.range n).map (fun (i : Nat) => (mid + (i : Int) * dp1, d i))⟩ ∧
      ∀ memD : Int → ℚ, (∀ i : Nat, i < n → memD (mid + (i : Int) * dp1) = d i) →
        convert_double_u16 (e2 + (n + 1)) memD mid dst dp1 dp2 (n : Int)
          = some ⟨-1, (List.range n).map (fun (i : Nat) =>
              (dst + (i : Int) * dp2, memU (src + (i : Int) * sp1)))⟩ := by
  refine ⟨u16_lossless_sample, fun i => u16_to_double (memU (src + (i : Int) * sp1)), ?_, ?_⟩
  · unfold convert_u16_double
    rw [convert_u16_double_scaled_run]
    simp [u16_to_double]
  · intro memD hD
    unfold convert_double_u16
    rw [convert_double_u16_scaled_run]
    simp only [List.nil_append]
    congr 2
    apply List.map_congr_left
    intro i hi
    rw [hD i (List.mem_range.mp hi)]
    have := u16_lossless_sample _ (hU (src + (i : Int) * sp1))
    unfold double_to_u16 at this
    rw [this]

/-- C23, on the sequence `[0, 0x8000, 0xffff]`. -/
theorem u16_double_u16_lossless_witness :
    (∀ a, u16Array [0, 0x8000, 0xffff] a ≤ 0xffff) ∧
    ((∀ v : Nat, v ≤ 0xffff → double_to_u16 (u16_to_double v) = v) ∧
    ∃ d : Nat → ℚ,
      convert_u16_double (0 + (3 + 1)) (u16Array [0, 0x8000, 0xffff]) 0 0 2 8 ((3 : Nat) : Int)
        = some ⟨-1, (List.range 3).map (fun (i : Nat) => (0 + (i : Int) * 8, d i))⟩ ∧
      ∀ memD : Int → ℚ, (∀ i : Nat, i < 3 → memD (0 + (i : Int) * 8) = d i) →
        convert_double_u16 (0 + (3 + 1)) memD 0 0 8 2 ((3 : Nat) : Int)
          = some ⟨-1, (List.range 3).map (fun (i : Nat) =>
              (0 + (i : Int) * 2, u16Array [0, 0x8000, 0xffff] (0 + (i : Int) * 2)))⟩) :=
  ⟨u16Array_le, u16_double_u16_lossless (u16Array [0, 0x8000, 0xffff]) 0 0 0 2 8 2 3 0 0
    u16Array_le⟩

/-! ### Theorems: sse2-float.c -/

theorem Converted.refl {α : Type} (f : V4 α → V4 α) (src out : FBuf α) (lo : Int) :
    Converted f src out out lo lo :=
  ⟨fun j h1 h2 => absurd h1 (by omega), fun _ _ => rfl⟩

theorem Converted.append {α : Type} {f : V4 α → V4 α} {src out0 out1 out2 : FBuf α}
    {lo mid hi : Int} (h1 : Converted f src out0 out1 lo mid)
    (h2 : Converted f src out1 out2 mid hi) (hlm : lo ≤ mid) (hmh : mid ≤ hi) :
    Converted f src out0 out2 lo hi := by
  constructor
  · intro j hj1 hj2
    by_cases hj : j < mid
    · rw [← h1.1 j hj1 hj]
      simp only [pixel, mm_load_ps]
      rw [h2.2 (4 * j) (by omega), h2.2 (4 * j + 1) (by omega), h2.2 (4 * j + 2) (by omega),
        h2.2 (4 * j + 3) (by omega)]
    · exact h2.1 j (by omega) hj2
  · intro k hk
    rw [h2.2 k (by omega), h1.2 k (by omega)]

theorem store1_same {α : Type} (m : FBuf α) (p : Int) (x : α) : store1 m p x p = x := by
  simp [store1]

theorem store1_other {α : Type} (m : FBuf α) (p k : Int) (x : α) (h : k ≠ p) :
    store1 m p x k = m k := by
  simp [store1, h]

theorem premul_scalar_run {α : Type} [Mul α] (src : FBuf α) (k : Nat) :
    ∀ (fuel : Nat) (p : Int) (dst : FBuf α), k < fuel →
      ∃ out, conv_rgbaF_linear_rgbAF_linear_scalar src fuel (k : Int) (p * 4) (p * 4) dst
          = some out ∧ Converted premultiplied src dst out p (p + k) := by
  induction k with
  | zero =>
    intro fuel p dst hf
    obtain ⟨f, rfl⟩ : ∃ f, fuel = f + 1 := ⟨fuel - 1, by omega⟩
    refine ⟨dst, by simp [conv_rgbaF_linear_rgbAF_linear_scalar], ?_⟩
    simpa using Converted.refl premultiplied src dst p
  | succ k ih =>
    intro fuel p dst hf
    obtain ⟨f, rfl⟩ : ∃ f, fuel = f + 1 := ⟨fuel - 1, by omega⟩
    have h2 : ((k + 1 : Nat) : Int) ≠ 0 := by omega
    have h3 : ((k + 1 : Nat) : Int) - 1 = (k : Int) := by omega
    have h4 : p * 4 + 4 = (p + 1) * 4 := by ring
    rw [conv_rgbaF_linear_rgbAF_linear_scalar, if_pos h2]
    simp only [h3, h4]
    obtain ⟨out, ho, hc⟩ := ih f (p + 1)
      (store1 (store1 (store1 (store1 dst (p * 4 + 0) (src (p * 4 + 0) * src (p * 4 + 3)))
        (p * 4 + 1) (src (p * 4 + 1) * src (p * 4 + 3)))
        (p * 4 + 2) (src (p * 4 + 2) * src (p * 4 + 3))) (p * 4 + 3) (src (p * 4 + 3)))
      (by omega)
    refine ⟨out, ho, ?_⟩
    have hs : Converted premultiplied src dst
        (store1 (store1 (store1 (store1 dst (p * 4 + 0) (src (p * 4 + 0) * src (p * 4 + 3)))
        (p * 4 + 1) (src (p * 4 + 1) * src (p * 4 + 3)))
        (p * 4 + 2) (src (p * 4 + 2) * src (p * 4 + 3))) (p * 4 + 3) (src (p * 4 + 3)))
        p (p + 1) := by
      constructor
      · intro j hj1 hj2
        obtain rfl : j = p := by omega
        have e : 4 * j = j * 4 := by ring
        simp [pixel, mm_load_ps, premultiplied, store1, e]
      · intro q hq
        simp only [store1]
        rw [if_neg (by omega), if_neg (by omega), if_neg (by omega), if_neg (by omega)]
    have := Converted.append hs hc (by omega) (by omega)
    have e : p + ((k + 1 : Nat) : Int) = p + 1 + (k : Int) := by push_cast; ring
    rw [e]
    exact this


theorem mm_store_ps_other {α : Type} (m : FBuf α) (p k : Int) (v : V4 α)
    (h : k < p ∨ p + 4 ≤ k) : mm_store_ps m p v k = m k := by
  simp only [mm_store_ps, store1]
  rw [if_neg (by omega), if_neg (by omega), if_neg (by omega), if_neg (by omega)]

theorem mm_load_store {α : Type} (m : FBuf α) (p : Int) (v : V4 α) :
    mm_load_ps (mm_store_ps m p v) p = v := by
  cases v
  simp only [mm_load_ps, mm_store_ps, store1, V4.mk.injEq]
  refine ⟨?_, ?_, ?_, ?_⟩ <;> split_ifs <;> first | rfl | omega

theorem mm_load_congr {α : Type} (m1 m2 : FBuf α) (p : Int)
    (h : ∀ k, p ≤ k → k < p + 4 → m1 k = m2 k) : mm_load_ps m1 p = mm_load_ps m2 p := by
  simp only [mm_load_ps]
  rw [h p (by omega) (by omega), h (p + 1) (by omega) (by omega),
    h (p + 2) (by omega) (by omega), h (p + 3) (by omega) (by omega)]

theorem premul_shuffle {α : Type} [Mul α] (v : V4 α) :
    mm_shuffle_ps (V4.mul v (mm_shuffle_epi32 v (MM_SHUFFLE 3 3 3 3)))
      (mm_shuffle_ps (V4.mul v (mm_shuffle_epi32 v (MM_SHUFFLE 3 3 3 3)))
        (mm_shuffle_epi32 v (MM_SHUFFLE 3 3 3 3)) (MM_SHUFFLE 0 0 2 0))
      (MM_SHUFFLE 2 1 1 0) = premultiplied v := by
  cases v
  rfl

theorem premul_vec_run {α : Type} [Mul α] (src : FBuf α) (m : Nat) :
    ∀ (fuel : Nat) (i : Int) (dst : FBuf α), m < fuel →
      ∃ out, conv_rgbaF_linear_rgbAF_linear_vec src (i + 2 * m) fuel i (i * 4) (i * 4) dst
          = some (i + 2 * m, out) ∧ Converted premultiplied src dst out i (i + 2 * m) := by
  induction m with
  | zero =>
    intro fuel i dst hf
    obtain ⟨f, rfl⟩ : ∃ f, fuel = f + 1 := ⟨fuel - 1, by omega⟩
    refine ⟨dst, by simp [conv_rgbaF_linear_rgbAF_linear_vec], ?_⟩
    simpa using Converted.refl premultiplied src dst i
  | succ m ih =>
    intro fuel i dst hf
    obtain ⟨f, rfl⟩ : ∃ f, fuel = f + 1 := ⟨fuel - 1, by omega⟩
    have h2 : i < i + 2 * ((m + 1 : Nat) : Int) := by omega
    have h4 : i * 4 + 4 + 4 = (i + 2) * 4 := by ring
    have h5 : i + 2 * ((m + 1 : Nat) : Int) = (i + 2) + 2 * (m : Int) := by push_cast; ring
    rw [conv_rgbaF_linear_rgbAF_linear_vec, if_pos h2]
    simp only [h4, premul_shuffle]
    rw [h5]
    obtain ⟨out, ho, hc⟩ := ih f (i + 2)
      (mm_store_ps (mm_store_ps dst (i * 4) (premultiplied (mm_load_ps src (i * 4))))
        (i * 4 + 4) (premultiplied (mm_load_ps src (i * 4 + 4)))) (by omega)
    refine ⟨out, ho, ?_⟩
    refine Converted.append ?_ hc (by omega) (by omega)
    constructor
    · intro j hj1 hj2
      have hj : j = i ∨ j = i + 1 := by omega
      rcases hj with rfl | rfl
      · have e : 4 * j = j * 4 := by ring
        rw [pixel, pixel, e]
        rw [mm_load_congr _ (mm_store_ps dst (j * 4) (premultiplied (mm_load_ps src (j * 4))))
          (j * 4) (fun k hk1 hk2 => mm_store_ps_other _ _ _ _ (by omega))]
        exact mm_load_store _ _ _
      · have e : 4 * (i + 1) = i * 4 + 4 := by ring
        rw [pixel, pixel, e]
        exact mm_load_store _ _ _
    · intro q hq
      rw [mm_store_ps_other _ _ _ _ (by omega), mm_store_ps_other _ _ _ _ (by omega)]

theorem conv_rgbaF_linear_rgbAF_linear_converted {α : Type} [Mul α]
    (srcAddr dstAddr : Nat) (src dst : FBuf α) (samples extra : Nat) :
    ∃ out, conv_rgbaF_linear_rgbAF_linear (extra + (samples + 1)) srcAddr dstAddr
      src dst (samples : Int) = some ⟨samples, out⟩ ∧
      Converted premultiplied src dst out 0 samples := by
  unfold conv_rgbaF_linear_rgbAF_linear
  by_cases hal : aligned16 srcAddr dstAddr = true
  · simp only [hal, if_true]
    have hn : Int.tdiv (samples : Int) 2 * 2 = 0 + 2 * ((samples / 2 : Nat) : Int) := by
      rw [Int.tdiv_eq_ediv (by omega) (by omega)]
      push_cast
      ring
    obtain ⟨o1, h1, c1⟩ := premul_vec_run src (samples / 2) (extra + (samples + 1)) 0 dst
      (by omega)
    rw [hn]
    simp only [zero_mul] at h1
    rw [h1]
    simp only
    have hr : (samples : Int) - (0 + 2 * ((samples / 2 : Nat) : Int))
        = ((samples - 2 * (samples / 2) : Nat) : Int) := by omega
    obtain ⟨o2, h2, c2⟩ := premul_scalar_run src (samples - 2 * (samples / 2))
      (extra + (samples + 1)) (0 + 2 * ((samples / 2 : Nat) : Int)) o1 (by omega)
    rw [hr, h2]
    refine ⟨o2, rfl, ?_⟩
    have := Converted.append c1 c2 (by omega) (by omega)
    have e : (0 : Int) + 2 * ((samples / 2 : Nat) : Int)
        + ((samples - 2 * (samples / 2) : Nat) : Int) = (samples : Int) := by omega
    rw [e] at this
    exact this
  · simp only [hal]
    obtain ⟨o2, h2, c2⟩ := premul_scalar_run src samples (extra + (samples + 1)) 0 dst
      (by omega)
    simp only [zero_mul, zero_add] at h2 c2
    simp only [sub_zero, zero_mul, Bool.false_eq_true, if_false]
    rw [h2]
    exact ⟨o2, rfl, c2⟩

/-- C4: for every number of samples, either alignment of the two buffers and
every pixel `i < samples`, `conv_rgbaF_linear_rgbAF_linear` returns `samples`
and leaves `(r*a, g*a, b*a, a)` at pixel `i` of the destination, which is
`(0, 0, 0, 0)` when `a = 0`. -/
theorem conv_rgbaF_linear_rgbAF_linear_premultiplies {α : Type} [MulZeroClass α]
    (srcAddr dstAddr : Nat) (src dst : FBuf α) (samples extra i : Nat) (hi : i < samples) :
    ∃ out, conv_rgbaF_linear_rgbAF_linear (extra + (samples + 1)) srcAddr dstAddr src dst
        (samples : Int) = some ⟨samples, out⟩ ∧
      pixel out i = ⟨(pixel src i).e0 * (pixel src i).e3, (pixel src i).e1 * (pixel src i).e3,
        (pixel src i).e2 * (pixel src i).e3, (pixel src i).e3⟩ ∧
      ((pixel src i).e3 = 0 → pixel out i = ⟨0, 0, 0, 0⟩) := by
  obtain ⟨out, h, c⟩ :=
    conv_rgbaF_linear_rgbAF_linear_converted srcAddr dstAddr src dst samples extra
  have hp := c.1 i (by omega) (by omega)
  refine ⟨out, h, ?_, ?_⟩
  · rw [hp]; rfl
  · intro ha
    rw [hp]
    simp [premultiplied, ha]

/-- C4 on two aligned pixels: `(0.8, 0.4, 0.2, 0.5)` becomes `(0.4, 0.2, 0.1, 0.5)`. -/
theorem conv_rgbaF_linear_rgbAF_linear_premultiplies_witness :
    (0 : Nat) < 2 ∧
    ∃ out, conv_rgbaF_linear_rgbAF_linear (0 + (2 + 1)) 32 64
        (bufOf (0 : ℚ) [4/5, 2/5, 1/5, 1/2, 1, 1, 1, 0]) (bufOf 0 []) ((2 : Nat) : Int)
        = some ⟨((2 : Nat) : Int), out⟩ ∧
      pixel out ((0 : Nat) : Int) = ⟨2/5, 1/5, 1/10, 1/2⟩ := by
  refine ⟨by decide, ?_⟩
  obtain ⟨out, h, hp, _⟩ := conv_rgbaF_linear_rgbAF_linear_premultiplies 32 64
    (bufOf (0 : ℚ) [4/5, 2/5, 1/5, 1/2, 1, 1, 1, 0]) (bufOf 0 []) 2 0 0 (by decide)
  refine ⟨out, h, ?_⟩
  rw [hp]
  simp [pixel, mm_load_ps, bufOf]
  norm_num


theorem unpremul_shuffle (v : V4 ℚ) :
    mm_shuffle_ps
      (if v.e3 ≤ 0 then (mm_setzero_ps : V4 ℚ) else V4.mul v (mm_load1_ps (1 / v.e3)))
      (mm_shuffle_ps
        (if v.e3 ≤ 0 then (mm_setzero_ps : V4 ℚ) else V4.mul v (mm_load1_ps (1 / v.e3)))
        v (MM_SHUFFLE 3 3 2 0))
      (MM_SHUFFLE 2 1 1 0) = unpremultiplied v := by
  obtain ⟨r, g, b, a⟩ := v
  by_cases h : a ≤ 0
  · have h' : ¬ (0 < a) := not_lt.mpr h
    simp only [h, if_true, unpremultiplied, h', if_false]
    rfl
  · have h' : 0 < a := not_le.mp h
    simp only [h, if_false, unpremultiplied, h', if_true]
    simp [mm_shuffle_ps, MM_SHUFFLE, V4.lane, V4.mul, mm_load1_ps, div_eq_mul_inv]

theorem unpremul_scalar (r g b a : ℚ) :
    (⟨r * (if a ≤ 0 then 0 else 1 / a), g * (if a ≤ 0 then 0 else 1 / a),
      b * (if a ≤ 0 then 0 else 1 / a), a⟩ : V4 ℚ) = unpremultiplied ⟨r, g, b, a⟩ := by
  by_cases h : a ≤ 0
  · have h' : ¬ (0 < a) := not_lt.mpr h
    simp [h, unpremultiplied, h']
  · have h' : 0 < a := not_le.mp h
    simp [h, unpremultiplied, h', div_eq_mul_inv]

theorem unpremul_scalar_run (src : FBuf ℚ) (k : Nat) :
    ∀ (fuel : Nat) (p : Int) (dst : FBuf ℚ), k < fuel →
      ∃ out, conv_rgbAF_linear_rgbaF_linear_scalar src fuel (k : Int) (p * 4) (p * 4) dst
          = some out ∧ Converted unpremultiplied src dst out p (p + k) := by
  induction k with
  | zero =>
    intro fuel p dst hf
    obtain ⟨f, rfl⟩ : ∃ f, fuel = f + 1 := ⟨fuel - 1, by omega⟩
    refine ⟨dst, by simp [conv_rgbAF_linear_rgbaF_linear_scalar], ?_⟩
    simpa using Converted.refl unpremultiplied src dst p
  | succ k ih =>
    intro fuel p dst hf
    obtain ⟨f, rfl⟩ : ∃ f, fuel = f + 1 := ⟨fuel - 1, by omega⟩
    have h2 : ((k + 1 : Nat) : Int) ≠ 0 := by omega
    have h3 : ((k + 1 : Nat) : Int) - 1 = (k : Int) := by omega
    have h4 : p * 4 + 4 = (p + 1) * 4 := by ring
    rw [conv_rgbAF_linear_rgbaF_linear_scalar, if_pos h2]
    simp only [h3, h4, add_zero]
    have hst : ∀ (a b c d : ℚ),
        store1 (store1 (store1 (store1 dst (p * 4) a) (p * 4 + 1) b) (p * 4 + 2) c)
          (p * 4 + 3) d = mm_store_ps dst (p * 4) ⟨a, b, c, d⟩ := fun _ _ _ _ => rfl
    rw [hst, unpremul_scalar]
    obtain ⟨out, ho, hc⟩ := ih f (p + 1)
      (mm_store_ps dst (p * 4)
        (unpremultiplied ⟨src (p * 4), src (p * 4 + 1), src (p * 4 + 2), src (p * 4 + 3)⟩))
      (by omega)
    refine ⟨out, ho, ?_⟩
    have e : p + ((k + 1 : Nat) : Int) = p + 1 + (k : Int) := by push_cast; ring
    rw [e]
    refine Converted.append ?_ hc (by omega) (by omega)
    constructor
    · intro j hj1 hj2
      obtain rfl : j = p := by omega
      have e : 4 * j = j * 4 := by ring
      rw [pixel, pixel, e, mm_load_store]
      rfl
    · intro q hq
      rw [mm_store_ps_other _ _ _ _ (by omega)]

theorem unpremul_shuffle_vec_run (src : FBuf ℚ) (m : Nat) :
    ∀ (fuel : Nat) (i : Int) (dst : FBuf ℚ), m < fuel →
      ∃ out, conv_rgbAF_linear_rgbaF_linear_shuffle_vec src (i + m) fuel i (i * 4) (i * 4) dst
          = some (i + m, out) ∧ Converted unpremultiplied src dst out i (i + m) := by
  induction m with
  | zero =>
    intro fuel i dst hf
    obtain ⟨f, rfl⟩ : ∃ f, fuel = f + 1 := ⟨fuel - 1, by omega⟩
    refine ⟨dst, by simp [conv_rgbAF_linear_rgbaF_linear_shuffle_vec], ?_⟩
    simpa using Converted.refl unpremultiplied src dst i
  | succ m ih =>
    intro fuel i dst hf
    obtain ⟨f, rfl⟩ : ∃ f, fuel = f + 1 := ⟨fuel - 1, by omega⟩
    have h2 : i < i + ((m + 1 : Nat) : Int) := by omega
    have h4 : i * 4 + 4 = (i + 1) * 4 := by ring
    have h5 : i + ((m + 1 : Nat) : Int) = (i + 1) + (m : Int) := by push_cast; ring
    rw [conv_rgbAF_linear_rgbaF_linear_shuffle_vec, if_pos h2]
    have ha : src (i * 4 + 3) = (mm_load_ps src (i * 4)).e3 := rfl
    simp only [h4, ha, unpremul_shuffle]
    rw [h5]
    obtain ⟨out, ho, hc⟩ := ih f (i + 1)
      (mm_store_ps dst (i * 4) (unpremultiplied (mm_load_ps src (i * 4)))) (by omega)
    refine ⟨out, ho, ?_⟩
    refine Converted.append ?_ hc (by omega) (by omega)
    constructor
    · intro j hj1 hj2
      obtain rfl : j = i := by omega
      have e : 4 * j = j * 4 := by ring
      rw [pixel, pixel, e, mm_load_store]
    · intro q hq
      rw [mm_store_ps_other _ _ _ _ (by omega)]

theorem conv_rgbAF_linear_rgbaF_linear_shuffle_converted
    (srcAddr dstAddr : Nat) (src dst : FBuf ℚ) (samples extra : Nat) :
    ∃ out, conv_rgbAF_linear_rgbaF_linear_shuffle (extra + (samples + 1)) srcAddr dstAddr
      src dst (samples : Int) = some ⟨samples, out⟩ ∧
      Converted unpremultiplied src dst out 0 samples := by
  unfold conv_rgbAF_linear_rgbaF_linear_shuffle
  by_cases hal : aligned16 srcAddr dstAddr = true
  · simp only [hal, if_true]
    obtain ⟨o1, h1, c1⟩ := unpremul_shuffle_vec_run src samples (extra + (samples + 1)) 0 dst
      (by omega)
    simp only [zero_mul, zero_add] at h1 c1
    rw [h1]
    simp only [sub_self]
    obtain ⟨o2, h2, c2⟩ := unpremul_scalar_run src 0 (extra + (samples + 1)) samples o1
      (by omega)
    simp only [Nat.cast_zero, add_zero] at h2 c2
    rw [h2]
    exact ⟨o2, rfl, by simpa using Converted.append c1 c2 (by omega) (by omega)⟩
  · simp only [hal]
    obtain ⟨o2, h2, c2⟩ := unpremul_scalar_run src samples (extra + (samples + 1)) 0 dst
      (by omega)
    simp only [zero_mul, zero_add] at h2 c2
    simp only [sub_zero, zero_mul, Bool.false_eq_true, if_false]
    rw [h2]
    exact ⟨o2, rfl, c2⟩

/-- C5: for every number of samples, either alignment of the two buffers and
every pixel `i < samples`, `conv_rgbAF_linear_rgbaF_linear_shuffle` returns
`samples` and leaves at pixel `i` of the destination `(r/a, g/a, b/a, a)` when
`a > 0` and `(0, 0, 0, a)` when `a ≤ 0` (exact arithmetic). -/
theorem conv_rgbAF_linear_rgbaF_linear_shuffle_unpremultiplies
    (srcAddr dstAddr : Nat) (src dst : FBuf ℚ) (samples extra i : Nat) (hi : i < samples) :
    ∃ out, conv_rgbAF_linear_rgbaF_linear_shuffle (extra + (samples + 1)) srcAddr dstAddr
        src dst (samples : Int) = some ⟨samples, out⟩ ∧
      (0 < (pixel src i).e3 → pixel out i =
        ⟨(pixel src i).e0 / (pixel src i).e3, (pixel src i).e1 / (pixel src i).e3,
          (pixel src i).e2 / (pixel src i).e3, (pixel src i).e3⟩) ∧
      ((pixel src i).e3 ≤ 0 → pixel out i = ⟨0, 0, 0, (pixel src i).e3⟩) := by
  obtain ⟨out, h, c⟩ :=
    conv_rgbAF_linear_rgbaF_linear_shuffle_converted srcAddr dstAddr src dst samples extra
  have hp := c.1 i (by omega) (by omega)
  refine ⟨out, h, ?_, ?_⟩
  · intro ha
    rw [hp, unpremultiplied, if_pos ha]
  · intro ha
    rw [hp, unpremultiplied, if_neg (not_lt.mpr ha)]

/-- C5 on three aligned pixels: `(0.4, 0.2, 0.1, 0.5)` becomes
`(0.8, 0.4, 0.2, 0.5)`. -/
theorem conv_rgbAF_linear_rgbaF_linear_shuffle_unpremultiplies_witness :
    (0 : Nat) < 3 ∧
    ∃ out, conv_rgbAF_linear_rgbaF_linear_shuffle (0 + (3 + 1)) 32 64
        (bufOf (0 : ℚ) [2/5, 1/5, 1/10, 1/2, 3, 2, 1, 0, 1, 1, 1, -1]) (bufOf 0 [])
        ((3 : Nat) : Int) = some ⟨((3 : Nat) : Int), out⟩ ∧
      pixel out ((0 : Nat) : Int) = ⟨4/5, 2/5, 1/5, 1/2⟩ := by
  refine ⟨by decide, ?_⟩
  obtain ⟨out, h, hp, _⟩ := conv_rgbAF_linear_rgbaF_linear_shuffle_unpremultiplies 32 64
    (bufOf (0 : ℚ) [2/5, 1/5, 1/10, 1/2, 3, 2, 1, 0, 1, 1, 1, -1]) (bufOf 0 []) 3 0 0
    (by decide)
  refine ⟨out, h, ?_⟩
  rw [hp (by simp [pixel, mm_load_ps, bufOf])]
  simp [pixel, mm_load_ps, bufOf]
  norm_num


theorem mm_storel_pi_apply {α : Type} (m : FBuf α) (p k : Int) (v : V4 α) :
    mm_storel_pi m p v k = if k = p + 1 then v.e1 else if k = p then v.e0 else m k := rfl

theorem mm_storeh_pi_apply {α : Type} (m : FBuf α) (p k : Int) (v : V4 α) :
    mm_storeh_pi m p v k = if k = p + 1 then v.e3 else if k = p then v.e2 else m k := rfl

theorem GAMMA_RGBA_body4_slot {α : Type} (T : α → α) (src dst : FBuf α) (p : Int) :
    (GAMMA_RGBA_body4 (V4.map T) src p p dst p = T (src p)) ∧
    (GAMMA_RGBA_body4 (V4.map T) src p p dst (p + 1) = T (src (p + 1))) ∧
    (GAMMA_RGBA_body4 (V4.map T) src p p dst (p + 2) = T (src (p + 2))) ∧
    (GAMMA_RGBA_body4 (V4.map T) src p p dst (p + 3) = src (p + 3)) ∧
    (GAMMA_RGBA_body4 (V4.map T) src p p dst (p + 4) = T (src (p + 4))) ∧
    (GAMMA_RGBA_body4 (V4.map T) src p p dst (p + 5) = T (src (p + 5))) ∧
    (GAMMA_RGBA_body4 (V4.map T) src p p dst (p + 6) = T (src (p + 6))) ∧
    (GAMMA_RGBA_body4 (V4.map T) src p p dst (p + 7) = src (p + 7)) ∧
    (GAMMA_RGBA_body4 (V4.map T) src p p dst (p + 8) = T (src (p + 8))) ∧
    (GAMMA_RGBA_body4 (V4.map T) src p p dst (p + 9) = T (src (p + 9))) ∧
    (GAMMA_RGBA_body4 (V4.map T) src p p dst (p + 10) = T (src (p + 10))) ∧
    (GAMMA_RGBA_body4 (V4.map T) src p p dst (p + 11) = src (p + 11)) ∧
    (GAMMA_RGBA_body4 (V4.map T) src p p dst (p + 12) = T (src (p + 12))) ∧
    (GAMMA_RGBA_body4 (V4.map T) src p p dst (p + 13) = T (src (p + 13))) ∧
    (GAMMA_RGBA_body4 (V4.map T) src p p dst (p + 14) = T (src (p + 14))) ∧
    (GAMMA_RGBA_body4 (V4.map T) src p p dst (p + 15) = src (p + 15)) := by
  simp [GAMMA_RGBA_body4, mm_storel_pi_apply, mm_storeh_pi_apply, mm_load_ps,
    mm_movelh_ps, mm_movehl_ps, mm_unpackhi_ps, mm_unpacklo_ps, V4.map, add_assoc]

theorem GAMMA_RGBA_body4_frame {α : Type} (munge : V4 α → V4 α) (src dst : FBuf α)
    (p k : Int) (hk : k < p ∨ p + 16 ≤ k) :
    GAMMA_RGBA_body4 munge src p p dst k = dst k := by
  have h0 : k ≠ p := by omega
  have h1 : k ≠ p + 1 := by omega
  have h2 : k ≠ p + 2 := by omega
  have h3 : k ≠ p + 3 := by omega
  have h4 : k ≠ p + 4 := by omega
  have h5 : k ≠ p + 5 := by omega
  have h6 : k ≠ p + 6 := by omega
  have h7 : k ≠ p + 7 := by omega
  have h8 : k ≠ p + 8 := by omega
  have h9 : k ≠ p + 9 := by omega
  have h10 : k ≠ p + 10 := by omega
  have h11 : k ≠ p + 11 := by omega
  have h12 : k ≠ p + 12 := by omega
  have h13 : k ≠ p + 13 := by omega
  have h14 : k ≠ p + 14 := by omega
  have h15 : k ≠ p + 15 := by omega
  simp [GAMMA_RGBA_body4, mm_storel_pi_apply, mm_storeh_pi_apply, add_assoc, h0, h1, h2, h3,
    h4, h5, h6, h7, h8, h9, h10, h11, h12, h13, h14, h15]

theorem GAMMA_RGBA_body4_converted {α : Type} (T : α → α) (src dst : FBuf α) (q : Int) :
    Converted (gammaPixel T) src dst (GAMMA_RGBA_body4 (V4.map T) src (q * 4) (q * 4) dst)
      q (q + 4) := by
  obtain ⟨s0, s1, s2, s3, s4, s5, s6, s7, s8, s9, s10, s11, s12, s13, s14, s15⟩ :=
    GAMMA_RGBA_body4_slot T src dst (q * 4)
  constructor
  · intro j hj1 hj2
    have hj : j = q ∨ j = q + 1 ∨ j = q + 2 ∨ j = q + 3 := by omega
    rcases hj with rfl | rfl | rfl | rfl
    · have e : 4 * j = j * 4 := by ring
      simp only [pixel, mm_load_ps, e, gammaPixel, s0, s1, s2, s3]
    · have e : 4 * (q + 1) = q * 4 + 4 := by ring
      simp only [pixel, mm_load_ps, e, gammaPixel, add_assoc, s4, s5, s6, s7, Int.reduceAdd]
    · have e : 4 * (q + 2) = q * 4 + 8 := by ring
      simp only [pixel, mm_load_ps, e, gammaPixel, add_assoc, s8, s9, s10, s11, Int.reduceAdd]
    · have e : 4 * (q + 3) = q * 4 + 12 := by ring
      simp only [pixel, mm_load_ps, e, gammaPixel, add_assoc, s12, s13, s14, s15,
        Int.reduceAdd]
  · intro k hk
    exact GAMMA_RGBA_body4_frame _ src dst (q * 4) k (by omega)

theorem GAMMA_RGBA_loop4_run {α : Type} (T : α → α) (src : FBuf α) (r : Int)
    (hr0 : 0 ≤ r) (hr3 : r ≤ 3) (m : Nat) :
    ∀ (fuel : Nat) (q : Int) (dst : FBuf α), m < fuel →
      ∃ out, GAMMA_RGBA_loop4 (V4.map T) src fuel (4 * m + r) (q * 4) (q * 4) dst
          = some (r, (q + 4 * m) * 4, (q + 4 * m) * 4, out) ∧
        Converted (gammaPixel T) src dst out q (q + 4 * m) := by
  induction m with
  | zero =>
    intro fuel q dst hf
    obtain ⟨f, rfl⟩ : ∃ f, fuel = f + 1 := ⟨fuel - 1, by omega⟩
    have h : ¬ (4 * ((0 : Nat) : Int) + r > 3) := by omega
    refine ⟨dst, ?_, ?_⟩
    · rw [GAMMA_RGBA_loop4, if_neg h]
      simp
    · simpa using Converted.refl (gammaPixel T) src dst q
  | succ m ih =>
    intro fuel q dst hf
    obtain ⟨f, rfl⟩ : ∃ f, fuel = f + 1 := ⟨fuel - 1, by omega⟩
    have h : 4 * ((m + 1 : Nat) : Int) + r > 3 := by omega
    have h3 : 4 * ((m + 1 : Nat) : Int) + r - 4 = 4 * (m : Int) + r := by push_cast; ring
    have h4 : q * 4 + 16 = (q + 4) * 4 := by ring
    have h5 : q + 4 * ((m + 1 : Nat) : Int) = (q + 4) + 4 * (m : Int) := by push_cast; ring
    rw [GAMMA_RGBA_loop4, if_pos h, h3, h4, h5]
    obtain ⟨out, ho, hc⟩ := ih f (q + 4)
      (GAMMA_RGBA_body4 (V4.map T) src (q * 4) (q * 4) dst) (by omega)
    exact ⟨out, ho, Converted.append (GAMMA_RGBA_body4_converted T src dst q) hc
      (by omega) (by omega)⟩

theorem GAMMA_RGBA_loop1_run {α : Type} (T : α → α) (src : FBuf α) (k : Nat) :
    ∀ (fuel : Nat) (q : Int) (dst : FBuf α), k < fuel →
      ∃ out, GAMMA_RGBA_loop1 (V4.map T) src fuel (k : Int) (q * 4) (q * 4) dst = some out ∧
        Converted (gammaPixel T) src dst out q (q + k) := by
  induction k with
  | zero =>
    intro fuel q dst hf
    obtain ⟨f, rfl⟩ : ∃ f, fuel = f + 1 := ⟨fuel - 1, by omega⟩
    refine ⟨dst, by simp [GAMMA_RGBA_loop1], ?_⟩
    simpa using Converted.refl (gammaPixel T) src dst q
  | succ k ih =>
    intro fuel q dst hf
    obtain ⟨f, rfl⟩ : ∃ f, fuel = f + 1 := ⟨fuel - 1, by omega⟩
    have h : ((k + 1 : Nat) : Int) > 0 := by omega
    have h3 : ((k + 1 : Nat) : Int) - 1 = (k : Int) := by omega
    have h4 : q * 4 + 4 = (q + 1) * 4 := by ring
    have h5 : q + ((k + 1 : Nat) : Int) = (q + 1) + (k : Int) := by push_cast; ring
    rw [GAMMA_RGBA_loop1, if_pos h]
    simp only [h3, h4]
    rw [h5]
    obtain ⟨out, ho, hc⟩ := ih f (q + 1)
      (store1 (mm_store_ps dst (q * 4) (V4.map T (mm_load_ps src (q * 4)))) (q * 4 + 3)
        (src (q * 4 + 3))) (by omega)
    refine ⟨out, ho, Converted.append ?_ hc (by omega) (by omega)⟩
    constructor
    · intro j hj1 hj2
      obtain rfl : j = q := by omega
      have e : 4 * j = j * 4 := by ring
      simp [pixel, mm_load_ps, mm_store_ps, store1, e, gammaPixel, V4.map]
    · intro x hx
      rw [store1_other _ _ _ _ (by omega), mm_store_ps_other _ _ _ _ (by omega)]

theorem toInt32_of_le (samples : Nat) (hs : samples ≤ 2 ^ 31 - 1) :
    toInt32 (samples : Int) = (samples : Int) := by
  unfold toInt32
  norm_num at hs ⊢
  omega

theorem GAMMA_RGBA_converted {α : Type} (T : α → α) (srcAddr dstAddr : Nat)
    (src dst : FBuf α) (samples extra : Nat) (hs : samples ≤ 2 ^ 31 - 1) :
    ∃ out, GAMMA_RGBA (V4.map T) (extra + (samples + 1)) srcAddr dstAddr src dst
        (samples : Int) = some ⟨samples, out⟩ ∧
      Converted (gammaPixel T) src dst out 0 samples := by
  unfold GAMMA_RGBA
  rw [toInt32_of_le samples hs]
  by_cases hal : aligned16 srcAddr dstAddr = true
  · simp only [hal, if_true]
    have hn : (samples : Int) = 4 * ((samples / 4 : Nat) : Int) + ((samples % 4 : Nat) : Int) := by
      omega
    obtain ⟨o1, h1, c1⟩ := GAMMA_RGBA_loop4_run T src ((samples % 4 : Nat) : Int) (by omega)
      (by omega) (samples / 4) (extra + (samples + 1)) 0 dst (by omega)
    simp only [zero_mul] at h1
    rw [← hn] at h1
    rw [h1]
    simp only
    obtain ⟨o2, h2, c2⟩ := GAMMA_RGBA_loop1_run T src (samples % 4) (extra + (samples + 1))
      (0 + 4 * ((samples / 4 : Nat) : Int)) o1 (by omega)
    rw [h2]
    refine ⟨o2, rfl, ?_⟩
    have := Converted.append c1 c2 (by omega) (by omega)
    have e : (0 : Int) + 4 * ((samples / 4 : Nat) : Int) + ((samples % 4 : Nat) : Int)
        = (samples : Int) := by omega
    rw [e] at this
    exact this
  · simp only [hal]
    obtain ⟨o2, h2, c2⟩ := GAMMA_RGBA_loop1_run T src samples (extra + (samples + 1)) 0 dst
      (by omega)
    simp only [zero_mul, zero_add] at h2 c2
    simp only [Bool.false_eq_true, if_false]
    rw [h2]
    exact ⟨o2, rfl, c2⟩


/-- C6: for `0 ≤ samples ≤ 2^31 - 1`, either alignment and every pixel
`i < samples`, the two `GAMMA_RGBA` kernels return `samples` and leave
`(T r, T g, T b, a)` at pixel `i`, `T` being the lane function of `munge`:
alpha is copied unchanged and every colour channel stays in its slot. -/
theorem GAMMA_RGBA_kernels_pixelwise {α : Type} (Tg Tl : α → α) (srcAddr dstAddr : Nat)
    (src dst : FBuf α) (samples extra i : Nat) (hs : samples ≤ 2 ^ 31 - 1) (hi : i < samples) :
    (∃ out, conv_rgbaF_linear_rgbaF_gamma Tg (extra + (samples + 1)) srcAddr dstAddr src dst
        (samples : Int) = some ⟨samples, out⟩ ∧
      pixel out i = ⟨Tg (pixel src i).e0, Tg (pixel src i).e1, Tg (pixel src i).e2,
        (pixel src i).e3⟩) ∧
    (∃ out, conv_rgbaF_gamma_rgbaF_linear Tl (extra + (samples + 1)) srcAddr dstAddr src dst
        (samples : Int) = some ⟨samples, out⟩ ∧
      pixel out i = ⟨Tl (pixel src i).e0, Tl (pixel src i).e1, Tl (pixel src i).e2,
        (pixel src i).e3⟩) := by
  constructor
  · obtain ⟨out, h, c⟩ := GAMMA_RGBA_converted Tg srcAddr dstAddr src dst samples extra hs
    exact ⟨out, h, c.1 i (by omega) (by omega)⟩
  · obtain ⟨out, h, c⟩ := GAMMA_RGBA_converted Tl srcAddr dstAddr src dst samples extra hs
    exact ⟨out, h, c.1 i (by omega) (by omega)⟩

/-- C6 on five aligned pixels (one round of the four-pixel loop and one tail
pixel), with doubling and halving as lane functions. -/
theorem GAMMA_RGBA_kernels_pixelwise_witness :
    (5 : Nat) ≤ 2 ^ 31 - 1 ∧ (1 : Nat) < 5 ∧
    (∃ out, conv_rgbaF_linear_rgbaF_gamma (fun x : ℚ => 2 * x) (0 + (5 + 1)) 16 48
        (bufOf 0 [1, 2, 3, 4, 5, 6, 7, 8, 9, 10, 11, 12, 13, 14, 15, 16, 17, 18, 19, 20])
        (bufOf 0 []) ((5 : Nat) : Int) = some ⟨((5 : Nat) : Int), out⟩ ∧
      pixel out ((1 : Nat) : Int) = ⟨10, 12, 14, 8⟩) ∧
    (∃ out, conv_rgbaF_gamma_rgbaF_linear (fun x : ℚ => x / 2) (0 + (5 + 1)) 16 48
        (bufOf 0 [1, 2, 3, 4, 5, 6, 7, 8, 9, 10, 11, 12, 13, 14, 15, 16, 17, 18, 19, 20])
        (bufOf 0 []) ((5 : Nat) : Int) = some ⟨((5 : Nat) : Int), out⟩ ∧
      pixel out ((1 : Nat) : Int) = ⟨5 / 2, 3, 7 / 2, 8⟩) := by
  obtain ⟨⟨o1, h1, p1⟩, ⟨o2, h2, p2⟩⟩ :=
    GAMMA_RGBA_kernels_pixelwise (fun x : ℚ => 2 * x) (fun x : ℚ => x / 2) 16 48
      (bufOf 0 [1, 2, 3, 4, 5, 6, 7, 8, 9, 10, 11, 12, 13, 14, 15, 16, 17, 18, 19, 20])
      (bufOf 0 []) 5 0 1 (by norm_num) (by norm_num)
  refine ⟨by norm_num, by norm_num, ⟨o1, h1, ?_⟩, ⟨o2, h2, ?_⟩⟩
  · rw [p1]
    simp [pixel, mm_load_ps, bufOf]
    norm_num
  · rw [p2]
    simp [pixel, mm_load_ps, bufOf]
    norm_num



/-- C20: for `samples = 2^31`, the loop counter `int i = samples` of the
`GAMMA_RGBA` kernels is `-2^31`, no loop is entered, and both kernels return
`2^31` with the destination unchanged: no pixel is written. -/
theorem GAMMA_RGBA_counter_truncated {α : Type} (Tg Tl : α → α) (srcAddr dstAddr fuel : Nat)
    (src dst : FBuf α) :
    toInt32 (2 ^ 31) = -2 ^ 31 ∧
    conv_rgbaF_linear_rgbaF_gamma Tg (fuel + 1) srcAddr dstAddr src dst (2 ^ 31)
      = some ⟨2 ^ 31, dst⟩ ∧
    conv_rgbaF_gamma_rgbaF_linear Tl (fuel + 1) srcAddr dstAddr src dst (2 ^ 31)
      = some ⟨2 ^ 31, dst⟩ := by
  have h : toInt32 (2 ^ 31) = -2 ^ 31 := by
    unfold toInt32
    norm_num
  have key : ∀ munge : V4 α → V4 α,
      GAMMA_RGBA munge (fuel + 1) srcAddr dstAddr src dst (2 ^ 31) = some ⟨2 ^ 31, dst⟩ := by
    intro munge
    unfold GAMMA_RGBA
    rw [h]
    by_cases hal : aligned16 srcAddr dstAddr = true
    · simp only [hal, if_true]
      rw [GAMMA_RGBA_loop4, if_neg (by norm_num)]
      simp only
      rw [GAMMA_RGBA_loop1, if_neg (by norm_num)]
    · simp only [hal, Bool.false_eq_true, if_false]
      rw [GAMMA_RGBA_loop1, if_neg (by norm_num)]
  exact ⟨h, key _, key _⟩

theorem unpremul_spin (v : V4 ℚ) :
    mm_shuffle_epi32
      (mm_move_ss
        (if mm_ucomile_ss (mm_shuffle_epi32 v (MM_SHUFFLE 0 1 2 3)) mm_setzero_ps = true then
          (mm_setzero_ps : V4 ℚ)
        else
          V4.mul (mm_shuffle_epi32 v (MM_SHUFFLE 0 1 2 3))
            (mm_shuffle_epi32
              (mm_div_ss (mm_set_ss 1) (mm_shuffle_epi32 v (MM_SHUFFLE 0 1 2 3)))
              (MM_SHUFFLE 0 0 0 0)))
        (mm_shuffle_epi32 v (MM_SHUFFLE 0 1 2 3)))
      (MM_SHUFFLE 0 1 2 3) = unpremultiplied v := by
  obtain ⟨r, g, b, a⟩ := v
  by_cases h : a ≤ 0
  · have h' : ¬ (0 < a) := not_lt.mpr h
    simp [mm_ucomile_ss, mm_shuffle_epi32, MM_SHUFFLE, V4.lane, mm_setzero_ps, mm_move_ss,
      unpremultiplied, h, h']
  · have h' : 0 < a := not_le.mp h
    simp [mm_ucomile_ss, mm_shuffle_epi32, MM_SHUFFLE, V4.lane, mm_setzero_ps, mm_move_ss,
      mm_div_ss, mm_set_ss, V4.mul, unpremultiplied, h, h', div_eq_mul_inv]

theorem spin_vec_eq_shuffle_vec (src : FBuf ℚ) (n : Int) :
    ∀ (fuel : Nat) (i s d : Int) (dst : FBuf ℚ),
      conv_rgbAF_linear_rgbaF_linear_spin_vec src n fuel i s d dst
        = conv_rgbAF_linear_rgbaF_linear_shuffle_vec src n fuel i s d dst := by
  intro fuel
  induction fuel with
  | zero =>
    intro i s d dst
    rw [conv_rgbAF_linear_rgbaF_linear_spin_vec, conv_rgbAF_linear_rgbaF_linear_shuffle_vec]
  | succ fuel ih =>
    intro i s d dst
    rw [conv_rgbAF_linear_rgbaF_linear_spin_vec, conv_rgbAF_linear_rgbaF_linear_shuffle_vec]
    by_cases h : i < n
    · rw [if_pos h, if_pos h]
      have ha : src (s + 3) = (mm_load_ps src s).e3 := rfl
      simp only [ha, unpremul_shuffle, unpremul_spin]
      exact ih _ _ _ _
    · rw [if_neg h, if_neg h]

theorem conv_spin_eq_shuffle (fuel srcAddr dstAddr : Nat) (src dst : FBuf ℚ) (samples : Int) :
    conv_rgbAF_linear_rgbaF_linear_spin fuel srcAddr dstAddr src dst samples
      = conv_rgbAF_linear_rgbaF_linear_shuffle fuel srcAddr dstAddr src dst samples := by
  unfold conv_rgbAF_linear_rgbaF_linear_spin conv_rgbAF_linear_rgbaF_linear_shuffle
  rw [spin_vec_eq_shuffle_vec]

/-- C19: on every input buffer, alignment and `samples`, with the same fuel,
`conv_rgbAF_linear_rgbaF_linear_spin` and
`conv_rgbAF_linear_rgbaF_linear_shuffle` give the same result, returned value
and destination buffer alike (exact arithmetic, every alpha); for
`samples ≥ 0` and enough fuel that result is `samples` and a buffer. -/
theorem unpremultiply_kernels_interchangeable (fuel srcAddr dstAddr : Nat)
    (src dst : FBuf ℚ) (samples : Int) (n extra : Nat) :
    conv_rgbAF_linear_rgbaF_linear_spin fuel srcAddr dstAddr src dst samples
      = conv_rgbAF_linear_rgbaF_linear_shuffle fuel srcAddr dstAddr src dst samples ∧
    ∃ out,
      conv_rgbAF_linear_rgbaF_linear_spin (extra + (n + 1)) srcAddr dstAddr src dst (n : Int)
        = some ⟨n, out⟩ ∧
      conv_rgbAF_linear_rgbaF_linear_shuffle (extra + (n + 1)) srcAddr dstAddr src dst (n : Int)
        = some ⟨n, out⟩ := by
  refine ⟨conv_spin_eq_shuffle _ _ _ _ _ _, ?_⟩
  obtain ⟨out, h, _⟩ :=
    conv_rgbAF_linear_rgbaF_linear_shuffle_converted srcAddr dstAddr src dst n extra
  exact ⟨out, by rw [conv_spin_eq_shuffle]; exact h, h⟩

theorem Filled.nil {α : Type} (val : Int → α) (out : FBuf α) (lo : Int) :
    Filled val out out lo lo :=
  ⟨fun k h1 h2 => absurd h1 (by omega), fun _ _ => rfl⟩

theorem Filled.concat {α : Type} {val : Int → α} {out0 out1 out2 : FBuf α} {lo mid hi : Int}
    (h1 : Filled val out0 out1 lo mid) (h2 : Filled val out1 out2 mid hi) (hlm : lo ≤ mid)
    (hmh : mid ≤ hi) : Filled val out0 out2 lo hi := by
  constructor
  · intro k hk1 hk2
    by_cases hk : k < mid
    · rw [h2.2 k (Or.inl hk)]
      exact h1.1 k hk1 hk
    · exact h2.1 k (by omega) hk2
  · intro k hk
    rw [h2.2 k (by omega), h1.2 k (by omega)]

theorem Filled.congr {α : Type} {val val' : Int → α} {out0 out : FBuf α} {lo hi : Int}
    (h : Filled val out0 out lo hi) (hv : ∀ k, lo ≤ k → k < hi → val k = val' k) :
    Filled val' out0 out lo hi :=
  ⟨fun k h1 h2 => (h.1 k h1 h2).trans (hv k h1 h2), h.2⟩

theorem mm_store_ps_map_filled {α : Type} (T : α → α) (src dst : FBuf α) (p : Int) :
    Filled (fun k => T (src k)) dst (mm_store_ps dst p (V4.map T (mm_load_ps src p)))
      p (p + 4) := by
  constructor
  · intro k h1 h2
    have hk : k = p ∨ k = p + 1 ∨ k = p + 2 ∨ k = p + 3 := by omega
    rcases hk with rfl | rfl | rfl | rfl <;>
      simp [mm_store_ps, store1, mm_load_ps, V4.map]
  · intro k hk
    exact mm_store_ps_other _ _ _ _ hk

theorem conv_yF_vec_run {α : Type} (T : α → α) (src : FBuf α) (r : Int) (hr4 : r ≤ 4)
    (m : Nat) (hr1 : 1 ≤ r ∨ m = 0) :
    ∀ (fuel : Nat) (p : Int) (dst : FBuf α), m < fuel →
      ∃ out, conv_yF_vec (V4.map T) src fuel (4 * m + r) p p dst
          = some (r, p + 4 * m, p + 4 * m, out) ∧
        Filled (fun k => T (src k)) dst out p (p + 4 * m) := by
  induction m with
  | zero =>
    intro fuel p dst hf
    obtain ⟨f, rfl⟩ : ∃ f, fuel = f + 1 := ⟨fuel - 1, by omega⟩
    have h : ¬ (4 * ((0 : Nat) : Int) + r > 4) := by omega
    refine ⟨dst, ?_, ?_⟩
    · rw [conv_yF_vec, if_neg h]
      simp
    · simpa using Filled.nil (fun k => T (src k)) dst p
  | succ m ih =>
    intro fuel p dst hf
    obtain ⟨f, rfl⟩ : ∃ f, fuel = f + 1 := ⟨fuel - 1, by omega⟩
    have hr : 1 ≤ r := by
      rcases hr1 with h | h
      · exact h
      · omega
    have h : 4 * ((m + 1 : Nat) : Int) + r > 4 := by omega
    have h3 : 4 * ((m + 1 : Nat) : Int) + r - 4 = 4 * (m : Int) + r := by push_cast; ring
    have h5 : p + 4 * ((m + 1 : Nat) : Int) = (p + 4) + 4 * (m : Int) := by push_cast; ring
    rw [conv_yF_vec, if_pos h]
    simp only [h3]
    rw [h5]
    obtain ⟨out, ho, hc⟩ := ih (Or.inl hr) f (p + 4)
      (mm_store_ps dst p (V4.map T (mm_load_ps src p))) (by omega)
    exact ⟨out, ho, Filled.concat (mm_store_ps_map_filled T src dst p) hc (by omega)
      (by omega)⟩

theorem conv_yF_scalar_run {α : Type} (f : α → α) (src : FBuf α) (k : Nat) :
    ∀ (fuel : Nat) (p : Int) (dst : FBuf α), k < fuel →
      ∃ out, conv_yF_scalar f src fuel (k : Int) p p dst = some out ∧
        Filled (fun j => f (src j)) dst out p (p + k) := by
  induction k with
  | zero =>
    intro fuel p dst hf
    obtain ⟨g, rfl⟩ : ∃ g, fuel = g + 1 := ⟨fuel - 1, by omega⟩
    refine ⟨dst, by simp [conv_yF_scalar], ?_⟩
    simpa using Filled.nil (fun j => f (src j)) dst p
  | succ k ih =>
    intro fuel p dst hf
    obtain ⟨g, rfl⟩ : ∃ g, fuel = g + 1 := ⟨fuel - 1, by omega⟩
    have h2 : ((k + 1 : Nat) : Int) ≠ 0 := by omega
    have h3 : ((k + 1 : Nat) : Int) - 1 = (k : Int) := by omega
    have h5 : p + ((k + 1 : Nat) : Int) = (p + 1) + (k : Int) := by push_cast; ring
    rw [conv_yF_scalar, if_pos h2, h3, h5]
    obtain ⟨out, ho, hc⟩ := ih g (p + 1) (store1 dst p (f (src p))) (by omega)
    refine ⟨out, ho, Filled.concat ?_ hc (by omega) (by omega)⟩
    constructor
    · intro j hj1 hj2
      obtain rfl : j = p := by omega
      exact store1_same _ _ _
    · intro j hj
      exact store1_other _ _ _ _ (by omega)

theorem conv_yF_filled {α : Type} (Tv Ts : α → α) (srcAddr dstAddr : Nat)
    (src dst : FBuf α) (samples fuel : Nat) (hf : samples < fuel) :
    ∃ out, conv_yF (V4.map Tv) Ts fuel srcAddr dstAddr src dst (samples : Int)
        = some ⟨samples, out⟩ ∧
      Filled (yValue Tv Ts src samples) dst out 0 samples := by
  have hn : (samples : Int)
      = 4 * (((samples - 1) / 4 : Nat) : Int) + ((samples - 4 * ((samples - 1) / 4) : Nat) : Int) := by
    omega
  obtain ⟨o1, h1, c1⟩ := conv_yF_vec_run Tv src
    ((samples - 4 * ((samples - 1) / 4) : Nat) : Int) (by omega) ((samples - 1) / 4)
    (by omega) fuel 0 dst (by omega)
  rw [← hn] at h1
  obtain ⟨o2, h2, c2⟩ := conv_yF_scalar_run Ts src (samples - 4 * ((samples - 1) / 4)) fuel
    (0 + 4 * (((samples - 1) / 4 : Nat) : Int)) o1 (by omega)
  unfold conv_yF
  simp only [ite_self, h1, h2]
  refine ⟨o2, rfl, ?_⟩
  have e : (0 : Int) + 4 * (((samples - 1) / 4 : Nat) : Int)
      + ((samples - 4 * ((samples - 1) / 4) : Nat) : Int) = (samples : Int) := by omega
  rw [e] at c2
  refine Filled.concat (c1.congr ?_) (c2.congr ?_) (by omega) (by omega)
  · intro k hk1 hk2
    unfold yValue
    rw [if_pos (by omega)]
  · intro k hk1 hk2
    unfold yValue
    rw [if_neg (by omega)]
theorem YA_APPLY_slot {α : Type} (T : α → α) (src dst : FBuf α) (p : Int) :
    (YA_APPLY (V4.map T) src p p dst p = T (src p)) ∧
    (YA_APPLY (V4.map T) src p p dst (p + 1) = src (p + 1)) ∧
    (YA_APPLY (V4.map T) src p p dst (p + 2) = T (src (p + 2))) ∧
    (YA_APPLY (V4.map T) src p p dst (p + 3) = src (p + 3)) ∧
    (YA_APPLY (V4.map T) src p p dst (p + 4) = T (src (p + 4))) ∧
    (YA_APPLY (V4.map T) src p p dst (p + 5) = src (p + 5)) ∧
    (YA_APPLY (V4.map T) src p p dst (p + 6) = T (src (p + 6))) ∧
    (YA_APPLY (V4.map T) src p p dst (p + 7) = src (p + 7)) := by
  simp [YA_APPLY, mm_store_ps, store1, mm_load_ps, mm_shuffle_ps, mm_shuffle_epi32,
    MM_SHUFFLE, V4.lane, V4.map, add_assoc]

theorem YA_APPLY_frame {α : Type} (convert : V4 α → V4 α) (src dst : FBuf α) (p k : Int)
    (hk : k < p ∨ p + 8 ≤ k) : YA_APPLY convert src p p dst k = dst k := by
  unfold YA_APPLY
  rw [mm_store_ps_other _ _ _ _ (by omega), mm_store_ps_other _ _ _ _ (by omega)]

theorem YA_APPLY_filled {α : Type} (T : α → α) (src dst : FBuf α) (q : Int) :
    Filled (fun k => if k % 2 = 0 then T (src k) else src k) dst
      (YA_APPLY (V4.map T) src (8 * q) (8 * q) dst) (8 * q) (8 * q + 8) := by
  obtain ⟨s0, s1, s2, s3, s4, s5, s6, s7⟩ := YA_APPLY_slot T src dst (8 * q)
  constructor
  · intro k h1 h2
    have hk : k = 8 * q ∨ k = 8 * q + 1 ∨ k = 8 * q + 2 ∨ k = 8 * q + 3 ∨ k = 8 * q + 4 ∨
        k = 8 * q + 5 ∨ k = 8 * q + 6 ∨ k = 8 * q + 7 := by omega
    rcases hk with rfl | rfl | rfl | rfl | rfl | rfl | rfl | rfl
    · simp only [s0]; rw [if_pos (by omega)]
    · simp only [s1]; rw [if_neg (by omega)]
    · simp only [s2]; rw [if_pos (by omega)]
    · simp only [s3]; rw [if_neg (by omega)]
    · simp only [s4]; rw [if_pos (by omega)]
    · simp only [s5]; rw [if_neg (by omega)]
    · simp only [s6]; rw [if_pos (by omega)]
    · simp only [s7]; rw [if_neg (by omega)]
  · intro k hk
    exact YA_APPLY_frame _ src dst (8 * q) k hk

theorem conv_yaF_vec_run {α : Type} (T : α → α) (src : FBuf α) (r : Int) (hr4 : r ≤ 4)
    (m : Nat) (hr1 : 1 ≤ r ∨ m = 0) :
    ∀ (fuel : Nat) (q : Int) (dst : FBuf α), m < fuel →
      ∃ out, conv_yaF_vec (V4.map T) src fuel (4 * m + r) (8 * q) (8 * q) dst
          = some (r, 8 * (q + m), 8 * (q + m), out) ∧
        Filled (fun k => if k % 2 = 0 then T (src k) else src k) dst out (8 * q)
          (8 * (q + m)) := by
  induction m with
  | zero =>
    intro fuel q dst hf
    obtain ⟨f, rfl⟩ : ∃ f, fuel = f + 1 := ⟨fuel - 1, by omega⟩
    have h : ¬ (4 * ((0 : Nat) : Int) + r > 4) := by omega
    refine ⟨dst, ?_, ?_⟩
    · rw [conv_yaF_vec, if_neg h]
      simp
    · simpa using Filled.nil (fun k => if k % 2 = 0 then T (src k) else src k) dst (8 * q)
  | succ m ih =>
    intro fuel q dst hf
    obtain ⟨f, rfl⟩ : ∃ f, fuel = f + 1 := ⟨fuel - 1, by omega⟩
    have hr : 1 ≤ r := by
      rcases hr1 with h | h
      · exact h
      · omega
    have h : 4 * ((m + 1 : Nat) : Int) + r > 4 := by omega
    have h3 : 4 * ((m + 1 : Nat) : Int) + r - 4 = 4 * (m : Int) + r := by push_cast; ring
    have h4 : 8 * q + 8 = 8 * (q + 1) := by ring
    have h5 : q + ((m + 1 : Nat) : Int) = (q + 1) + (m : Int) := by push_cast; ring
    rw [conv_yaF_vec, if_pos h, h3, h4, h5]
    obtain ⟨out, ho, hc⟩ := ih (Or.inl hr) f (q + 1)
      (YA_APPLY (V4.map T) src (8 * q) (8 * q) dst) (by omega)
    refine ⟨out, ho, Filled.concat ?_ hc (by omega) (by omega)⟩
    rw [← h4]
    exact YA_APPLY_filled T src dst q

theorem conv_yaF_scalar_run {α : Type} (f : α → α) (src : FBuf α) (k : Nat) :
    ∀ (fuel : Nat) (q : Int) (dst : FBuf α), k < fuel →
      ∃ out, conv_yaF_scalar f src fuel (k : Int) (2 * q) (2 * q) dst = some out ∧
        Filled (fun j => if j % 2 = 0 then f (src j) else src j) dst out (2 * q)
          (2 * (q + k)) := by
  induction k with
  | zero =>
    intro fuel q dst hf
    obtain ⟨g, rfl⟩ : ∃ g, fuel = g + 1 := ⟨fuel - 1, by omega⟩
    refine ⟨dst, by simp [conv_yaF_scalar], ?_⟩
    simpa using Filled.nil (fun j => if j % 2 = 0 then f (src j) else src j) dst (2 * q)
  | succ k ih =>
    intro fuel q dst hf
    obtain ⟨g, rfl⟩ : ∃ g, fuel = g + 1 := ⟨fuel - 1, by omega⟩
    have h2 : ((k + 1 : Nat) : Int) ≠ 0 := by omega
    have h3 : ((k + 1 : Nat) : Int) - 1 = (k : Int) := by omega
    have h4 : 2 * q + 2 = 2 * (q + 1) := by ring
    have h5 : q + ((k + 1 : Nat) : Int) = (q + 1) + (k : Int) := by push_cast; ring
    rw [conv_yaF_scalar, if_pos h2]
    simp only [h3, h4]
    rw [h5]
    obtain ⟨out, ho, hc⟩ := ih g (q + 1)
      (store1 (store1 dst (2 * q) (f (src (2 * q)))) (2 * q + 1) (src (2 * q + 1))) (by omega)
    refine ⟨out, ho, Filled.concat ?_ hc (by omega) (by omega)⟩
    constructor
    · intro j hj1 hj2
      have hj : j = 2 * q ∨ j = 2 * q + 1 := by omega
      rcases hj with rfl | rfl
      · dsimp only
        rw [store1_other _ _ _ _ (by omega), store1_same, if_pos (by omega)]
      · dsimp only
        rw [store1_same, if_neg (by omega)]
    · intro j hj
      rw [store1_other _ _ _ _ (by omega), store1_other _ _ _ _ (by omega)]

theorem conv_yaF_filled {α : Type} (Tv Ts : α → α) (srcAddr dstAddr : Nat)
    (src dst : FBuf α) (samples fuel : Nat) (hf : samples < fuel) :
    ∃ out, conv_yaF (V4.map Tv) Ts fuel srcAddr dstAddr src dst (samples : Int)
        = some ⟨samples, out⟩ ∧
      Filled (yaValue Tv Ts src samples) dst out 0 (2 * samples) := by
  have hn : (samples : Int)
      = 4 * (((samples - 1) / 4 : Nat) : Int) + ((samples - 4 * ((samples - 1) / 4) : Nat) : Int) := by
    omega
  obtain ⟨o1, h1, c1⟩ := conv_yaF_vec_run Tv src
    ((samples - 4 * ((samples - 1) / 4) : Nat) : Int) (by omega) ((samples - 1) / 4)
    (by omega) fuel 0 dst (by omega)
  rw [← hn] at h1
  have e8 : (8 : Int) * (0 + (((samples - 1) / 4 : Nat) : Int))
      = 2 * (4 * (((samples - 1) / 4 : Nat) : Int)) := by ring
  rw [e8] at h1 c1
  obtain ⟨o2, h2, c2⟩ := conv_yaF_scalar_run Ts src (samples - 4 * ((samples - 1) / 4)) fuel
    (4 * (((samples - 1) / 4 : Nat) : Int)) o1 (by omega)
  have z : (8 : Int) * 0 = 0 := by norm_num
  rw [z] at h1 c1
  unfold conv_yaF
  simp only [ite_self, h1, h2]
  refine ⟨o2, rfl, ?_⟩
  have e : (2 : Int) * (4 * (((samples - 1) / 4 : Nat) : Int)
      + ((samples - 4 * ((samples - 1) / 4) : Nat) : Int)) = 2 * (samples : Int) := by omega
  rw [e] at c2
  refine Filled.concat (c1.congr ?_) (c2.congr ?_) (by omega) (by omega)
  · intro k hk1 hk2
    unfold yaValue
    by_cases hk : k % 2 = 0
    · rw [if_pos hk, if_pos hk, if_pos (by omega)]
    · rw [if_neg hk, if_neg hk]
  · intro k hk1 hk2
    unfold yaValue
    by_cases hk : k % 2 = 0
    · rw [if_pos hk, if_pos hk, if_neg (by omega)]
    · rw [if_neg hk, if_neg hk]

theorem conv_rgbF_filled {α : Type} (Tv Ts : α → α) (srcAddr dstAddr : Nat)
    (src dst : FBuf α) (samples fuel : Nat) (hf : 3 * samples < fuel) :
    (∃ out, conv_rgbF_linear_rgbF_gamma Tv Ts fuel srcAddr dstAddr src dst (samples : Int)
        = some ⟨(samples : Int), out⟩ ∧
      Filled (yValue Tv Ts src (3 * samples)) dst out 0 (3 * (samples : Int))) ∧
    (∃ out, conv_rgbF_gamma_rgbF_linear Tv Ts fuel srcAddr dstAddr src dst (samples : Int)
        = some ⟨(samples : Int), out⟩ ∧
      Filled (yValue Tv Ts src (3 * samples)) dst out 0 (3 * (samples : Int))) := by
  obtain ⟨out, h, c⟩ := conv_yF_filled Tv Ts srcAddr dstAddr src dst (3 * samples) fuel hf
  have e : ((3 * samples : Nat) : Int) = (samples : Int) * 3 := by push_cast; ring
  have e3 : ((3 * samples : Nat) : Int) = 3 * (samples : Int) := by push_cast; ring
  have ed : Int.tdiv ((samples : Int) * 3) 3 = (samples : Int) := by
    rw [Int.tdiv_eq_ediv (by omega) (by omega)]
    omega
  rw [e] at h
  rw [e3] at c
  constructor
  · refine ⟨out, ?_, c⟩
    unfold conv_rgbF_linear_rgbF_gamma conv_yF_linear_yF_gamma linear_to_gamma_2_2_sse2
    rw [h]
    simp only [ed]
  · refine ⟨out, ?_, c⟩
    unfold conv_rgbF_gamma_rgbF_linear conv_yF_gamma_yF_linear gamma_2_2_to_linear_sse2
    rw [h]
    simp only [ed]

/-- C16: for `0 ≤ samples ≤ 2^31 - 1` and either alignment, every kernel of
`sse2-float.c` returns `samples` and leaves a destination in which each pixel
below `samples` holds the conversion of its source pixel and every float
beyond the last pixel (and before the first) is as it was: premultiply, the
shuffle and spin un-premultiply and the RGBA gamma kernels on four-float
pixels, the RGB gamma kernels on `3 * samples` floats, the YA gamma kernels
on `2 * samples` floats, the Y gamma kernels on `samples` floats. -/
theorem sse2_kernels_cover_exactly {α : Type} [Mul α] (Tv Ts : α → α)
    (srcAddr dstAddr : Nat) (src dst : FBuf α) (srcQ dstQ : FBuf ℚ) (samples extra : Nat)
    (hs : samples ≤ 2 ^ 31 - 1) :
    (∃ out, conv_rgbaF_linear_rgbAF_linear (extra + (3 * samples + 1)) srcAddr dstAddr src dst (samples : Int)
        = some ⟨(samples : Int), out⟩ ∧
      Converted premultiplied src dst out 0 samples) ∧
    (∃ out, conv_rgbAF_linear_rgbaF_linear_shuffle (extra + (3 * samples + 1)) srcAddr dstAddr srcQ dstQ (samples : Int)
        = some ⟨(samples : Int), out⟩ ∧
      Converted unpremultiplied srcQ dstQ out 0 samples) ∧
    (∃ out, conv_rgbAF_linear_rgbaF_linear_spin (extra + (3 * samples + 1)) srcAddr dstAddr srcQ dstQ (samples : Int)
        = some ⟨(samples : Int), out⟩ ∧
      Converted unpremultiplied srcQ dstQ out 0 samples) ∧
    (∃ out, conv_rgbaF_linear_rgbaF_gamma Tv (extra + (3 * samples + 1)) srcAddr dstAddr src dst (samples : Int)
        = some ⟨(samples : Int), out⟩ ∧
      Converted (gammaPixel Tv) src dst out 0 samples) ∧
    (∃ out, conv_rgbaF_gamma_rgbaF_linear Tv (extra + (3 * samples + 1)) srcAddr dstAddr src dst (samples : Int)
        = some ⟨(samples : Int), out⟩ ∧
      Converted (gammaPixel Tv) src dst out 0 samples) ∧
    (∃ out, conv_rgbF_linear_rgbF_gamma Tv Ts (extra + (3 * samples + 1)) srcAddr dstAddr src dst (samples : Int)
        = some ⟨(samples : Int), out⟩ ∧
      Filled (yValue Tv Ts src (3 * samples)) dst out 0 (3 * (samples : Int))) ∧
    (∃ out, conv_rgbF_gamma_rgbF_linear Tv Ts (extra + (3 * samples + 1)) srcAddr dstAddr src dst (samples : Int)
        = some ⟨(samples : Int), out⟩ ∧
      Filled (yValue Tv Ts src (3 * samples)) dst out 0 (3 * (samples : Int))) ∧
    (∃ out, conv_yaF_linear_yaF_gamma Tv Ts (extra + (3 * samples + 1)) srcAddr dstAddr src dst (samples : Int)
        = some ⟨(samples : Int), out⟩ ∧
      Filled (yaValue Tv Ts src samples) dst out 0 (2 * (samples : Int))) ∧
    (∃ out, conv_yaF_gamma_yaF_linear Tv Ts (extra + (3 * samples + 1)) srcAddr dstAddr src dst (samples : Int)
        = some ⟨(samples : Int), out⟩ ∧
      Filled (yaValue Tv Ts src samples) dst out 0 (2 * (samples : Int))) ∧
    (∃ out, conv_yF_linear_yF_gamma Tv Ts (extra + (3 * samples + 1)) srcAddr dstAddr src dst (samples : Int)
        = some ⟨(samples : Int), out⟩ ∧
      Filled (yValue Tv Ts src samples) dst out 0 (samples : Int)) ∧
    (∃ out, conv_yF_gamma_yF_linear Tv Ts (extra + (3 * samples + 1)) srcAddr dstAddr src dst (samples : Int)
        = some ⟨(samples : Int), out⟩ ∧
      Filled (yValue Tv Ts src samples) dst out 0 (samples : Int)) := by
  have hF : extra + (3 * samples + 1) = (extra + 2 * samples) + (samples + 1) := by omega
  have hlt : samples < extra + (3 * samples + 1) := by omega
  have hlt3 : 3 * samples < extra + (3 * samples + 1) := by omega
  have hsh := conv_rgbAF_linear_rgbaF_linear_shuffle_converted srcAddr dstAddr srcQ dstQ
    samples (extra + 2 * samples)
  rw [← hF] at hsh
  have hpre := conv_rgbaF_linear_rgbAF_linear_converted srcAddr dstAddr src dst
    samples (extra + 2 * samples)
  rw [← hF] at hpre
  have hga := GAMMA_RGBA_converted Tv srcAddr dstAddr src dst samples (extra + 2 * samples) hs
  rw [← hF] at hga
  have hrgb := conv_rgbF_filled Tv Ts srcAddr dstAddr src dst samples _ hlt3
  refine ⟨hpre, hsh, ?_, hga, hga, hrgb.1, hrgb.2,
    conv_yaF_filled Tv Ts srcAddr dstAddr src dst samples _ hlt,
    conv_yaF_filled Tv Ts srcAddr dstAddr src dst samples _ hlt,
    conv_yF_filled Tv Ts srcAddr dstAddr src dst samples _ hlt,
    conv_yF_filled Tv Ts srcAddr dstAddr src dst samples _ hlt⟩
  rw [conv_spin_eq_shuffle]
  exact hsh

/-- C16 on six aligned samples of the floats 1, 2, 3, ..., with doubling as
transfer function. -/
theorem sse2_kernels_cover_exactly_witness :
    (6 : Nat) ≤ 2 ^ 31 - 1 ∧
    ((∃ out, conv_rgbaF_linear_rgbAF_linear (0 + (3 * 6 + 1)) 16 32 (fun k : Int => (k : ℚ) + 1) (fun _ : Int => (0 : ℚ)) ((6 : Nat) : Int)
        = some ⟨((6 : Nat) : Int), out⟩ ∧
      Converted premultiplied (fun k : Int => (k : ℚ) + 1) (fun _ : Int => (0 : ℚ)) out 0 6) ∧
    (∃ out, conv_rgbAF_linear_rgbaF_linear_shuffle (0 + (3 * 6 + 1)) 16 32 (fun k : Int => (k : ℚ) + 1) (fun _ : Int => (0 : ℚ)) ((6 : Nat) : Int)
        = some ⟨((6 : Nat) : Int), out⟩ ∧
      Converted unpremultiplied (fun k : Int => (k : ℚ) + 1) (fun _ : Int => (0 : ℚ)) out 0 6) ∧
    (∃ out, conv_rgbAF_linear_rgbaF_linear_spin (0 + (3 * 6 + 1)) 16 32 (fun k : Int => (k : ℚ) + 1) (fun _ : Int => (0 : ℚ)) ((6 : Nat) : Int)
        = some ⟨((6 : Nat) : Int), out⟩ ∧
      Converted unpremultiplied (fun k : Int => (k : ℚ) + 1) (fun _ : Int => (0 : ℚ)) out 0 6) ∧
    (∃ out, conv_rgbaF_linear_rgbaF_gamma (fun x : ℚ => 2 * x) (0 + (3 * 6 + 1)) 16 32 (fun k : Int => (k : ℚ) + 1) (fun _ : Int => (0 : ℚ)) ((6 : Nat) : Int)
        = some ⟨((6 : Nat) : Int), out⟩ ∧
      Converted (gammaPixel (fun x : ℚ => 2 * x)) (fun k : Int => (k : ℚ) + 1) (fun _ : Int => (0 : ℚ)) out 0 6) ∧
    (∃ out, conv_rgbaF_gamma_rgbaF_linear (fun x : ℚ => 2 * x) (0 + (3 * 6 + 1)) 16 32 (fun k : Int => (k : ℚ) + 1) (fun _ : Int => (0 : ℚ)) ((6 : Nat) : Int)
        = some ⟨((6 : Nat) : Int), out⟩ ∧
      Converted (gammaPixel (fun x : ℚ => 2 * x)) (fun k : Int => (k : ℚ) + 1) (fun _ : Int => (0 : ℚ)) out 0 6) ∧
    (∃ out, conv_rgbF_linear_rgbF_gamma (fun x : ℚ => 2 * x) (fun x : ℚ => 2 * x) (0 + (3 * 6 + 1)) 16 32 (fun k : Int => (k : ℚ) + 1) (fun _ : Int => (0 : ℚ)) ((6 : Nat) : Int)
        = some ⟨((6 : Nat) : Int), out⟩ ∧
      Filled (yValue (fun x : ℚ => 2 * x) (fun x : ℚ => 2 * x) (fun k : Int => (k : ℚ) + 1) (3 * 6)) (fun _ : Int => (0 : ℚ)) out 0 (3 * ((6 : Nat) : Int))) ∧
    (∃ out, conv_rgbF_gamma_rgbF_linear (fun x : ℚ => 2 * x) (fun x : ℚ => 2 * x) (0 + (3 * 6 + 1)) 16 32 (fun k : Int => (k : ℚ) + 1) (fun _ : Int => (0 : ℚ)) ((6 : Nat) : Int)
        = some ⟨((6 : Nat) : Int), out⟩ ∧
      Filled (yValue (fun x : ℚ => 2 * x) (fun x : ℚ => 2 * x) (fun k : Int => (k : ℚ) + 1) (3 * 6)) (fun _ : Int => (0 : ℚ)) out 0 (3 * ((6 : Nat) : Int))) ∧
    (∃ out, conv_yaF_linear_yaF_gamma (fun x : ℚ => 2 * x) (fun x : ℚ => 2 * x) (0 + (3 * 6 + 1)) 16 32 (fun k : Int => (k : ℚ) + 1) (fun _ : Int => (0 : ℚ)) ((6 : Nat) : Int)
        = some ⟨((6 : Nat) : Int), out⟩ ∧
      Filled (yaValue (fun x : ℚ => 2 * x) (fun x : ℚ => 2 * x) (fun k : Int => (k : ℚ) + 1) 6) (fun _ : Int => (0 : ℚ)) out 0 (2 * ((6 : Nat) : Int))) ∧
    (∃ out, conv_yaF_gamma_yaF_linear (fun x : ℚ => 2 * x) (fun x : ℚ => 2 * x) (0 + (3 * 6 + 1)) 16 32 (fun k : Int => (k : ℚ) + 1) (fun _ : Int => (0 : ℚ)) ((6 : Nat) : Int)
        = some ⟨((6 : Nat) : Int), out⟩ ∧
      Filled (yaValue (fun x : ℚ => 2 * x) (fun x : ℚ => 2 * x) (fun k : Int => (k : ℚ) + 1) 6) (fun _ : Int => (0 : ℚ)) out 0 (2 * ((6 : Nat) : Int))) ∧
    (∃ out, conv_yF_linear_yF_gamma (fun x : ℚ => 2 * x) (fun x : ℚ => 2 * x) (0 + (3 * 6 + 1)) 16 32 (fun k : Int => (k : ℚ) + 1) (fun _ : Int => (0 : ℚ)) ((6 : Nat) : Int)
        = some ⟨((6 : Nat) : Int), out⟩ ∧
      Filled (yValue (fun x : ℚ => 2 * x) (fun x : ℚ => 2 * x) (fun k : Int => (k : ℚ) + 1) 6) (fun _ : Int => (0 : ℚ)) out 0 ((6 : Nat) : Int)) ∧
    (∃ out, conv_yF_gamma_yF_linear (fun x : ℚ => 2 * x) (fun x : ℚ => 2 * x) (0 + (3 * 6 + 1)) 16 32 (fun k : Int => (k : ℚ) + 1) (fun _ : Int => (0 : ℚ)) ((6 : Nat) : Int)
        = some ⟨((6 : Nat) : Int), out⟩ ∧
      Filled (yValue (fun x : ℚ => 2 * x) (fun x : ℚ => 2 * x) (fun k : Int => (k : ℚ) + 1) 6) (fun _ : Int => (0 : ℚ)) out 0 ((6 : Nat) : Int))) :=
  ⟨by norm_num, sse2_kernels_cover_exactly (fun x : ℚ => 2 * x) (fun x : ℚ => 2 * x) 16 32 (fun k : Int => (k : ℚ) + 1) (fun _ : Int => (0 : ℚ)) (fun k : Int => (k : ℚ) + 1) (fun _ : Int => (0 : ℚ)) 6 0 (by norm_num)⟩


theorem unpremultiplied_premultiplied (v : V4 ℚ) :
    (0 < v.e3 → unpremultiplied (premultiplied v) = v) ∧
    (v.e3 = 0 → unpremultiplied (premultiplied v) = ⟨0, 0, 0, 0⟩) := by
  obtain ⟨r, g, b, a⟩ := v
  constructor
  · intro h
    have h' : (0 : ℚ) < a := h
    have hne : a ≠ 0 := ne_of_gt h'
    simp only [premultiplied, unpremultiplied, if_pos h']
    rw [mul_div_cancel_right₀ _ hne, mul_div_cancel_right₀ _ hne, mul_div_cancel_right₀ _ hne]
  · intro h
    have h' : a = 0 := h
    subst h'
    simp [premultiplied, unpremultiplied]

/-- C24: run `conv_rgbaF_linear_rgbAF_linear` over `samples` pixels, then
either un-premultiply kernel over its output, with any buffer alignments:
every pixel `(r, g, b, a)` with `a > 0` comes back as `(r, g, b, a)` (exact
arithmetic), and every pixel with `a = 0` comes back as `(0, 0, 0, 0)`. -/
theorem unpremultiply_inverts_premultiply (srcAddr midAddr midAddr2 dstAddr : Nat)
    (src dst1 dst2 : FBuf ℚ) (samples extra : Nat) :
    ∃ mid, conv_rgbaF_linear_rgbAF_linear (extra + (samples + 1)) srcAddr midAddr
        src dst1 (samples : Int) = some ⟨(samples : Int), mid⟩ ∧
      ∃ out, conv_rgbAF_linear_rgbaF_linear_shuffle (extra + (samples + 1)) midAddr2 dstAddr
          mid dst2 (samples : Int) = some ⟨(samples : Int), out⟩ ∧
        conv_rgbAF_linear_rgbaF_linear_spin (extra + (samples + 1)) midAddr2 dstAddr
          mid dst2 (samples : Int) = some ⟨(samples : Int), out⟩ ∧
        ∀ i : Int, 0 ≤ i → i < (samples : Int) →
          (0 < (pixel src i).e3 → pixel out i = pixel src i) ∧
          ((pixel src i).e3 = 0 → pixel out i = ⟨0, 0, 0, 0⟩) := by
  obtain ⟨mid, hm, cm⟩ :=
    conv_rgbaF_linear_rgbAF_linear_converted srcAddr midAddr src dst1 samples extra
  obtain ⟨out, ho, co⟩ :=
    conv_rgbAF_linear_rgbaF_linear_shuffle_converted midAddr2 dstAddr mid dst2 samples extra
  refine ⟨mid, hm, out, ho, ?_, ?_⟩
  · rw [conv_spin_eq_shuffle]
    exact ho
  · intro i h0 h1
    rw [co.1 i h0 h1, cm.1 i h0 h1]
    exact unpremultiplied_premultiplied (pixel src i)


theorem linear_to_gamma_2_2_lane_one (bits : ℚ → Int) (ln2 : ℚ) (msqrt : ℚ → ℚ)
    (hb : bits 1 = FLT_ONE) (hs : msqrt 1 = 1) :
    linear_to_gamma_2_2_lane bits ln2 msqrt 1 < 1 := by
  unfold linear_to_gamma_2_2_lane pow_1_24 init_newton
  simp only [hb, hs, sub_self, Int.cast_zero, mul_zero, add_zero]
  norm_num

theorem gamma_2_2_to_linear_lane_one (bits : ℚ → Int) (ln2 : ℚ)
    (hb : bits 1 = FLT_ONE) :
    gamma_2_2_to_linear_lane bits ln2 1 < 1 := by
  unfold gamma_2_2_to_linear_lane pow_24 init_newton
  have e : ((1 : ℚ) + 0.055) * (1 / 1.055) = 1 := by norm_num
  simp only [e, hb, sub_self, Int.cast_zero, mul_zero, add_zero]
  norm_num

theorem conv_yF_pointwise {α : Type} (Tv Ts : α → α) (srcAddr dstAddr : Nat)
    (src dst : FBuf α) (samples extra : Nat) :
    ∃ out, conv_yF (V4.map Tv) Ts (extra + (samples + 1)) srcAddr dstAddr src dst (samples : Int)
        = some ⟨(samples : Int), out⟩ ∧
      ∀ i : Nat, i < samples →
        out (i : Int) = if i < 4 * ((samples - 1) / 4) then Tv (src i) else Ts (src i) := by
  obtain ⟨out, h, c⟩ := conv_yF_filled Tv Ts srcAddr dstAddr src dst samples
    (extra + (samples + 1)) (by omega)
  refine ⟨out, h, ?_⟩
  intro i hi
  rw [c.1 (i : Int) (by omega) (by omega)]
  unfold yValue
  by_cases hlt : i < 4 * ((samples - 1) / 4)
  · rw [if_pos hlt, if_pos (by omega)]
  · rw [if_neg hlt, if_neg (by omega)]

theorem conv_yaF_pointwise {α : Type} (Tv Ts : α → α) (srcAddr dstAddr : Nat)
    (src dst : FBuf α) (samples extra : Nat) :
    ∃ out, conv_yaF (V4.map Tv) Ts (extra + (samples + 1)) srcAddr dstAddr src dst (samples : Int)
        = some ⟨(samples : Int), out⟩ ∧
      ∀ i : Nat, i < samples →
        out (2 * (i : Int))
          = (if i < 4 * ((samples - 1) / 4) then Tv (src (2 * (i : Int)))
              else Ts (src (2 * (i : Int)))) ∧
        out (2 * (i : Int) + 1) = src (2 * (i : Int) + 1) := by
  obtain ⟨out, h, c⟩ := conv_yaF_filled Tv Ts srcAddr dstAddr src dst samples
    (extra + (samples + 1)) (by omega)
  refine ⟨out, h, ?_⟩
  intro i hi
  rw [c.1 (2 * (i : Int)) (by omega) (by omega), c.1 (2 * (i : Int) + 1) (by omega) (by omega)]
  unfold yaValue
  have e0 : 2 * (i : Int) % 2 = 0 := by omega
  have e1 : ¬ ((2 * (i : Int) + 1) % 2 = 0) := by omega
  rw [if_pos e0, if_neg e1]
  refine ⟨?_, rfl⟩
  by_cases hlt : i < 4 * ((samples - 1) / 4)
  · rw [if_pos hlt, if_pos (by omega)]
  · rw [if_neg hlt, if_neg (by omega)]

theorem yF_five_ones (bits : ℚ → Int) (ln2 : ℚ) (msqrt Ts : ℚ → ℚ)
    (hb : bits 1 = FLT_ONE) (hs : msqrt 1 = 1) :
    ∃ out, conv_yF_linear_yF_gamma (linear_to_gamma_2_2_lane bits ln2 msqrt) Ts 6 0 0
        (fun _ => 1) (fun _ => 0) 5 = some ⟨5, out⟩ ∧
      out 0 < 1 ∧ out 4 = Ts 1 := by
  obtain ⟨out, h, c⟩ := conv_yF_pointwise (linear_to_gamma_2_2_lane bits ln2 msqrt) Ts 0 0
    (fun _ => (1 : ℚ)) (fun _ => 0) 5 0
  refine ⟨out, h, ?_, ?_⟩
  · have h0 := c 0 (by norm_num)
    simp only [Nat.cast_zero] at h0
    rw [h0, if_pos (by norm_num)]
    exact linear_to_gamma_2_2_lane_one bits ln2 msqrt hb hs
  · have h4 := c 4 (by norm_num)
    simp only [Nat.cast_ofNat] at h4
    rw [h4, if_neg (by norm_num)]

/-- C21, counterexample: `conv_yF_linear_yF_gamma` on five samples of luminance
`1.0`.  The bit pattern of `1.0f` is `FLT_ONE`, its square root is `1.0`, and
the scalar `babl_linear_to_gamma_2_2` maps `1.0` to `1.0` (these functions are
applied to no other argument here).  The vector loop converts samples 0 to 3
with `linear_to_gamma_2_2_sse2`, whose two Newton steps stop short of `1`; the
scalar tail converts sample 4 to `1`: equal inputs, different outputs. -/
theorem yF_transfer_depends_on_position :
    ∃ out, conv_yF_linear_yF_gamma
        (linear_to_gamma_2_2_lane (fun _ => FLT_ONE) 0.693147180559945309417232121458176568
          (fun _ => 1))
        (fun _ => 1) 6 0 0 (fun _ => 1) (fun _ => 0) 5 = some ⟨5, out⟩ ∧
      out 0 < 1 ∧ out 4 = 1 :=
  yF_five_ones (fun _ => FLT_ONE) 0.693147180559945309417232121458176568 (fun _ => 1)
    (fun _ => 1) rfl rfl

/-- C21, amended: for every `samples`, either alignment and every pixel
`i < samples`, the `yF` gamma kernels write `T_i (y_i)` at float `i` and the
`yaF` gamma kernels write `(T_i (y_i), a_i)` at floats `2 i` and `2 i + 1`,
where `T_i` is the lane function `Tv` of the SSE2 routine for
`i < 4 * ((samples - 1) / 4)` (the vector loop) and the scalar routine `Ts`
for the remaining one to four pixels (the scalar tail). -/
theorem yF_yaF_transfer_by_position {α : Type} (Tv Ts : α → α) (srcAddr dstAddr : Nat)
    (src dst : FBuf α) (samples extra : Nat) :
    (∃ out, conv_yF_linear_yF_gamma Tv Ts (extra + (samples + 1)) srcAddr dstAddr src dst
        (samples : Int) = some ⟨(samples : Int), out⟩ ∧
      ∀ i : Nat, i < samples →
        out (i : Int) = if i < 4 * ((samples - 1) / 4) then Tv (src i) else Ts (src i)) ∧
    (∃ out, conv_yF_gamma_yF_linear Tv Ts (extra + (samples + 1)) srcAddr dstAddr src dst
        (samples : Int) = some ⟨(samples : Int), out⟩ ∧
      ∀ i : Nat, i < samples →
        out (i : Int) = if i < 4 * ((samples - 1) / 4) then Tv (src i) else Ts (src i)) ∧
    (∃ out, conv_yaF_linear_yaF_gamma Tv Ts (extra + (samples + 1)) srcAddr dstAddr src dst
        (samples : Int) = some ⟨(samples : Int), out⟩ ∧
      ∀ i : Nat, i < samples →
        out (2 * (i : Int))
          = (if i < 4 * ((samples - 1) / 4) then Tv (src (2 * (i : Int)))
              else Ts (src (2 * (i : Int)))) ∧
        out (2 * (i : Int) + 1) = src (2 * (i : Int) + 1)) ∧
    (∃ out, conv_yaF_gamma_yaF_linear Tv Ts (extra + (samples + 1)) srcAddr dstAddr src dst
        (samples : Int) = some ⟨(samples : Int), out⟩ ∧
      ∀ i : Nat, i < samples →
        out (2 * (i : Int))
          = (if i < 4 * ((samples - 1) / 4) then Tv (src (2 * (i : Int)))
              else Ts (src (2 * (i : Int)))) ∧
        out (2 * (i : Int) + 1) = src (2 * (i : Int) + 1)) :=
  ⟨conv_yF_pointwise Tv Ts srcAddr dstAddr src dst samples extra,
    conv_yF_pointwise Tv Ts srcAddr dstAddr src dst samples extra,
    conv_yaF_pointwise Tv Ts srcAddr dstAddr src dst samples extra,
    conv_yaF_pointwise Tv Ts srcAddr dstAddr src dst samples extra⟩

/-! ### Theorems: babl-memory.c -/

theorem functions_sanity_of_sane (st : Mem) (h : HooksSane st) :
    functions_sanity st = .ok (afterSanity st) := by
  unfold functions_sanity afterSanity
  by_cases hc : st.first_malloc_used ≠ st.malloc_f ∨ st.first_free_used ≠ st.free_f
  · rw [if_pos hc]
    rcases h with ⟨h1, h2⟩ | h0
    · rcases hc with hc | hc
      · exact absurd h1 hc
      · exact absurd h2 hc
    · rw [if_pos h0]
  · rw [if_neg hc]
    have h1 : st.first_malloc_used = st.malloc_f := by
      by_contra hne; exact hc (Or.inl hne)
    have h2 : st.first_free_used = st.free_f := by
      by_contra hne; exact hc (Or.inr hne)
    cases st
    simp_all

theorem afterSanity_sane (st : Mem) : HooksSane (afterSanity st) := Or.inl ⟨rfl, rfl⟩

theorem BAI_add_OFFSET (raw : Nat) : BAI (raw + OFFSET) = raw := by
  simp [BAI]

theorem babl_malloc_ok (raw size : Nat) (st : Mem) (hsize : size ≠ 0) (hs : HooksSane st)
    (hraw : raw ≠ 0) :
    babl_malloc raw size st = .ok (raw + OFFSET, afterMalloc raw size st) := by
  unfold babl_malloc
  rw [if_neg hsize, functions_sanity_of_sane st hs]
  simp only [if_neg hraw, BAI_add_OFFSET]
  rfl

theorem babl_free_ok (ptr : Nat) (st : Mem) (hp : ptr ≠ 0) (hb : IS_BAI st ptr = true)
    (hs : HooksSane st) : babl_free ptr st = .ok (afterFree ptr st) := by
  unfold babl_free
  rw [if_neg hp, functions_sanity_of_sane st hs]
  simp only [hb, not_true_eq_false, if_false]
  rfl

theorem oneBlock_reached :
    babl_malloc 4096 8 (Mem.init 1 2 3 (fun _ => 0)) = .ok (4112, oneBlock) :=
  babl_malloc_ok 4096 8 _ (by decide) (Or.inr rfl) (by decide)

theorem oneBlock_live : LiveBlock oneBlock 4112 8 := by
  refine ⟨by decide, ?_, ?_, ?_⟩
  · simp [IS_BAI, BAI_signature, BAI, OFFSET, oneBlock, afterMalloc, afterSanity, Mem.init, poke]
  · simp [BAI_size, BAI, OFFSET, oneBlock, afterMalloc, afterSanity, Mem.init, poke]
  · simp [BAI, OFFSET, oneBlock, afterMalloc, afterSanity, Mem.init]

theorem oneBlock_sane : HooksSane oneBlock := Or.inl ⟨rfl, rfl⟩


theorem LiveBlock.ne_zero {st : Mem} {ptr s : Nat} (h : LiveBlock st ptr s) : ptr ≠ 0 := by
  have := h.1
  unfold OFFSET at this
  omega

theorem LiveBlock.sizeof {st : Mem} {ptr s : Nat} (h : LiveBlock st ptr s) :
    babl_sizeof ptr st = .ok s := by
  unfold babl_sizeof
  simp [h.2.1, h.2.2.1]

theorem LiveBlock.apart {st : Mem} {ptr s raw len : Nat} (h : LiveBlock st ptr s)
    (hs : s + OFFSET < 2 ^ 64) (hf : FreshChunk st raw len) :
    raw + len ≤ ptr - 16 ∨ ptr + s ≤ raw := by
  have hd := hf.2 _ h.2.2.2
  have h16 := h.1
  rw [Nat.mod_eq_of_lt hs] at hd
  unfold Disjoint2 BAI at hd
  unfold OFFSET at hd h16
  simp only at hd
  omega

theorem babl_realloc_grow (raw ptr size s : Nat) (st : Mem) (hl : LiveBlock st ptr s)
    (hgt : s < size) (hw : size + OFFSET < 2 ^ 64) (hs : HooksSane st)
    (hf : FreshChunk st raw ((size + OFFSET) % 2 ^ 64)) :
    babl_realloc raw ptr size st = .ok (raw + OFFSET, afterGrow raw ptr size s st) := by
  have hp : ptr ≠ 0 := hl.ne_zero
  have hsz : size ≠ 0 := by omega
  have h16 : 16 ≤ ptr := hl.1
  rw [Nat.mod_eq_of_lt hw] at hf
  have hap := hl.apart (by omega) hf
  unfold OFFSET at hap hw
  have hcell : ∀ a, a ≠ raw → a ≠ raw + 8 → (afterMalloc raw size st).cell a = st.cell a := by
    intro a h1 h2
    simp [afterMalloc, poke, h1, h2]
  have hsig : (afterMalloc raw size st).signature = st.signature := rfl
  have hbai : IS_BAI (afterMalloc raw size st) ptr = true := by
    have := hl.2.1
    unfold IS_BAI BAI_signature BAI OFFSET at this ⊢
    rw [hcell _ (by omega) (by omega), hsig]
    exact this
  have hsize' : BAI_size (afterMalloc raw size st) ptr = s := by
    have := hl.2.2.1
    unfold BAI_size BAI OFFSET at this ⊢
    rw [hcell _ (by omega) (by omega)]
    exact this
  have hbai2 : IS_BAI { afterMalloc raw size st with
      cell := memcpy (afterMalloc raw size st).cell (raw + OFFSET) ptr s } ptr = true := by
    have := hbai
    unfold IS_BAI BAI_signature BAI OFFSET at this ⊢
    simp only [memcpy]
    rw [if_neg (by omega)]
    exact this
  unfold babl_realloc
  rw [if_neg hp]
  simp only [hl.2.1, not_true_eq_false, if_false, if_neg hsz, hl.sizeof]
  rw [if_neg (by omega), if_pos hgt, babl_malloc_ok raw size st hsz hs hf.1]
  simp only
  have hso : babl_sizeof ptr (afterMalloc raw size st) = .ok s := by
    unfold babl_sizeof
    simp [hbai, hsize']
  rw [hso]
  simp only
  rw [babl_free_ok ptr _ hp hbai2 (Or.inl ⟨rfl, rfl⟩)]
  rfl

theorem afterGrow_cell (raw ptr size s : Nat) (st : Mem) :
    (afterGrow raw ptr size s st).cell
      = memcpy (poke (poke st.cell raw st.signature) (raw + 8) size) (raw + OFFSET) ptr s :=
  rfl

theorem afterGrow_sizeof (raw ptr size s : Nat) (st : Mem) :
    babl_sizeof (raw + OFFSET) (afterGrow raw ptr size s st) = .ok size := by
  have c0 : (afterGrow raw ptr size s st).cell raw = st.signature := by
    rw [afterGrow_cell]
    simp only [memcpy, poke]
    rw [if_neg (by unfold OFFSET; omega), if_neg (by omega), if_pos trivial]
  have c8 : (afterGrow raw ptr size s st).cell (raw + 8) = size := by
    rw [afterGrow_cell]
    simp only [memcpy, poke]
    rw [if_neg (by unfold OFFSET; omega), if_pos trivial]
  have hsig : (afterGrow raw ptr size s st).signature = st.signature := rfl
  unfold babl_sizeof IS_BAI BAI_signature BAI_size
  rw [BAI_add_OFFSET, c0, c8, hsig]
  simp

theorem afterGrow_payload (raw ptr size s : Nat) (st : Mem) (hl : LiveBlock st ptr s)
    (hw : s + OFFSET < 2 ^ 64) (hf : FreshChunk st raw (size + OFFSET)) :
    payload (afterGrow raw ptr size s st) (raw + OFFSET) s = payload st ptr s := by
  have hap := hl.apart hw hf
  have h16 : 16 ≤ ptr := hl.1
  unfold payload
  apply List.map_congr_left
  intro k hk
  have hk' : k < s := List.mem_range.mp hk
  rw [afterGrow_cell]
  unfold OFFSET at hap ⊢
  simp only [memcpy, poke]
  rw [if_pos (by omega), if_neg (by omega), if_neg (by omega)]
  congr 1
  omega


theorem oneBlock_fresh (len : Nat) : FreshChunk oneBlock 8192 len := by
  refine ⟨by decide, ?_⟩
  intro c hc
  have : c = (4096, 24) := by
    simpa [oneBlock, afterMalloc, afterSanity, Mem.init, OFFSET] using hc
  subst this
  exact Or.inr (by norm_num)

/-- C7: whatever the arguments, a returning `babl_dup` returns `NULL`; on the
live 8-byte block of `oneBlock` it does allocate a block of the same size
(at 8208), copies the 8 bytes into it, and still returns `NULL`. -/
theorem babl_dup_returns_null (raw ptr : Nat) (st : Mem) :
    (match babl_dup raw ptr st with
      | .ok (ret, _) => ret = 0
      | .error _ => True) ∧
    (match babl_dup 8192 4112 oneBlock with
      | .ok (ret, st') => ret = 0 ∧ babl_sizeof 8208 st' = .ok 8 ∧
          payload st' 8208 8 = payload oneBlock 4112 8 ∧ st'.dups = 1
      | .error _ => False) := by
  constructor
  · unfold babl_dup
    split_ifs
    · rcases babl_malloc raw (BAI_size st ptr) st with e | ⟨ret, st'⟩
      · trivial
      · rfl
    · trivial
  · have hsz : BAI_size oneBlock 4112 = 8 := oneBlock_live.2.2.1
    have hb : IS_BAI oneBlock 4112 = true := oneBlock_live.2.1
    unfold babl_dup
    rw [hsz, babl_malloc_ok 8192 8 oneBlock (by decide) oneBlock_sane (by decide)]
    simp only [hb, not_true_eq_false, if_false, true_and]
    have hsz' : BAI_size (afterMalloc 8192 8 oneBlock) 4112 = 8 := by
      simp [BAI_size, BAI, OFFSET, oneBlock, afterMalloc, afterSanity, Mem.init, poke]
    rw [hsz']
    refine ⟨?_, ?_, ?_⟩
    · simp [babl_sizeof, IS_BAI, BAI_signature, BAI_size, BAI, OFFSET, oneBlock, afterMalloc,
        afterSanity, Mem.init, poke, memcpy]
    · simp [payload, List.range_succ, OFFSET, oneBlock, afterMalloc, afterSanity, Mem.init,
        poke, memcpy]
    · rfl

/-- C8, counterexample: growing the 8-byte block of `oneBlock` to 9 bytes
returns a block of 9 bytes, fewer than `2 * 8`. -/
theorem babl_realloc_not_doubling :
    babl_sizeof 4112 oneBlock = .ok 8 ∧
    (babl_realloc 8192 4112 9 oneBlock).bind (fun r => babl_sizeof r.1 r.2) = .ok 9 ∧
    ¬ (2 * 8 ≤ 9) := by
  refine ⟨oneBlock_live.sizeof, ?_, by decide⟩
  rw [babl_realloc_grow 8192 4112 9 8 oneBlock oneBlock_live (by decide)
    (by unfold OFFSET; norm_num) oneBlock_sane (oneBlock_fresh _)]
  exact afterGrow_sizeof 8192 4112 9 8 oneBlock

/-- C8, amended: for a live block `ptr` of `s` bytes and `size > s`, the
allocator returning a fresh chunk, `babl_realloc (ptr, size)` returns a block
whose `babl_sizeof` is exactly `size`. -/
theorem babl_realloc_grows_to_size (raw ptr size s : Nat) (st : Mem)
    (hl : LiveBlock st ptr s) (hgt : s < size) (hw : size + OFFSET < 2 ^ 64)
    (hs : HooksSane st) (hf : FreshChunk st raw ((size + OFFSET) % 2 ^ 64)) :
    ∃ ret st', babl_realloc raw ptr size st = .ok (ret, st') ∧ ret ≠ 0 ∧
      babl_sizeof ret st' = .ok size :=
  ⟨raw + OFFSET, afterGrow raw ptr size s st, babl_realloc_grow raw ptr size s st hl hgt hw hs hf,
    by unfold OFFSET; omega, afterGrow_sizeof raw ptr size s st⟩

/-- C8, amended, on the 8-byte block of `oneBlock` grown to 9 bytes. -/
theorem babl_realloc_grows_to_size_witness :
    LiveBlock oneBlock 4112 8 ∧ 8 < 9 ∧ 9 + OFFSET < 2 ^ 64 ∧ HooksSane oneBlock ∧
    FreshChunk oneBlock 8192 ((9 + OFFSET) % 2 ^ 64) ∧
    ∃ ret st', babl_realloc 8192 4112 9 oneBlock = .ok (ret, st') ∧ ret ≠ 0 ∧
      babl_sizeof ret st' = .ok 9 :=
  ⟨oneBlock_live, by decide, by unfold OFFSET; norm_num, oneBlock_sane, oneBlock_fresh _,
    babl_realloc_grows_to_size 8192 4112 9 8 oneBlock oneBlock_live (by decide)
      (by unfold OFFSET; norm_num) oneBlock_sane (oneBlock_fresh _)⟩

/-- C9, counterexample: `babl_realloc (NULL, 0)` returns no block, it fails
the assertion `babl_assert (size)` of `babl_malloc`. -/
theorem babl_realloc_null_zero :
    babl_realloc 8192 0 0 (Mem.init 1 2 3 (fun _ => 0)) = .error Fault.assertion := by
  simp [babl_realloc, babl_malloc]

/-- C9, amended: `babl_realloc (ptr, 0)` on a live block frees it (`frees`
rises by one, its chunk is given back) and returns `NULL`;
`babl_realloc (NULL, size)` is `babl_malloc (size)` for every `size`, and for
`size > 0`, the allocator returning a chunk, it returns a block with
`babl_sizeof = size`. -/
theorem babl_realloc_boundary (raw ptr s size : Nat) (st : Mem)
    (hl : LiveBlock st ptr s) (hs : HooksSane st) (hsize : 0 < size) (hraw : raw ≠ 0) :
    (∃ st', babl_realloc raw ptr 0 st = .ok (0, st') ∧ st'.frees = st.frees + 1 ∧
      st'.live.length + 1 = st.live.length) ∧
    (∀ n, babl_realloc raw 0 n st = babl_malloc raw n st) ∧
    (∃ ret st', babl_realloc raw 0 size st = .ok (ret, st') ∧ ret ≠ 0 ∧
      babl_sizeof ret st' = .ok size) := by
  refine ⟨⟨afterFree ptr st, ?_, rfl, ?_⟩, fun n => by simp [babl_realloc], ?_⟩
  · unfold babl_realloc
    rw [if_neg hl.ne_zero]
    simp only [hl.2.1, not_true_eq_false, if_false, if_true]
    rw [babl_free_ok ptr st hl.ne_zero hl.2.1 hs]
  · have hmem := hl.2.2.2
    simp only [afterFree]
    rw [List.length_eraseP_of_mem hmem (by simp)]
    have : 0 < st.live.length := List.length_pos_of_mem hmem
    omega
  · refine ⟨raw + OFFSET, afterMalloc raw size st, ?_, by unfold OFFSET; omega, ?_⟩
    · simp only [babl_realloc, if_true]
      exact babl_malloc_ok raw size st (by omega) hs hraw
    · simp [babl_sizeof, IS_BAI, BAI_signature, BAI_size, BAI_add_OFFSET, afterMalloc,
        afterSanity, poke]

/-- C9, amended, on the block of `oneBlock` and a request of 5 bytes. -/
theorem babl_realloc_boundary_witness :
    LiveBlock oneBlock 4112 8 ∧ HooksSane oneBlock ∧ 0 < 5 ∧ 8192 ≠ 0 ∧
    ((∃ st', babl_realloc 8192 4112 0 oneBlock = .ok (0, st') ∧
        st'.frees = oneBlock.frees + 1 ∧ st'.live.length + 1 = oneBlock.live.length) ∧
      (∀ n, babl_realloc 8192 0 n oneBlock = babl_malloc 8192 n oneBlock) ∧
      (∃ ret st', babl_realloc 8192 0 5 oneBlock = .ok (ret, st') ∧ ret ≠ 0 ∧
        babl_sizeof ret st' = .ok 5)) :=
  ⟨oneBlock_live, oneBlock_sane, by decide, by decide,
    babl_realloc_boundary 8192 4112 8 5 oneBlock oneBlock_live oneBlock_sane (by decide)
      (by decide)⟩

/-- C10: for a live block `ptr` of `s` bytes and `n > 0`, the allocator
returning a fresh chunk when asked, `babl_realloc (ptr, n)` returns a block
whose first `min s n` bytes are those `ptr` held and whose `babl_sizeof` is at
least `n`; when `n ≤ s` it returns `ptr` itself and leaves the state, hence
contents and recorded size, as it was. -/
theorem babl_realloc_preserves (raw ptr s n : Nat) (st : Mem)
    (hl : LiveBlock st ptr s) (hn : 0 < n) (hw : n + OFFSET < 2 ^ 64) (hs : HooksSane st)
    (hf : FreshChunk st raw ((n + OFFSET) % 2 ^ 64)) :
    ∃ ret st', babl_realloc raw ptr n st = .ok (ret, st') ∧
      payload st' ret (min s n) = payload st ptr (min s n) ∧
      (∃ sz, babl_sizeof ret st' = .ok sz ∧ n ≤ sz) ∧
      (n ≤ s → ret = ptr ∧ st' = st ∧ babl_sizeof ptr st' = .ok s) := by
  by_cases hle : n ≤ s
  · refine ⟨ptr, st, ?_, rfl, ⟨s, hl.sizeof, hle⟩, fun _ => ⟨rfl, rfl, hl.sizeof⟩⟩
    unfold babl_realloc
    rw [if_neg hl.ne_zero]
    simp only [hl.2.1, not_true_eq_false, if_false, if_neg (by omega : ¬ n = 0), hl.sizeof]
    rw [if_pos (by omega)]
  · have hgt : s < n := by omega
    refine ⟨raw + OFFSET, afterGrow raw ptr n s st,
      babl_realloc_grow raw ptr n s st hl hgt hw hs hf, ?_,
      ⟨n, afterGrow_sizeof raw ptr n s st, le_refl n⟩, fun h => absurd h hle⟩
    rw [Nat.min_eq_left (by omega)]
    rw [Nat.mod_eq_of_lt hw] at hf
    exact afterGrow_payload raw ptr n s st hl (by omega) hf

/-- C10 on the 8-byte block of `oneBlock` grown to 9 bytes. -/
theorem babl_realloc_preserves_witness :
    LiveBlock oneBlock 4112 8 ∧ 0 < 9 ∧ 9 + OFFSET < 2 ^ 64 ∧
    HooksSane oneBlock ∧ FreshChunk oneBlock 8192 ((9 + OFFSET) % 2 ^ 64) ∧
    ∃ ret st', babl_realloc 8192 4112 9 oneBlock = .ok (ret, st') ∧
      payload st' ret (min 8 9) = payload oneBlock 4112 (min 8 9) ∧
      (∃ sz, babl_sizeof ret st' = .ok sz ∧ 9 ≤ sz) ∧
      (9 ≤ 8 → ret = 4112 ∧ st' = oneBlock ∧ babl_sizeof 4112 st' = .ok 8) :=
  ⟨oneBlock_live, by decide, by unfold OFFSET; norm_num, oneBlock_sane, oneBlock_fresh _,
    babl_realloc_preserves 8192 4112 8 9 oneBlock oneBlock_live (by decide)
      (by unfold OFFSET; norm_num) oneBlock_sane (oneBlock_fresh _)⟩



theorem switchedBlock_not_sane : ¬ HooksSane switchedBlock := by
  intro h
  rcases h with ⟨h1, _⟩ | h0
  · exact absurd h1 (by decide)
  · exact absurd h0 (by decide)

theorem functions_sanity_of_not_sane (st : Mem) (h : ¬ HooksSane st) :
    functions_sanity st = .error Fault.switched := by
  unfold HooksSane at h
  unfold functions_sanity
  have h0 : st.first_malloc_used ≠ 0 := fun h0 => h (Or.inr h0)
  have hc : st.first_malloc_used ≠ st.malloc_f ∨ st.first_free_used ≠ st.free_f := by
    by_contra hc
    apply h
    left
    constructor
    · by_contra h1; exact hc (Or.inl h1)
    · by_contra h2; exact hc (Or.inr h2)
  rw [if_pos hc, if_neg h0]

theorem afterMalloc_sizeof (raw size : Nat) (st : Mem) :
    babl_sizeof (raw + OFFSET) (afterMalloc raw size st) = .ok size := by
  simp [babl_sizeof, IS_BAI, BAI_signature, BAI_size, BAI_add_OFFSET, afterMalloc,
    afterSanity, poke]

theorem afterMalloc_IS_BAI (raw size : Nat) (st : Mem) :
    IS_BAI (afterMalloc raw size st) (raw + OFFSET) = true := by
  simp [IS_BAI, BAI_signature, BAI_add_OFFSET, afterMalloc, afterSanity, poke]

/-- C12: `babl_memory_sanity` returns 0 exactly when
`frees = mallocs + strdups + callocs`, a sum that leaves out `dups`, and -1
otherwise; after `babl_malloc`, `babl_dup` and one `babl_free` it returns 0
although `mem_stats` reports 2 allocations and 1 free. -/
theorem babl_memory_sanity_leaves_out_dups (st : Mem) :
    (babl_memory_sanity st = 0 ↔ st.frees = st.mallocs + st.strdups + st.callocs) ∧
    (babl_memory_sanity st = -1 ↔ st.frees ≠ st.mallocs + st.strdups + st.callocs) ∧
    (match babl_dup 8192 4112 oneBlock with
      | .ok (_, st1) =>
        match babl_free 4112 st1 with
        | .ok st2 => babl_memory_sanity st2 = 0 ∧ mem_stats_allocs st2 = 2 ∧ st2.frees = 1
        | .error _ => False
      | .error _ => False) := by
  refine ⟨?_, ?_, ?_⟩
  · unfold babl_memory_sanity
    split_ifs with h
    · simp [h]
    · simpa using not_not.mp h
  · unfold babl_memory_sanity
    split_ifs with h
    · simp [h]
    · simp [not_not.mp h]
  · have hsz : BAI_size oneBlock 4112 = 8 := oneBlock_live.2.2.1
    have hb : IS_BAI oneBlock 4112 = true := oneBlock_live.2.1
    unfold babl_dup
    rw [hsz, babl_malloc_ok 8192 8 oneBlock (by decide) oneBlock_sane (by decide)]
    simp only [hb, not_true_eq_false, if_false]
    rw [babl_free_ok 4112 _ (by decide)
      (by simp [IS_BAI, BAI_signature, BAI_size, BAI, OFFSET, oneBlock, afterMalloc,
        afterSanity, Mem.init, poke, memcpy])
      (Or.inl ⟨rfl, rfl⟩)]
    simp [babl_memory_sanity, mem_stats_allocs, afterFree, afterSanity, afterMalloc, oneBlock,
      Mem.init]

/-- C13, counterexample: with the installed `malloc_f` switched after first
use, `babl_malloc (8)` raises a fatal error although the allocator would
return the non-null chunk 8192. -/
theorem babl_malloc_switched_fatal :
    (8192 : Nat) ≠ 0 ∧ babl_malloc 8192 8 switchedBlock = .error Fault.switched := by
  refine ⟨by decide, ?_⟩
  unfold babl_malloc
  rw [if_neg (by decide), functions_sanity_of_not_sane _ switchedBlock_not_sane]

/-- C13, amended: for `size > 0`, when the hooks have not been switched since
first use, `babl_malloc (size)` raises a fatal error if and only if the
allocator returns `NULL` (the error then is the allocation failure), and when
the allocator returns a chunk the call returns a non-null pointer that carries
the signature and records `babl_sizeof = size`; when the hooks have been
switched it raises the fatal error of `functions_sanity`, whatever the
allocator would return. -/
theorem babl_malloc_fatal_iff (raw size : Nat) (st : Mem) (hsize : 0 < size) :
    (HooksSane st →
      ((∃ e, babl_malloc raw size st = .error e) ↔ raw = 0) ∧
      (raw = 0 → babl_malloc raw size st = .error Fault.alloc_failed) ∧
      (raw ≠ 0 → ∃ ret st', babl_malloc raw size st = .ok (ret, st') ∧ ret ≠ 0 ∧
        IS_BAI st' ret = true ∧ babl_sizeof ret st' = .ok size)) ∧
    (¬ HooksSane st → babl_malloc raw size st = .error Fault.switched) := by
  have hsz : size ≠ 0 := by omega
  constructor
  · intro hs
    have h0 : raw = 0 → babl_malloc raw size st = .error Fault.alloc_failed := by
      intro hr
      unfold babl_malloc
      rw [if_neg hsz, functions_sanity_of_sane st hs]
      simp [hr]
    refine ⟨⟨?_, fun hr => ⟨_, h0 hr⟩⟩, h0, ?_⟩
    · rintro ⟨e, he⟩
      by_contra hr
      rw [babl_malloc_ok raw size st hsz hs hr] at he
      cases he
    · intro hr
      exact ⟨raw + OFFSET, afterMalloc raw size st, babl_malloc_ok raw size st hsz hs hr,
        by unfold OFFSET; omega, afterMalloc_IS_BAI raw size st, afterMalloc_sizeof raw size st⟩
  · intro hs
    unfold babl_malloc
    rw [if_neg hsz, functions_sanity_of_not_sane st hs]

/-- C13, amended, on a request of 8 bytes at program start. -/
theorem babl_malloc_fatal_iff_witness :
    0 < 8 ∧
    ((HooksSane (Mem.init 1 2 3 (fun _ => 0)) →
      ((∃ e, babl_malloc 4096 8 (Mem.init 1 2 3 (fun _ => 0)) = .error e) ↔ 4096 = 0) ∧
      (4096 = 0 → babl_malloc 4096 8 (Mem.init 1 2 3 (fun _ => 0))
        = .error Fault.alloc_failed) ∧
      (4096 ≠ 0 → ∃ ret st', babl_malloc 4096 8 (Mem.init 1 2 3 (fun _ => 0)) = .ok (ret, st') ∧
        ret ≠ 0 ∧ IS_BAI st' ret = true ∧ babl_sizeof ret st' = .ok 8)) ∧
    (¬ HooksSane (Mem.init 1 2 3 (fun _ => 0)) →
      babl_malloc 4096 8 (Mem.init 1 2 3 (fun _ => 0)) = .error Fault.switched)) :=
  ⟨by decide, babl_malloc_fatal_iff 4096 8 (Mem.init 1 2 3 (fun _ => 0)) (by decide)⟩

theorem switchedBlock_IS_BAI : IS_BAI switchedBlock 4112 = true := oneBlock_live.2.1

/-- C14, counterexample: with the installed `malloc_f` switched after first
use, `babl_free` of the signed, live block 4112 raises a fatal error and
releases nothing. -/
theorem babl_free_switched_fatal :
    IS_BAI switchedBlock 4112 = true ∧
    babl_free 4112 switchedBlock = .error Fault.switched := by
  refine ⟨switchedBlock_IS_BAI, ?_⟩
  unfold babl_free
  rw [if_neg (by decide)]
  simp only [switchedBlock_IS_BAI, not_true_eq_false, if_false]
  rw [functions_sanity_of_not_sane _ switchedBlock_not_sane]

/-- C14, amended: `babl_free (NULL)` returns with the state unchanged; for
`ptr` not `NULL`, `babl_free (ptr)` raises the fatal error "memory not
allocated by babl allocator" if and only if the header of `ptr` does not carry
the signature; with the signature present and the hooks not switched it hands
the chunk to `free_f` and raises `frees` by one, leaving the other counters;
with the hooks switched it raises the fatal error of `functions_sanity`. -/
theorem babl_free_cases (ptr : Nat) (st : Mem) (hp : ptr ≠ 0) :
    babl_free 0 st = .ok st ∧
    (babl_free ptr st = .error Fault.not_babl ↔ IS_BAI st ptr = false) ∧
    (IS_BAI st ptr = true → HooksSane st →
      ∃ st', babl_free ptr st = .ok st' ∧ st'.frees = st.frees + 1 ∧
        st'.live = st.live.eraseP (fun c => c.1 == BAI ptr) ∧
        st'.mallocs = st.mallocs ∧ st'.callocs = st.callocs ∧ st'.strdups = st.strdups ∧
        st'.dups = st.dups ∧ st'.reallocs = st.reallocs ∧ st'.cell = st.cell) ∧
    (IS_BAI st ptr = true → ¬ HooksSane st → babl_free ptr st = .error Fault.switched) := by
  refine ⟨by simp [babl_free], ?_, ?_, ?_⟩
  · constructor
    · intro h
      by_contra hb
      have hb' : IS_BAI st ptr = true := by simpa using hb
      unfold babl_free at h
      rw [if_neg hp] at h
      simp only [hb', not_true_eq_false, if_false] at h
      by_cases hs : HooksSane st
      · rw [functions_sanity_of_sane st hs] at h
        cases h
      · rw [functions_sanity_of_not_sane st hs] at h
        cases h
    · intro hb
      unfold babl_free
      rw [if_neg hp]
      simp [hb]
  · intro hb hs
    exact ⟨afterFree ptr st, babl_free_ok ptr st hp hb hs, rfl, rfl, rfl, rfl, rfl, rfl, rfl,
      rfl⟩
  · intro hb hs
    unfold babl_free
    rw [if_neg hp]
    simp only [hb, not_true_eq_false, if_false]
    rw [functions_sanity_of_not_sane st hs]

/-- C14, amended, on the live block of `oneBlock`. -/
theorem babl_free_cases_witness :
    (4112 : Nat) ≠ 0 ∧
    (babl_free 0 oneBlock = .ok oneBlock ∧
    (babl_free 4112 oneBlock = .error Fault.not_babl ↔ IS_BAI oneBlock 4112 = false) ∧
    (IS_BAI oneBlock 4112 = true → HooksSane oneBlock →
      ∃ st', babl_free 4112 oneBlock = .ok st' ∧ st'.frees = oneBlock.frees + 1 ∧
        st'.live = oneBlock.live.eraseP (fun c => c.1 == BAI 4112) ∧
        st'.mallocs = oneBlock.mallocs ∧ st'.callocs = oneBlock.callocs ∧
        st'.strdups = oneBlock.strdups ∧ st'.dups = oneBlock.dups ∧
        st'.reallocs = oneBlock.reallocs ∧ st'.cell = oneBlock.cell) ∧
    (IS_BAI oneBlock 4112 = true → ¬ HooksSane oneBlock →
      babl_free 4112 oneBlock = .error Fault.switched)) :=
  ⟨by decide, babl_free_cases 4112 oneBlock (by decide)⟩


theorem functions_sanity_keeps {st st' : Mem} (h : functions_sanity st = .ok st')
    (h0 : st.first_malloc_used ≠ 0) : st' = st := by
  unfold functions_sanity at h
  split_ifs at h with hc
  all_goals (cases h; rfl)

theorem babl_malloc_keeps {raw size ret : Nat} {st st' : Mem}
    (h : babl_malloc raw size st = .ok (ret, st')) (h0 : st.first_malloc_used ≠ 0) :
    firstUsed st' = firstUsed st ∧ installed st' = installed st := by
  unfold babl_malloc at h
  split_ifs at h with hs
  cases hfs : functions_sanity st with
  | error e => simp [hfs] at h
  | ok st1 =>
    have := functions_sanity_keeps hfs h0
    subst this
    simp only [hfs] at h
    split_ifs at h with hr
    cases h
    exact ⟨rfl, rfl⟩

theorem babl_free_keeps {ptr : Nat} {st st' : Mem}
    (h : babl_free ptr st = .ok st') (h0 : st.first_malloc_used ≠ 0) :
    firstUsed st' = firstUsed st ∧ installed st' = installed st := by
  unfold babl_free at h
  split_ifs at h with hp hb
  · cases h
    exact ⟨rfl, rfl⟩
  · cases hfs : functions_sanity st with
    | error e => simp [hfs] at h
    | ok st1 =>
      have := functions_sanity_keeps hfs h0
      subst this
      simp only [hfs] at h
      cases h
      exact ⟨rfl, rfl⟩

theorem firstUsed_ne_zero {st st' : Mem} (h : firstUsed st' = firstUsed st)
    (h0 : st.first_malloc_used ≠ 0) : st'.first_malloc_used ≠ 0 := by
  have : st'.first_malloc_used = st.first_malloc_used := congrArg Prod.fst h
  rw [this]
  exact h0

theorem babl_dup_keeps {raw ptr ret : Nat} {st st' : Mem}
    (h : babl_dup raw ptr st = .ok (ret, st')) (h0 : st.first_malloc_used ≠ 0) :
    firstUsed st' = firstUsed st ∧ installed st' = installed st := by
  unfold babl_dup at h
  split_ifs at h with hb
  cases hm : babl_malloc raw (BAI_size st ptr) st with
  | error e => simp [hm] at h
  | ok r =>
    obtain ⟨ret1, st1⟩ := r
    have hk := babl_malloc_keeps hm h0
    simp only [hm] at h
    cases h
    exact hk

theorem babl_calloc_keeps {raw nmemb size ret : Nat} {st st' : Mem}
    (h : babl_calloc raw nmemb size st = .ok (ret, st')) (h0 : st.first_malloc_used ≠ 0) :
    firstUsed st' = firstUsed st ∧ installed st' = installed st := by
  unfold babl_calloc at h
  split at h
  · cases h
  · rename_i ret1 st1 hm
    have hk := babl_malloc_keeps hm h0
    split_ifs at h
    cases h
    exact hk

theorem babl_strdup_keeps {raw ret : Nat} {s : List Nat} {st st' : Mem}
    (h : babl_strdup raw s st = .ok (ret, st')) (h0 : st.first_malloc_used ≠ 0) :
    firstUsed st' = firstUsed st ∧ installed st' = installed st := by
  unfold babl_strdup at h
  split at h
  · cases h
  · rename_i ret1 st1 hm
    have hk := babl_malloc_keeps hm h0
    cases h
    exact hk

theorem babl_realloc_keeps {raw ptr size ret : Nat} {st st' : Mem}
    (h : babl_realloc raw ptr size st = .ok (ret, st')) (h0 : st.first_malloc_used ≠ 0) :
    firstUsed st' = firstUsed st ∧ installed st' = installed st := by
  unfold babl_realloc at h
  split_ifs at h with hp hb hs
  · exact babl_malloc_keeps h h0
  · cases hf : babl_free ptr st with
    | error e => simp [hf] at h
    | ok st1 =>
      simp only [hf] at h
      cases h
      exact babl_free_keeps hf h0
  · cases hz : babl_sizeof ptr st with
    | error e => simp [hz] at h
    | ok sz =>
      simp only [hz] at h
      split_ifs at h with h1 h2
      · cases h
        exact ⟨rfl, rfl⟩
      · cases hm : babl_malloc raw size st with
        | error e => simp [hm] at h
        | ok r =>
          obtain ⟨ret1, st1⟩ := r
          have hk := babl_malloc_keeps hm h0
          simp only [hm] at h
          cases hz1 : babl_sizeof ptr st1 with
          | error e => simp [hz1] at h
          | ok n =>
            simp only [hz1] at h
            cases hf : babl_free ptr { st1 with cell := memcpy st1.cell ret1 ptr n } with
            | error e => simp [hf] at h
            | ok st2 =>
              simp only [hf] at h
              cases h
              have hk2 := babl_free_keeps hf (firstUsed_ne_zero hk.1 h0)
              exact ⟨hk2.1.trans hk.1, hk2.2.trans hk.2⟩
      · cases h
        exact ⟨rfl, rfl⟩

theorem babl_strcat_keeps {fuel raw dest ret : Nat} {src : List Nat} {st st' : Mem}
    (h : babl_strcat fuel raw dest src st = some (.ok (ret, st')))
    (h0 : st.first_malloc_used ≠ 0) :
    firstUsed st' = firstUsed st ∧ installed st' = installed st := by
  unfold babl_strcat at h
  simp only at h
  split at h
  · split at h
    · simp at h
    · rename_i ret1 st1 hm
      have hk := babl_malloc_keeps hm h0
      simp only [Option.some.injEq, Except.ok.injEq, Prod.mk.injEq] at h
      obtain ⟨_, h⟩ := h
      have e1 : firstUsed st' = firstUsed st := by
        rw [← h, ← hk.1]
        unfold firstUsed
        dsimp only
      have e2 : installed st' = installed st := by
        rw [← h, ← hk.2]
        unfold installed
        dsimp only
      exact ⟨e1, e2⟩
  · split at h
    · simp at h
    · split at h
      · simp at h
      · split at h
        · simp at h
        · split at h
          · split at h
            · simp at h
            · split at h
              · simp at h
              · rename_i hr
                have hk := babl_realloc_keeps hr h0
                simp only [Option.some.injEq, Except.ok.injEq, Prod.mk.injEq] at h
                obtain ⟨_, h⟩ := h
                have e1 : firstUsed st' = firstUsed st := by
                  rw [← h, ← hk.1]
                  unfold firstUsed
                  dsimp only
                have e2 : installed st' = installed st := by
                  rw [← h, ← hk.2]
                  unfold installed
                  dsimp only
                exact ⟨e1, e2⟩
          · simp only [Option.some.injEq, Except.ok.injEq, Prod.mk.injEq] at h
            obtain ⟨_, h⟩ := h
            have e1 : firstUsed st' = firstUsed st := by
              rw [← h]
              unfold firstUsed
              dsimp only
            have e2 : installed st' = installed st := by
              rw [← h]
              unfold installed
              dsimp only
            exact ⟨e1, e2⟩


theorem Except.map_snd_ok {α β : Type} {r : Run (α × β)} {b : β}
    (h : r.map Prod.snd = .ok b) : ∃ a, r = .ok (a, b) := by
  cases r with
  | error e => simp [Except.map] at h
  | ok p =>
    obtain ⟨a, b'⟩ := p
    simp only [Except.map, Except.ok.injEq] at h
    exact ⟨a, by rw [← h]⟩

theorem Call.exec_keeps {c : Call} {st st' : Mem} (h : c.exec st = some (.ok st'))
    (h0 : st.first_malloc_used ≠ 0) : firstUsed st' = firstUsed st := by
  cases c with
  | set_malloc g =>
    simp only [Call.exec, Option.some.injEq, Except.ok.injEq] at h
    rw [← h]; rfl
  | set_free g =>
    simp only [Call.exec, Option.some.injEq, Except.ok.injEq] at h
    rw [← h]; rfl
  | malloc raw size =>
    simp only [Call.exec, Option.some.injEq] at h
    obtain ⟨ret, hr⟩ := Except.map_snd_ok h
    exact (babl_malloc_keeps hr h0).1
  | calloc raw nmemb size =>
    simp only [Call.exec, Option.some.injEq] at h
    obtain ⟨ret, hr⟩ := Except.map_snd_ok h
    exact (babl_calloc_keeps hr h0).1
  | strdup raw s =>
    simp only [Call.exec, Option.some.injEq] at h
    obtain ⟨ret, hr⟩ := Except.map_snd_ok h
    exact (babl_strdup_keeps hr h0).1
  | dup raw ptr =>
    simp only [Call.exec, Option.some.injEq] at h
    obtain ⟨ret, hr⟩ := Except.map_snd_ok h
    exact (babl_dup_keeps hr h0).1
  | free ptr =>
    simp only [Call.exec, Option.some.injEq] at h
    exact (babl_free_keeps h h0).1
  | realloc raw ptr size =>
    simp only [Call.exec, Option.some.injEq] at h
    obtain ⟨ret, hr⟩ := Except.map_snd_ok h
    exact (babl_realloc_keeps hr h0).1
  | strcat fuel raw dest src =>
    simp only [Call.exec] at h
    cases hs : babl_strcat fuel raw dest src st with
    | none => simp [hs] at h
    | some r =>
      simp only [hs, Option.map_some', Option.some.injEq] at h
      obtain ⟨ret, hr⟩ := Except.map_snd_ok h
      rw [hr] at hs
      exact (babl_strcat_keeps hs h0).1

theorem execAll_keeps (cs : List Call) :
    ∀ (st st' : Mem), execAll cs st = some st' → st.first_malloc_used ≠ 0 →
      firstUsed st' = firstUsed st := by
  induction cs with
  | nil =>
    intro st st' h _
    simp only [execAll, Option.some.injEq] at h
    rw [h]
  | cons c cs ih =>
    intro st st' h h0
    unfold execAll at h
    split at h
    · rename_i st1 hc
      have h1 := Call.exec_keeps hc h0
      have h2 := ih st1 st' h (firstUsed_ne_zero h1 h0)
      exact h2.trans h1
    · cases h

theorem babl_malloc_not_switched (raw size : Nat) (st : Mem) (hs : HooksSane st) :
    babl_malloc raw size st ≠ .error Fault.switched := by
  by_cases hsz : size = 0
  · simp [babl_malloc, hsz]
  by_cases hr : raw = 0
  · unfold babl_malloc
    rw [if_neg hsz, functions_sanity_of_sane st hs]
    simp [hr]
  · rw [babl_malloc_ok raw size st hsz hs hr]
    simp

theorem babl_free_not_switched (ptr : Nat) (st : Mem) (hs : HooksSane st) :
    babl_free ptr st ≠ .error Fault.switched := by
  by_cases hp : ptr = 0
  · simp [babl_free, hp]
  by_cases hb : IS_BAI st ptr = true
  · rw [babl_free_ok ptr st hp hb hs]
    simp
  · unfold babl_free
    rw [if_neg hp]
    simp [hb]

theorem babl_malloc_first_use {raw size ret : Nat} {st st' : Mem}
    (h0 : st.first_malloc_used = 0) (h : babl_malloc raw size st = .ok (ret, st')) :
    firstUsed st' = installed st := by
  have hs : HooksSane st := Or.inr h0
  by_cases hsz : size = 0
  · simp [babl_malloc, hsz] at h
  by_cases hr : raw = 0
  · unfold babl_malloc at h
    rw [if_neg hsz, functions_sanity_of_sane st hs] at h
    simp [hr] at h
  · rw [babl_malloc_ok raw size st hsz hs hr] at h
    simp only [Except.ok.injEq, Prod.mk.injEq] at h
    rw [← h.2]
    unfold firstUsed installed afterMalloc afterSanity
    dsimp only

theorem babl_free_first_use {ptr : Nat} {st st' : Mem} (hp : ptr ≠ 0)
    (h0 : st.first_malloc_used = 0) (h : babl_free ptr st = .ok st') :
    firstUsed st' = installed st := by
  have hs : HooksSane st := Or.inr h0
  by_cases hb : IS_BAI st ptr = true
  · rw [babl_free_ok ptr st hp hb hs] at h
    simp only [Except.ok.injEq] at h
    rw [← h]
    unfold firstUsed installed afterFree afterSanity
    dsimp only
  · unfold babl_free at h
    rw [if_neg hp] at h
    simp [hb] at h

theorem execAll_switchedBlock :
    execAll [Call.malloc 4096 8, Call.set_malloc 7] (Mem.init 1 2 3 (fun _ => 0))
      = some switchedBlock := by
  simp [execAll, Call.exec, oneBlock_reached, Except.map, switchedBlock]

/-- C15, counterexample: after a first `babl_malloc` with the pair (1, 2) and a
`babl_set_malloc` that installs another function, `babl_free (NULL)` returns
normally and `babl_malloc (0)` fails its assertion; neither raises the fatal
error "babl memory function(s) attempted switched on the fly". -/
theorem hooks_switch_not_always_fatal :
    execAll [Call.malloc 4096 8, Call.set_malloc 7] (Mem.init 1 2 3 (fun _ => 0))
      = some switchedBlock ∧
    installed switchedBlock ≠ (1, 2) ∧
    babl_free 0 switchedBlock = .ok switchedBlock ∧
    babl_malloc 8192 0 switchedBlock = .error Fault.assertion := by
  refine ⟨execAll_switchedBlock, by decide, by simp [babl_free], by simp [babl_malloc]⟩

/-- C15, amended: the first returning `babl_malloc` or non-null `babl_free`
records the installed pair `(m, f)`; if `m` is not `NULL`, after any sequence
of returning calls the recorded pair is still `(m, f)`, and then every
`babl_malloc` with `size > 0` and every `babl_free` of a non-null pointer that
carries the signature raises the fatal error "switched on the fly" while the
installed pair differs from `(m, f)`, and no `babl_malloc` or `babl_free`
raises it while the installed pair is `(m, f)`. -/
theorem hooks_fixed_at_first_use (m f : Nat) (hm : m ≠ 0) :
    (∀ st raw size ret st', st.first_malloc_used = 0 → installed st = (m, f) →
      babl_malloc raw size st = .ok (ret, st') → firstUsed st' = (m, f)) ∧
    (∀ st ptr st', ptr ≠ 0 → st.first_malloc_used = 0 → installed st = (m, f) →
      babl_free ptr st = .ok st' → firstUsed st' = (m, f)) ∧
    (∀ st cs st', firstUsed st = (m, f) → execAll cs st = some st' →
      firstUsed st' = (m, f) ∧
      (installed st' ≠ (m, f) →
        (∀ raw size, size ≠ 0 → babl_malloc raw size st' = .error Fault.switched) ∧
        (∀ ptr, ptr ≠ 0 → IS_BAI st' ptr = true →
          babl_free ptr st' = .error Fault.switched)) ∧
      (installed st' = (m, f) →
        (∀ raw size, babl_malloc raw size st' ≠ .error Fault.switched) ∧
        (∀ ptr, babl_free ptr st' ≠ .error Fault.switched))) := by
  refine ⟨?_, ?_, ?_⟩
  · intro st raw size ret st' h0 hi h
    exact (babl_malloc_first_use h0 h).trans hi
  · intro st ptr st' hp h0 hi h
    exact (babl_free_first_use hp h0 h).trans hi
  · intro st cs st' hf h
    have h0 : st.first_malloc_used ≠ 0 := by
      have : st.first_malloc_used = m := congrArg Prod.fst hf
      rw [this]; exact hm
    have hk : firstUsed st' = (m, f) := (execAll_keeps cs st st' h h0).trans hf
    have h1 : st'.first_malloc_used = m := congrArg Prod.fst hk
    have h2 : st'.first_free_used = f := congrArg Prod.snd hk
    refine ⟨hk, ?_, ?_⟩
    · intro hne
      have hns : ¬ HooksSane st' := by
        rintro (⟨e1, e2⟩ | e0)
        · apply hne
          unfold installed
          rw [← e1, ← e2, h1, h2]
        · rw [h1] at e0
          exact hm e0
      refine ⟨?_, ?_⟩
      · intro raw size hsize
        unfold babl_malloc
        rw [if_neg hsize, functions_sanity_of_not_sane st' hns]
      · intro ptr hp hb
        unfold babl_free
        rw [if_neg hp]
        simp only [hb, not_true_eq_false, if_false]
        rw [functions_sanity_of_not_sane st' hns]
    · intro he
      have hs : HooksSane st' := by
        left
        have e1 : st'.malloc_f = m := congrArg Prod.fst he
        have e2 : st'.free_f = f := congrArg Prod.snd he
        exact ⟨h1.trans e1.symm, h2.trans e2.symm⟩
      exact ⟨fun raw size => babl_malloc_not_switched raw size st' hs,
        fun ptr => babl_free_not_switched ptr st' hs⟩

/-- C15, amended, for the pair (1, 2). -/
theorem hooks_fixed_at_first_use_witness :
    (1 : Nat) ≠ 0 ∧
    ((∀ st raw size ret st', st.first_malloc_used = 0 → installed st = (1, 2) →
      babl_malloc raw size st = .ok (ret, st') → firstUsed st' = (1, 2)) ∧
    (∀ st ptr st', ptr ≠ 0 → st.first_malloc_used = 0 → installed st = (1, 2) →
      babl_free ptr st = .ok st' → firstUsed st' = (1, 2)) ∧
    (∀ st cs st', firstUsed st = (1, 2) → execAll cs st = some st' →
      firstUsed st' = (1, 2) ∧
      (installed st' ≠ (1, 2) →
        (∀ raw size, size ≠ 0 → babl_malloc raw size st' = .error Fault.switched) ∧
        (∀ ptr, ptr ≠ 0 → IS_BAI st' ptr = true →
          babl_free ptr st' = .error Fault.switched)) ∧
      (installed st' = (1, 2) →
        (∀ raw size, babl_malloc raw size st' ≠ .error Fault.switched) ∧
        (∀ ptr, babl_free ptr st' ≠ .error Fault.switched)))) :=
  ⟨by decide, hooks_fixed_at_first_use 1 2 (by decide)⟩


theorem babl_sizeof_of_cells (st : Mem) (raw size : Nat) (h1 : st.cell raw = st.signature)
    (h2 : st.cell (raw + 8) = size) : babl_sizeof (raw + OFFSET) st = .ok size := by
  unfold babl_sizeof IS_BAI BAI_signature BAI_size
  rw [BAI_add_OFFSET, h1, h2]
  simp

theorem babl_calloc_ok (raw nmemb size : Nat) (st : Mem) (hpos : 0 < nmemb * size)
    (hlt : nmemb * size < 2 ^ 64) (hs : HooksSane st) (hraw : raw ≠ 0) :
    ∃ st', babl_calloc raw nmemb size st = .ok (raw + OFFSET, st') ∧
      st'.cell = memset (afterMalloc raw (nmemb * size) st).cell (raw + OFFSET) 0 (nmemb * size) ∧
      st'.signature = st.signature ∧
      st'.callocs = st.callocs + 1 ∧ st'.mallocs = st.mallocs ∧
      st'.live = (raw, (nmemb * size + OFFSET) % 2 ^ 64) :: st.live := by
  unfold babl_calloc
  rw [Nat.mod_eq_of_lt hlt, babl_malloc_ok raw (nmemb * size) st (by omega) hs hraw]
  have hne : ¬ (raw + OFFSET = 0) := by unfold OFFSET; omega
  simp only [if_neg hne]
  refine ⟨_, rfl, rfl, rfl, rfl, ?_, rfl⟩
  simp [afterMalloc, afterSanity]

theorem babl_strdup_ok (raw : Nat) (s : List Nat) (st : Mem) (hlt : s.length + 1 < 2 ^ 64)
    (hs : HooksSane st) (hraw : raw ≠ 0) :
    ∃ st', babl_strdup raw s st = .ok (raw + OFFSET, st') ∧
      st'.cell = strcpy (afterMalloc raw (s.length + 1) st).cell (raw + OFFSET) s ∧
      st'.signature = st.signature ∧
      st'.strdups = st.strdups + 1 ∧ st'.mallocs = st.mallocs ∧
      st'.live = (raw, (s.length + 1 + OFFSET) % 2 ^ 64) :: st.live := by
  unfold babl_strdup
  rw [Nat.mod_eq_of_lt hlt, babl_malloc_ok raw (s.length + 1) st (by omega) hs hraw]
  simp only
  refine ⟨_, rfl, rfl, rfl, rfl, ?_, rfl⟩
  simp [afterMalloc, afterSanity]

theorem strcpy_payload (cell : Nat → Nat) (dst : Nat) (s : List Nat) :
    (List.range (s.length + 1)).map (fun k => strcpy cell dst s (dst + k)) = s ++ [0] := by
  apply List.ext_getElem
  · simp
  · intro i h1 h2
    simp only [List.length_map, List.length_range] at h1
    simp only [List.getElem_map, List.getElem_range, strcpy]
    by_cases hi : i < s.length
    · rw [if_pos ⟨by omega, by omega⟩, List.getElem_append_left hi]
      simp [List.getD_eq_getElem?_getD, hi]
    · have : i = s.length := by omega
      subst this
      rw [if_neg (by omega), if_pos rfl]
      simp

/-- C18: with the hooks not switched and the allocator returning a chunk,
`babl_sizeof` of the returned block is `n` after `babl_malloc (n)`,
`nmemb * size` after `babl_calloc (nmemb, size)`, whose bytes are all zero,
and `strlen (s) + 1` after `babl_strdup (s)`, whose bytes are the characters
of `s` and the NUL; on a pointer whose header does not carry the signature
`babl_sizeof` fails its assertion. -/
theorem babl_sizeof_is_requested_size (raw n nmemb size : Nat) (s : List Nat) (st : Mem)
    (hs : HooksSane st) (hraw : raw ≠ 0) (hn : 0 < n) (hpos : 0 < nmemb * size)
    (hlt : nmemb * size < 2 ^ 64) (hlen : s.length + 1 < 2 ^ 64) :
    (∃ ret st', babl_malloc raw n st = .ok (ret, st') ∧ babl_sizeof ret st' = .ok n) ∧
    (∃ ret st', babl_calloc raw nmemb size st = .ok (ret, st') ∧
      babl_sizeof ret st' = .ok (nmemb * size) ∧
      payload st' ret (nmemb * size) = List.replicate (nmemb * size) 0) ∧
    (∃ ret st', babl_strdup raw s st = .ok (ret, st') ∧
      babl_sizeof ret st' = .ok (s.length + 1) ∧
      payload st' ret (s.length + 1) = s ++ [0]) ∧
    (∀ ptr st0, IS_BAI st0 ptr = false → babl_sizeof ptr st0 = .error Fault.assertion) := by
  refine ⟨?_, ?_, ?_, ?_⟩
  · exact ⟨raw + OFFSET, afterMalloc raw n st, babl_malloc_ok raw n st (by omega) hs hraw,
      afterMalloc_sizeof raw n st⟩
  · obtain ⟨st', h, hc, hsig, _⟩ := babl_calloc_ok raw nmemb size st hpos hlt hs hraw
    refine ⟨raw + OFFSET, st', h, ?_, ?_⟩
    · apply babl_sizeof_of_cells
      · rw [hc, hsig]
        simp only [memset]
        rw [if_neg (by unfold OFFSET; omega)]
        simp [afterMalloc, poke]
      · rw [hc]
        simp only [memset]
        rw [if_neg (by unfold OFFSET; omega)]
        simp [afterMalloc, poke]
    · unfold payload
      rw [hc]
      apply List.ext_getElem
      · simp
      · intro i h1 h2
        simp only [List.length_map, List.length_range] at h1
        simp only [List.getElem_map, List.getElem_range, List.getElem_replicate, memset]
        rw [if_pos ⟨by omega, by omega⟩]
  · obtain ⟨st', h, hc, hsig, _⟩ := babl_strdup_ok raw s st hlen hs hraw
    refine ⟨raw + OFFSET, st', h, ?_, ?_⟩
    · apply babl_sizeof_of_cells
      · rw [hc, hsig]
        simp only [strcpy]
        rw [if_neg (by unfold OFFSET; omega), if_neg (by unfold OFFSET; omega)]
        simp [afterMalloc, poke]
      · rw [hc]
        simp only [strcpy]
        rw [if_neg (by unfold OFFSET; omega), if_neg (by unfold OFFSET; omega)]
        simp [afterMalloc, poke]
    · unfold payload
      rw [hc]
      exact strcpy_payload _ _ _
  · intro ptr st0 hb
    unfold babl_sizeof
    simp [hb]

/-- C18 at program start: 8 bytes, 3 members of 4 bytes, and the string "hi". -/
theorem babl_sizeof_is_requested_size_witness :
    HooksSane (Mem.init 1 2 3 (fun _ => 0)) ∧ 4096 ≠ 0 ∧ 0 < 8 ∧ 0 < 3 * 4 ∧
    3 * 4 < 2 ^ 64 ∧ [104, 105].length + 1 < 2 ^ 64 ∧
    ((∃ ret st', babl_malloc 4096 8 (Mem.init 1 2 3 (fun _ => 0)) = .ok (ret, st') ∧
      babl_sizeof ret st' = .ok 8) ∧
    (∃ ret st', babl_calloc 4096 3 4 (Mem.init 1 2 3 (fun _ => 0)) = .ok (ret, st') ∧
      babl_sizeof ret st' = .ok (3 * 4) ∧
      payload st' ret (3 * 4) = List.replicate (3 * 4) 0) ∧
    (∃ ret st', babl_strdup 4096 [104, 105] (Mem.init 1 2 3 (fun _ => 0)) = .ok (ret, st') ∧
      babl_sizeof ret st' = .ok ([104, 105].length + 1) ∧
      payload st' ret ([104, 105].length + 1) = [104, 105] ++ [0]) ∧
    (∀ ptr st0, IS_BAI st0 ptr = false → babl_sizeof ptr st0 = .error Fault.assertion)) :=
  ⟨Or.inr rfl, by decide, by decide, by decide, by norm_num, by norm_num,
    babl_sizeof_is_requested_size 4096 8 3 4 [104, 105] (Mem.init 1 2 3 (fun _ => 0))
      (Or.inr rfl) (by decide) (by decide) (by decide) (by norm_num) (by norm_num)⟩


theorem strlen_of_holds (cell : Nat → Nat) (p : Nat) (d : List Nat)
    (hd : HoldsString cell p d) :
    ∀ (fuel n : Nat), n ≤ d.length → d.length - n < fuel →
      strlen cell p fuel n = some d.length := by
  intro fuel
  induction fuel with
  | zero => intro n _ h; omega
  | succ fuel ih =>
    intro n hn hf
    unfold strlen
    by_cases hlt : n < d.length
    · have hne : cell (p + n) ≠ 0 := by
        rw [(hd.1 n hlt).1]
        exact (hd.1 n hlt).2
      rw [if_neg hne]
      exact ih (n + 1) (by omega) (by omega)
    · have : n = d.length := by omega
      subst this
      rw [if_pos hd.2]

theorem babl_strcat_grow_spec (need : Nat) (hneed : need < 2 ^ 63) :
    ∀ (fuel ns : Nat), 1 ≤ ns → need - ns < fuel →
      ∃ r k, babl_strcat_grow need fuel ns = some r ∧ r = ns * 2 ^ k ∧ need ≤ r ∧
        (∀ j, j < k → ns * 2 ^ j < need) := by
  intro fuel
  induction fuel with
  | zero => intro ns _ h; omega
  | succ fuel ih =>
    intro ns h1 hf
    unfold babl_strcat_grow
    by_cases hlt : ns < need
    · rw [if_pos hlt]
      have hmod : ns * 2 % 2 ^ 64 = ns * 2 := Nat.mod_eq_of_lt (by omega)
      rw [hmod]
      obtain ⟨r, k, hr, hk, hge, hmin⟩ := ih (ns * 2) (by omega) (by omega)
      refine ⟨r, k + 1, hr, ?_, hge, ?_⟩
      · rw [hk, pow_succ]; ring
      · intro j hj
        cases j with
        | zero => simpa using hlt
        | succ j =>
          have := hmin j (by omega)
          rw [pow_succ]
          calc ns * (2 ^ j * 2) = ns * 2 * 2 ^ j := by ring
            _ < need := this
    · rw [if_neg hlt]
      exact ⟨ns, 0, rfl, by simp, by omega, fun j hj => by omega⟩

theorem toInt32_natCast (n : Nat) (hn : n < 2 ^ 31) : toInt32 (n : Int) = (n : Int) := by
  unfold toInt32
  norm_num at hn ⊢
  omega

theorem toSizeT_natCast (n : Nat) (hn : n < 2 ^ 64) : toSizeT (n : Int) = n := by
  unfold toSizeT
  have h : ((n : Int)) % 2 ^ 64 = (n : Int) := Int.emod_eq_of_lt (by omega) (by
    have : ((n : Nat) : Int) < ((2 ^ 64 : Nat) : Int) := by exact_mod_cast hn
    simpa using this)
  rw [h]
  simp

theorem payload_strcpy (cell : Nat → Nat) (p : Nat) (d src : List Nat)
    (hd : ∀ k, k < d.length → cell (p + k) = d.getD k 0) :
    (List.range (d.length + src.length + 1)).map
      (fun k => strcpy cell (p + d.length) src (p + k)) = d ++ src ++ [0] := by
  apply List.ext_getElem
  · simp [Nat.add_assoc]
  · intro i h1 h2
    simp only [List.length_map, List.length_range] at h1
    simp only [List.getElem_map, List.getElem_range, strcpy]
    by_cases hi : i < d.length
    · rw [if_neg (by omega), if_neg (by omega), hd i hi]
      simp [List.getElem_append, hi, List.getD_eq_getElem?_getD,
        show i < d.length + src.length by omega]
    · by_cases hi2 : i < d.length + src.length
      · rw [if_pos ⟨by omega, by omega⟩]
        have e : p + i - (p + d.length) = i - d.length := by omega
        rw [e]
        simp [List.getElem_append, hi, hi2, List.getD_eq_getElem?_getD,
          show i - d.length < src.length by omega]
      · have : i = d.length + src.length := by omega
        subst this
        rw [if_neg (by omega), if_pos (by omega)]
        simp [List.getElem_append]

theorem strcpy_below (cell : Nat → Nat) (q k : Nat) (s : List Nat) (hk : k < q) :
    strcpy cell q s k = cell k := by
  unfold strcpy
  rw [if_neg (by omega), if_neg (by omega)]

theorem afterGrow_cell_raw (raw ptr size s : Nat) (st : Mem) :
    (afterGrow raw ptr size s st).cell raw = st.signature := by
  rw [afterGrow_cell]
  simp only [memcpy, poke]
  rw [if_neg (by unfold OFFSET; omega), if_neg (by omega), if_pos trivial]

theorem afterGrow_cell_raw8 (raw ptr size s : Nat) (st : Mem) :
    (afterGrow raw ptr size s st).cell (raw + 8) = size := by
  rw [afterGrow_cell]
  simp only [memcpy, poke]
  rw [if_neg (by unfold OFFSET; omega), if_pos trivial]

theorem afterGrow_cell_payload (raw ptr size s : Nat) (st : Mem) (hl : LiveBlock st ptr s)
    (hw : s + OFFSET < 2 ^ 64) (hf : FreshChunk st raw (size + OFFSET)) (k : Nat) (hk : k < s) :
    (afterGrow raw ptr size s st).cell (raw + OFFSET + k) = st.cell (ptr + k) := by
  have hap := hl.apart hw hf
  have h16 : 16 ≤ ptr := hl.1
  rw [afterGrow_cell]
  unfold OFFSET at hap ⊢
  simp only [memcpy, poke]
  rw [if_pos (by omega), if_neg (by omega), if_neg (by omega)]
  congr 1
  omega

theorem babl_strcat_null (fuel raw : Nat) (src : List Nat) (st : Mem)
    (hlen : src.length + 1 < 2 ^ 31) (hs : HooksSane st) (hraw : raw ≠ 0) :
    ∃ ret st', babl_strcat fuel raw 0 src st = some (.ok (ret, st')) ∧ ret ≠ 0 ∧
      payload st' ret (src.length + 1) = src ++ [0] ∧
      babl_sizeof ret st' = .ok (src.length + 1) := by
  have h1 : toInt32 (src.length : Int) = (src.length : Int) := toInt32_natCast _ (by omega)
  have h3 : toSizeT ((src.length : Int) + 1) = src.length + 1 := by
    have : ((src.length : Int) + 1) = ((src.length + 1 : Nat) : Int) := by push_cast; ring
    rw [this, toSizeT_natCast _ (by omega)]
  unfold babl_strcat
  simp only [h1, h3, if_true]
  rw [babl_malloc_ok raw (src.length + 1) st (by omega) hs hraw]
  simp only
  refine ⟨_, _, rfl, by unfold OFFSET; omega, ?_, ?_⟩
  · unfold payload
    exact strcpy_payload _ _ _
  · apply babl_sizeof_of_cells
    · simp only
      rw [strcpy_below _ _ _ _ (by unfold OFFSET; omega)]
      simp [afterMalloc, afterSanity, poke]
    · simp only
      rw [strcpy_below _ _ _ _ (by unfold OFFSET; omega)]
      simp [afterMalloc, poke]

theorem babl_strcat_dest (fuel raw dest s : Nat) (d src : List Nat) (st : Mem)
    (hl : LiveBlock st dest s) (hd : HoldsString st.cell dest d) (hfit : d.length < s)
    (hlen : d.length + src.length + 1 < 2 ^ 31) (hs : HooksSane st)
    (hfuel : d.length + src.length + 1 < fuel)
    (hf : ∀ ns, babl_strcat_grow (d.length + src.length + 1) fuel s = some ns →
      FreshChunk st raw ((ns + OFFSET) % 2 ^ 64)) :
    ∃ ret st', babl_strcat fuel raw dest src st = some (.ok (ret, st')) ∧ ret ≠ 0 ∧
      payload st' ret (d.length + src.length + 1) = d ++ src ++ [0] ∧
      ∃ sz, babl_sizeof ret st' = .ok sz ∧ d.length + src.length + 1 ≤ sz := by
  have h1 : toInt32 (src.length : Int) = (src.length : Int) := toInt32_natCast _ (by omega)
  have h2 : toInt32 (d.length : Int) = (d.length : Int) := toInt32_natCast _ (by omega)
  have h3 : toSizeT ((src.length : Int) + (d.length : Int) + 1)
      = d.length + src.length + 1 := by
    have : ((src.length : Int) + (d.length : Int) + 1)
        = ((d.length + src.length + 1 : Nat) : Int) := by push_cast; ring
    rw [this, toSizeT_natCast _ (by omega)]
  have h4 : ∀ x : Nat, ((x : Int) + (d.length : Int)).toNat = x + d.length := by
    intro x; omega
  have h16 : 16 ≤ dest := hl.1
  have hlenS : strlen st.cell dest fuel 0 = some d.length :=
    strlen_of_holds st.cell dest d hd fuel 0 (by omega) (by omega)
  unfold babl_strcat
  simp only [if_neg hl.ne_zero, hl.2.1, not_true_eq_false, if_false, hlenS, h1, h2, h3, h4,
    hl.sizeof]
  by_cases hlt : s < d.length + src.length + 1
  · rw [if_pos hlt]
    obtain ⟨ns, k, hg, hk, hge, hmin⟩ :=
      babl_strcat_grow_spec (d.length + src.length + 1) (by omega) fuel s (by omega) (by omega)
    have hk1 : k ≠ 0 := by
      intro h0
      rw [h0] at hk
      simp at hk
      omega
    have hns : ns < 2 * (d.length + src.length + 1) := by
      obtain ⟨j, rfl⟩ : ∃ j, k = j + 1 := ⟨k - 1, by omega⟩
      have := hmin j (by omega)
      rw [hk, pow_succ]
      calc s * (2 ^ j * 2) = 2 * (s * 2 ^ j) := by ring
        _ < 2 * (d.length + src.length + 1) := by omega
    have hw : ns + OFFSET < 2 ^ 64 := by unfold OFFSET; omega
    have hfr := hf ns hg
    rw [hg]
    simp only
    rw [babl_realloc_grow raw dest ns s st hl (by omega) hw hs hfr]
    simp only
    rw [Nat.mod_eq_of_lt hw] at hfr
    refine ⟨_, _, rfl, by unfold OFFSET; omega, ?_, ns, ?_, hge⟩
    · unfold payload
      simp only
      apply payload_strcpy
      intro i hi
      rw [afterGrow_cell_payload raw dest ns s st hl (by unfold OFFSET; omega) hfr i (by omega)]
      exact (hd.1 i hi).1
    · apply babl_sizeof_of_cells
      · simp only
        rw [strcpy_below _ _ _ _ (by unfold OFFSET; omega)]
        exact afterGrow_cell_raw raw dest ns s st
      · simp only
        rw [strcpy_below _ _ _ _ (by unfold OFFSET; omega)]
        exact afterGrow_cell_raw8 raw dest ns s st
  · rw [if_neg hlt]
    refine ⟨_, _, rfl, hl.ne_zero, ?_, s, ?_, by omega⟩
    · unfold payload
      simp only
      exact payload_strcpy st.cell dest d src (fun i hi => (hd.1 i hi).1)
    · have hb := hl.2.1
      have hz := hl.2.2.1
      unfold babl_sizeof IS_BAI BAI_signature BAI_size BAI OFFSET at *
      simp only
      rw [strcpy_below _ _ _ _ (by omega), strcpy_below _ _ _ _ (by omega)]
      simp [hb, hz]

/-- C11: for a live block `dest` of `s` bytes holding the string `d`, a string
`src`, lengths that fit an `int`, the hooks not switched and the allocator
answering any request with a fresh chunk, `babl_strcat (dest, src)` returns a
non-null block whose first bytes are the characters of `d`, those of `src` and
a NUL, with `babl_sizeof` at least `strlen (dest) + strlen (src) + 1`;
`babl_strcat (NULL, src)` returns a fresh block holding `src` and the NUL. -/
theorem babl_strcat_concatenates (raw dest s extra : Nat) (d src : List Nat) (st : Mem)
    (hl : LiveBlock st dest s) (hd : HoldsString st.cell dest d) (hfit : d.length < s)
    (hlen : d.length + src.length + 1 < 2 ^ 31) (hs : HooksSane st) (hraw : raw ≠ 0)
    (hf : ∀ ns, babl_strcat_grow (d.length + src.length + 1)
        (extra + (d.length + src.length + 2)) s = some ns →
      FreshChunk st raw ((ns + OFFSET) % 2 ^ 64)) :
    (∃ ret st', babl_strcat (extra + (d.length + src.length + 2)) raw dest src st
        = some (.ok (ret, st')) ∧ ret ≠ 0 ∧
      payload st' ret (d.length + src.length + 1) = d ++ src ++ [0] ∧
      ∃ sz, babl_sizeof ret st' = .ok sz ∧ d.length + src.length + 1 ≤ sz) ∧
    (∃ ret st', babl_strcat extra raw 0 src st = some (.ok (ret, st')) ∧ ret ≠ 0 ∧
      payload st' ret (src.length + 1) = src ++ [0] ∧
      babl_sizeof ret st' = .ok (src.length + 1)) :=
  ⟨babl_strcat_dest _ raw dest s d src st hl hd hfit hlen hs (by omega) hf,
    babl_strcat_null extra raw src st (by omega) hs hraw⟩

theorem oneBlock_holds_empty : HoldsString oneBlock.cell 4112 [] := by
  refine ⟨fun k hk => absurd hk (by simp), ?_⟩
  simp [oneBlock, afterMalloc, afterSanity, Mem.init, poke]

/-- C11 on the empty string held by the 8-byte block of `oneBlock` and a
source of 8 characters, which makes the block grow. -/
theorem babl_strcat_concatenates_witness :
    LiveBlock oneBlock 4112 8 ∧ HoldsString oneBlock.cell 4112 [] ∧
    ([] : List Nat).length < 8 ∧
    ([] : List Nat).length + [1, 2, 3, 4, 5, 6, 7, 8].length + 1 < 2 ^ 31 ∧
    HooksSane oneBlock ∧ 8192 ≠ 0 ∧
    (∀ ns, babl_strcat_grow (([] : List Nat).length + [1, 2, 3, 4, 5, 6, 7, 8].length + 1)
        (0 + (([] : List Nat).length + [1, 2, 3, 4, 5, 6, 7, 8].length + 2)) 8 = some ns →
      FreshChunk oneBlock 8192 ((ns + OFFSET) % 2 ^ 64)) ∧
    ((∃ ret st', babl_strcat (0 + (([] : List Nat).length + [1, 2, 3, 4, 5, 6, 7, 8].length + 2))
        8192 4112 [1, 2, 3, 4, 5, 6, 7, 8] oneBlock = some (.ok (ret, st')) ∧ ret ≠ 0 ∧
      payload st' ret (([] : List Nat).length + [1, 2, 3, 4, 5, 6, 7, 8].length + 1)
        = [] ++ [1, 2, 3, 4, 5, 6, 7, 8] ++ [0] ∧
      ∃ sz, babl_sizeof ret st' = .ok sz ∧
        ([] : List Nat).length + [1, 2, 3, 4, 5, 6, 7, 8].length + 1 ≤ sz) ∧
    (∃ ret st', babl_strcat 0 8192 0 [1, 2, 3, 4, 5, 6, 7, 8] oneBlock
        = some (.ok (ret, st')) ∧ ret ≠ 0 ∧
      payload st' ret ([1, 2, 3, 4, 5, 6, 7, 8].length + 1) = [1, 2, 3, 4, 5, 6, 7, 8] ++ [0] ∧
      babl_sizeof ret st' = .ok ([1, 2, 3, 4, 5, 6, 7, 8].length + 1))) :=
  ⟨oneBlock_live, oneBlock_holds_empty, by decide, by norm_num, oneBlock_sane, by decide,
    fun _ _ => oneBlock_fresh _,
    babl_strcat_concatenates 8192 4112 8 0 [] [1, 2, 3, 4, 5, 6, 7, 8] oneBlock oneBlock_live
      oneBlock_holds_empty (by decide) (by norm_num) oneBlock_sane (by decide)
      (fun _ _ => oneBlock_fresh _)⟩


theorem babl_strcat_grow_steps (need : Nat) (hneed : need ≤ 2 ^ 63) :
    ∀ (k ns fuel : Nat), (∀ j, j < k → ns * 2 ^ j < need) → need ≤ ns * 2 ^ k → k < fuel →
      babl_strcat_grow need fuel ns = some (ns * 2 ^ k) := by
  intro k
  induction k with
  | zero =>
    intro ns fuel _ hge hf
    obtain ⟨f, rfl⟩ : ∃ f, fuel = f + 1 := ⟨fuel - 1, by omega⟩
    unfold babl_strcat_grow
    rw [if_neg (by simpa using hge)]
    simp
  | succ k ih =>
    intro ns fuel hlt hge hf
    obtain ⟨f, rfl⟩ : ∃ f, fuel = f + 1 := ⟨fuel - 1, by omega⟩
    have h0 : ns < need := by simpa using hlt 0 (by omega)
    unfold babl_strcat_grow
    rw [if_pos h0, Nat.mod_eq_of_lt (by omega)]
    have e : ∀ j, ns * 2 * 2 ^ j = ns * 2 ^ (j + 1) := by
      intro j
      rw [pow_succ]
      ring
    rw [ih (ns * 2) f (fun j hj => by rw [e]; exact hlt (j + 1) (by omega))
      (by rw [e]; exact hge) (by omega), e]

/-- C26: for a recorded size `sz ≥ 1` and lengths whose sum
`strlen (dest) + strlen (src) + 1` fits the `int` variables of `babl_strcat`,
the loop `while (new_size < src_len + dst_len + 1) new_size *= 2;` stops: there
is a `k` such that with any fuel above `k` it ends with
`new_size = sz * 2^k`, and `k` is the least exponent with
`sz * 2^k ≥ strlen (dest) + strlen (src) + 1`.  The recorded size of a babl
allocation is at least 1: `babl_malloc (0)` fails its assertion. -/
theorem babl_strcat_growth_terminates (sz srcLen dstLen : Nat) (hsz : 1 ≤ sz)
    (hlen : srcLen + dstLen + 1 ≤ 2 ^ 31 - 1) :
    (∃ k, (∀ fuel, k < fuel →
          babl_strcat_grow (toSizeT (toInt32 (srcLen : Int) + toInt32 (dstLen : Int) + 1)) fuel sz
            = some (sz * 2 ^ k)) ∧
        srcLen + dstLen + 1 ≤ sz * 2 ^ k ∧
        ∀ j, j < k → sz * 2 ^ j < srcLen + dstLen + 1) ∧
    (∀ raw st, babl_malloc raw 0 st = .error Fault.assertion) := by
  have h1 : toInt32 (srcLen : Int) = (srcLen : Int) := toInt32_natCast _ (by omega)
  have h2 : toInt32 (dstLen : Int) = (dstLen : Int) := toInt32_natCast _ (by omega)
  have h3 : toSizeT ((srcLen : Int) + (dstLen : Int) + 1) = srcLen + dstLen + 1 := by
    have : (srcLen : Int) + (dstLen : Int) + 1 = ((srcLen + dstLen + 1 : Nat) : Int) := by
      push_cast; ring
    rw [this, toSizeT_natCast _ (by omega)]
  rw [h1, h2, h3]
  constructor
  · obtain ⟨r, k, _, _, hge, hmin⟩ :=
      babl_strcat_grow_spec (srcLen + dstLen + 1) (by omega)
        (srcLen + dstLen + 1 - sz + 1) sz hsz (by omega)
    subst r
    exact ⟨k, fun fuel hf =>
      babl_strcat_grow_steps (srcLen + dstLen + 1) (by omega) k sz fuel hmin hge hf, hge, hmin⟩
  · intro raw st
    simp [babl_malloc]

/-- C26, for a block of 8 bytes holding a string of 5 characters to which 30
are appended: the loop ends with `new_size = 8 * 2^3 = 64`. -/
theorem babl_strcat_growth_terminates_witness :
    (1 : Nat) ≤ 8 ∧ 30 + 5 + 1 ≤ 2 ^ 31 - 1 ∧
    ((∃ k, (∀ fuel, k < fuel →
          babl_strcat_grow (toSizeT (toInt32 ((30 : Nat) : Int) + toInt32 ((5 : Nat) : Int) + 1))
            fuel 8 = some (8 * 2 ^ k)) ∧
        30 + 5 + 1 ≤ 8 * 2 ^ k ∧
        ∀ j, j < k → 8 * 2 ^ j < 30 + 5 + 1) ∧
    (∀ raw st, babl_malloc raw 0 st = .error Fault.assertion)) :=
  ⟨by norm_num, by norm_num, babl_strcat_growth_terminates 8 30 5 (by norm_num) (by norm_num)⟩


theorem functions_sanity_tally {st st1 : Mem} (h : functions_sanity st = .ok st1) :
    CountersMove st st1 0 0 0 0 0 0 ∧ st1.live = st.live := by
  unfold functions_sanity at h
  split_ifs at h with hc h0
  all_goals (cases h; simp [CountersMove])

theorem babl_malloc_tally {raw size ret : Nat} {st st' : Mem}
    (h : babl_malloc raw size st = .ok (ret, st')) :
    CountersMove st st' 1 0 0 0 0 0 ∧ st'.live = (raw, (size + OFFSET) % 2 ^ 64) :: st.live := by
  unfold babl_malloc at h
  split_ifs at h with hs
  cases hfs : functions_sanity st with
  | error e => simp [hfs] at h
  | ok st1 =>
    obtain ⟨⟨m1, c1, s1, d1, f1, r1⟩, l1⟩ := functions_sanity_tally hfs
    simp only [hfs] at h
    split_ifs at h with hr
    cases h
    simp only [add_zero] at m1 c1 s1 d1 f1 r1
    exact ⟨⟨by simp [m1], by simp [c1], by simp [s1], by simp [d1], by simp [f1], by simp [r1]⟩,
      by simp [l1]⟩

theorem babl_free_tally {ptr : Nat} {st st' : Mem}
    (h : babl_free ptr st = .ok st') (hp : ptr ≠ 0) :
    CountersMove st st' 0 0 0 0 1 0 ∧
      st'.live = st.live.eraseP (fun c => c.1 == BAI ptr) := by
  unfold babl_free at h
  rw [if_neg hp] at h
  split_ifs at h with hb
  cases hfs : functions_sanity st with
  | error e => simp [hfs] at h
  | ok st1 =>
    obtain ⟨⟨m1, c1, s1, d1, f1, r1⟩, l1⟩ := functions_sanity_tally hfs
    simp only [hfs] at h
    cases h
    simp only [add_zero] at m1 c1 s1 d1 f1 r1
    exact ⟨⟨by simp [m1], by simp [c1], by simp [s1], by simp [d1], by simp [f1], by simp [r1]⟩,
      by simp [l1]⟩

theorem balance_step {st st' : Mem} {dm dc ds dd df dr : Int} (dl : Int)
    (hc : CountersMove st st' dm dc ds dd df dr)
    (hl : (st'.live.length : Int) = (st.live.length : Int) + dl)
    (hd : dm + dc + ds + dd - df = dl) : balance st' = balance st := by
  obtain ⟨m1, c1, s1, d1, f1, _⟩ := hc
  unfold balance mem_stats_allocs
  rw [m1, c1, s1, d1, f1, hl]
  omega

theorem length_eraseP_any {α : Type} (l : List α) (p : α → Bool) (h : l.any p = true) :
    ((l.eraseP p).length : Int) = (l.length : Int) - 1 := by
  rw [List.length_eraseP, if_pos h]
  obtain ⟨x, hx, _⟩ := List.any_eq_true.mp h
  have := List.length_pos_of_mem hx
  omega

theorem babl_malloc_balance {raw size ret : Nat} {st st' : Mem}
    (h : babl_malloc raw size st = .ok (ret, st')) : balance st' = balance st := by
  obtain ⟨hc, hl⟩ := babl_malloc_tally h
  exact balance_step 1 hc (by rw [hl]; simp) (by norm_num)

theorem babl_free_balance {ptr : Nat} {st st' : Mem}
    (h : babl_free ptr st = .ok st') (hon : ptr = 0 ∨ outstanding st ptr = true) :
    balance st' = balance st := by
  by_cases hp : ptr = 0
  · subst hp
    simp only [babl_free, if_true, Except.ok.injEq] at h
    rw [← h]
  · have ho : outstanding st ptr = true := by
      rcases hon with h0 | h1
      · exact absurd h0 hp
      · exact h1
    obtain ⟨hc, hl⟩ := babl_free_tally h hp
    refine balance_step (-1) hc ?_ (by norm_num)
    rw [hl, length_eraseP_any _ _ ho]
    ring

theorem babl_calloc_tally {raw nmemb size ret : Nat} {st st' : Mem}
    (h : babl_calloc raw nmemb size st = .ok (ret, st')) :
    CountersMove st st' 0 1 0 0 0 0 ∧
      st'.live = (raw, (nmemb * size % 2 ^ 64 + OFFSET) % 2 ^ 64) :: st.live := by
  unfold babl_calloc at h
  split at h
  · cases h
  · rename_i ret1 st1 hm
    obtain ⟨⟨m1, c1, s1, d1, f1, r1⟩, l1⟩ := babl_malloc_tally hm
    split_ifs at h
    cases h
    simp only [add_zero] at c1 s1 d1 f1 r1
    exact ⟨⟨by simp [m1], by simp [c1], by simp [s1], by simp [d1], by simp [f1], by simp [r1]⟩,
      by simp [l1]⟩

theorem babl_strdup_tally {raw ret : Nat} {s : List Nat} {st st' : Mem}
    (h : babl_strdup raw s st = .ok (ret, st')) :
    CountersMove st st' 0 0 1 0 0 0 ∧
      st'.live = (raw, ((s.length + 1) % 2 ^ 64 + OFFSET) % 2 ^ 64) :: st.live := by
  unfold babl_strdup at h
  split at h
  · cases h
  · rename_i ret1 st1 hm
    obtain ⟨⟨m1, c1, s1, d1, f1, r1⟩, l1⟩ := babl_malloc_tally hm
    simp only [Except.ok.injEq, Prod.mk.injEq] at h
    obtain ⟨_, h⟩ := h
    simp only [add_zero] at c1 s1 d1 f1 r1
    unfold CountersMove
    rw [← h]
    dsimp only
    exact ⟨⟨by simp [m1], by simp [c1], by simp [s1], by simp [d1], by simp [f1], by simp [r1]⟩,
      by simp [l1]⟩

theorem babl_dup_tally {raw ptr ret : Nat} {st st' : Mem}
    (h : babl_dup raw ptr st = .ok (ret, st')) :
    CountersMove st st' 0 0 0 1 0 0 ∧
      st'.live = (raw, (BAI_size st ptr + OFFSET) % 2 ^ 64) :: st.live := by
  unfold babl_dup at h
  split_ifs at h with hb
  cases hm : babl_malloc raw (BAI_size st ptr) st with
  | error e => simp [hm] at h
  | ok r =>
    obtain ⟨ret1, st1⟩ := r
    obtain ⟨⟨m1, c1, s1, d1, f1, r1⟩, l1⟩ := babl_malloc_tally hm
    simp only [hm] at h
    cases h
    simp only [add_zero] at c1 s1 d1 f1 r1
    exact ⟨⟨by simp [m1], by simp [c1], by simp [s1], by simp [d1], by simp [f1], by simp [r1]⟩,
      by simp [l1]⟩

theorem babl_realloc_cases {raw ptr size ret : Nat} {st st' : Mem}
    (h : babl_realloc raw ptr size st = .ok (ret, st')) :
    (ptr = 0 ∧ babl_malloc raw size st = .ok (ret, st')) ∨
    (ptr ≠ 0 ∧ size = 0 ∧ babl_free ptr st = .ok st') ∨
    (ptr ≠ 0 ∧ ∃ sz, babl_sizeof ptr st = .ok sz ∧ size ≤ sz ∧ st' = st) ∨
    (ptr ≠ 0 ∧ size ≠ 0 ∧ ∃ sz, babl_sizeof ptr st = .ok sz ∧ sz < size ∧
      CountersMove st st' 1 0 0 0 1 1 ∧
      st'.live = ((raw, (size + OFFSET) % 2 ^ 64) :: st.live).eraseP
        (fun c => c.1 == BAI ptr)) := by
  unfold babl_realloc at h
  split_ifs at h with hp hb hs
  · exact Or.inl ⟨hp, h⟩
  · cases hf : babl_free ptr st with
    | error e => simp [hf] at h
    | ok st1 =>
      simp only [hf] at h
      cases h
      exact Or.inr (Or.inl ⟨hp, hs, rfl⟩)
  · cases hz : babl_sizeof ptr st with
    | error e => simp [hz] at h
    | ok sz =>
      simp only [hz] at h
      split_ifs at h with h1 h2
      · cases h
        exact Or.inr (Or.inr (Or.inl ⟨hp, sz, rfl, h1, rfl⟩))
      · cases hm : babl_malloc raw size st with
        | error e => simp [hm] at h
        | ok r =>
          obtain ⟨ret1, st1⟩ := r
          obtain ⟨⟨m1, c1, s1, d1, f1, r1⟩, l1⟩ := babl_malloc_tally hm
          simp only [hm] at h
          cases hz1 : babl_sizeof ptr st1 with
          | error e => simp [hz1] at h
          | ok n =>
            simp only [hz1] at h
            cases hf : babl_free ptr { st1 with cell := memcpy st1.cell ret1 ptr n } with
            | error e => simp [hf] at h
            | ok st2 =>
              obtain ⟨⟨m2, c2, s2, d2, f2, r2⟩, l2⟩ := babl_free_tally hf hp
              simp only [hf] at h
              cases h
              simp only [add_zero] at c1 s1 d1 f1 r1 m2 c2 s2 d2 r2
              refine Or.inr (Or.inr (Or.inr ⟨hp, hs, sz, rfl, h2, ⟨?_, ?_, ?_, ?_, ?_, ?_⟩, ?_⟩))
              · simp [m2, m1]
              · simp [c2, c1]
              · simp [s2, s1]
              · simp [d2, d1]
              · simp [f2, f1]
              · simp [r2, r1]
              · simp [l2, l1]
      · omega

theorem babl_realloc_balance {raw ptr size ret : Nat} {st st' : Mem}
    (h : babl_realloc raw ptr size st = .ok (ret, st'))
    (hon : ptr = 0 ∨ outstanding st ptr = true) : balance st' = balance st := by
  rcases babl_realloc_cases h with ⟨_, hm⟩ | ⟨_, _, hf⟩ | ⟨_, sz, _, _, he⟩ |
    ⟨hp, _, sz, _, _, hc, hl⟩
  · exact babl_malloc_balance hm
  · exact babl_free_balance hf hon
  · rw [he]
  · have ho : outstanding st ptr = true := by
      rcases hon with h0 | h1
      · exact absurd h0 hp
      · exact h1
    refine balance_step 0 hc ?_ (by norm_num)
    have ha : ((raw, (size + OFFSET) % 2 ^ 64) :: st.live).any (fun c => c.1 == BAI ptr)
        = true := by
      unfold outstanding at ho
      simp only [List.any_cons, ho, Bool.or_true]
    rw [hl, length_eraseP_any _ _ ha]
    simp

theorem babl_strcat_balance {fuel raw dest ret : Nat} {src : List Nat} {st st' : Mem}
    (h : babl_strcat fuel raw dest src st = some (.ok (ret, st')))
    (hon : dest = 0 ∨ outstanding st dest = true) : balance st' = balance st := by
  unfold babl_strcat at h
  simp only at h
  split at h
  · split at h
    · simp at h
    · rename_i ret1 st1 hm
      have hk := babl_malloc_balance hm
      simp only [Option.some.injEq, Except.ok.injEq, Prod.mk.injEq] at h
      obtain ⟨_, h⟩ := h
      rw [← h, ← hk]
      unfold balance mem_stats_allocs
      dsimp only
  · split at h
    · simp at h
    · split at h
      · simp at h
      · split at h
        · simp at h
        · split at h
          · split at h
            · simp at h
            · split at h
              · simp at h
              · rename_i hr
                have hk := babl_realloc_balance hr hon
                simp only [Option.some.injEq, Except.ok.injEq, Prod.mk.injEq] at h
                obtain ⟨_, h⟩ := h
                rw [← h, ← hk]
                unfold balance mem_stats_allocs
                dsimp only
          · simp only [Option.some.injEq, Except.ok.injEq, Prod.mk.injEq] at h
            obtain ⟨_, h⟩ := h
            rw [← h]
            unfold balance mem_stats_allocs
            dsimp only

theorem Call.exec_balance {c : Call} {st st' : Mem} (h : c.exec st = some (.ok st'))
    (hon : c.onLive st = true) : balance st' = balance st := by
  cases c with
  | set_malloc g =>
    simp only [Call.exec, Option.some.injEq, Except.ok.injEq] at h
    rw [← h]; rfl
  | set_free g =>
    simp only [Call.exec, Option.some.injEq, Except.ok.injEq] at h
    rw [← h]; rfl
  | malloc raw size =>
    simp only [Call.exec, Option.some.injEq] at h
    obtain ⟨ret, hr⟩ := Except.map_snd_ok h
    exact babl_malloc_balance hr
  | calloc raw nmemb size =>
    simp only [Call.exec, Option.some.injEq] at h
    obtain ⟨ret, hr⟩ := Except.map_snd_ok h
    obtain ⟨hc, hl⟩ := babl_calloc_tally hr
    exact balance_step 1 hc (by rw [hl]; simp) (by norm_num)
  | strdup raw s =>
    simp only [Call.exec, Option.some.injEq] at h
    obtain ⟨ret, hr⟩ := Except.map_snd_ok h
    obtain ⟨hc, hl⟩ := babl_strdup_tally hr
    exact balance_step 1 hc (by rw [hl]; simp) (by norm_num)
  | dup raw ptr =>
    simp only [Call.exec, Option.some.injEq] at h
    obtain ⟨ret, hr⟩ := Except.map_snd_ok h
    obtain ⟨hc, hl⟩ := babl_dup_tally hr
    exact balance_step 1 hc (by rw [hl]; simp) (by norm_num)
  | free ptr =>
    simp only [Call.exec, Option.some.injEq] at h
    simp only [Call.onLive, Bool.or_eq_true, beq_iff_eq] at hon
    exact babl_free_balance h hon
  | realloc raw ptr size =>
    simp only [Call.exec, Option.some.injEq] at h
    obtain ⟨ret, hr⟩ := Except.map_snd_ok h
    simp only [Call.onLive, Bool.or_eq_true, beq_iff_eq] at hon
    exact babl_realloc_balance hr hon
  | strcat fuel raw dest src =>
    simp only [Call.exec] at h
    cases hs : babl_strcat fuel raw dest src st with
    | none => simp [hs] at h
    | some r =>
      simp only [hs, Option.map_some', Option.some.injEq] at h
      obtain ⟨ret, hr⟩ := Except.map_snd_ok h
      rw [hr] at hs
      simp only [Call.onLive, Bool.or_eq_true, beq_iff_eq] at hon
      exact babl_strcat_balance hs hon

theorem execAll_balance (cs : List Call) :
    ∀ (st st' : Mem), allOnLive cs st = true → execAll cs st = some st' →
      balance st' = balance st := by
  induction cs with
  | nil =>
    intro st st' _ h
    simp only [execAll, Option.some.injEq] at h
    rw [h]
  | cons c cs ih =>
    intro st st' hv h
    unfold execAll at h
    unfold allOnLive at hv
    split at h
    · rename_i st1 hc
      simp only [hc, Bool.and_eq_true] at hv
      exact (ih st1 st' hv.2 h).trans (Call.exec_balance hc hv.1)
    · cases h

/-- C25: in every state reached from the initial one by a sequence of calls
that all return, each `babl_free` (also the one in `babl_realloc` and
`babl_strcat`) being given `NULL` or a block still outstanding,
`(mallocs + callocs + strdups + dups) - frees` is the number of outstanding
blocks.  A returning `babl_malloc`, `babl_calloc`, `babl_strdup`, `babl_dup`
raises its own counter by one and leaves the other counters as they were, and
a growing `babl_realloc` raises `mallocs`, `frees` and `reallocs` by one each. -/
theorem allocator_counters_balance (malloc free signature : Nat) (cell : Nat → Nat)
    (cs : List Call) (hv : allOnLive cs (Mem.init malloc free signature cell) = true) :
    (∀ st, execAll cs (Mem.init malloc free signature cell) = some st →
      mem_stats_allocs st - st.frees = (st.live.length : Int)) ∧
    (∀ raw size s0 ret s1, babl_malloc raw size s0 = .ok (ret, s1) →
      CountersMove s0 s1 1 0 0 0 0 0) ∧
    (∀ raw nmemb size s0 ret s1, babl_calloc raw nmemb size s0 = .ok (ret, s1) →
      CountersMove s0 s1 0 1 0 0 0 0) ∧
    (∀ raw s s0 ret s1, babl_strdup raw s s0 = .ok (ret, s1) →
      CountersMove s0 s1 0 0 1 0 0 0) ∧
    (∀ raw ptr s0 ret s1, babl_dup raw ptr s0 = .ok (ret, s1) →
      CountersMove s0 s1 0 0 0 1 0 0) ∧
    (∀ raw ptr size sz s0 ret s1, ptr ≠ 0 → babl_sizeof ptr s0 = .ok sz → sz < size →
      babl_realloc raw ptr size s0 = .ok (ret, s1) → CountersMove s0 s1 1 0 0 0 1 1) := by
  refine ⟨?_, ?_, ?_, ?_, ?_, ?_⟩
  · intro st h
    have hb := execAll_balance cs _ st hv h
    have h0 : balance (Mem.init malloc free signature cell) = 0 := by
      simp [balance, mem_stats_allocs, Mem.init]
    rw [h0] at hb
    unfold balance at hb
    omega
  · intro raw size s0 ret s1 h
    exact (babl_malloc_tally h).1
  · intro raw nmemb size s0 ret s1 h
    exact (babl_calloc_tally h).1
  · intro raw s s0 ret s1 h
    exact (babl_strdup_tally h).1
  · intro raw ptr s0 ret s1 h
    exact (babl_dup_tally h).1
  · intro raw ptr size sz s0 ret s1 hp hz hlt h
    rcases babl_realloc_cases h with ⟨h0, _⟩ | ⟨_, h0, _⟩ | ⟨_, sz1, hz1, hle, _⟩ |
      ⟨_, _, _, _, _, hc, _⟩
    · exact absurd h0 hp
    · omega
    · rw [hz] at hz1
      simp only [Except.ok.injEq] at hz1
      omega
    · exact hc

theorem tallyCalls_onLive : allOnLive tallyCalls (Mem.init 1 2 3 (fun _ => 0)) = true := by
  decide

theorem tallyCalls_run :
    (execAll tallyCalls (Mem.init 1 2 3 (fun _ => 0))).map
        (fun st => [st.mallocs, st.callocs, st.strdups, st.dups, st.frees, st.reallocs,
          (st.live.length : Int)])
      = some [3, 1, 1, 1, 3, 2, 3] := by
  decide

/-- C25, on the calls `tallyCalls` made at program start: they all return, and
leave `mallocs = 3`, `callocs = strdups = dups = 1`, `frees = 3`,
`reallocs = 2` and three blocks outstanding. -/
theorem allocator_counters_balance_witness :
    allOnLive tallyCalls (Mem.init 1 2 3 (fun _ => 0)) = true ∧
    (execAll tallyCalls (Mem.init 1 2 3 (fun _ => 0))).map
        (fun st => [st.mallocs, st.callocs, st.strdups, st.dups, st.frees, st.reallocs,
          (st.live.length : Int)])
      = some [3, 1, 1, 1, 3, 2, 3] ∧
    ((∀ st, execAll tallyCalls (Mem.init 1 2 3 (fun _ => 0)) = some st →
      mem_stats_allocs st - st.frees = (st.live.length : Int)) ∧
    (∀ raw size s0 ret s1, babl_malloc raw size s0 = .ok (ret, s1) →
      CountersMove s0 s1 1 0 0 0 0 0) ∧
    (∀ raw nmemb size s0 ret s1, babl_calloc raw nmemb size s0 = .ok (ret, s1) →
      CountersMove s0 s1 0 1 0 0 0 0) ∧
    (∀ raw s s0 ret s1, babl_strdup raw s s0 = .ok (ret, s1) →
      CountersMove s0 s1 0 0 1 0 0 0) ∧
    (∀ raw ptr s0 ret s1, babl_dup raw ptr s0 = .ok (ret, s1) →
      CountersMove s0 s1 0 0 0 1 0 0) ∧
    (∀ raw ptr size sz s0 ret s1, ptr ≠ 0 → babl_sizeof ptr s0 = .ok sz → sz < size →
      babl_realloc raw ptr size s0 = .ok (ret, s1) → CountersMove s0 s1 1 0 0 0 1 1)) :=
  ⟨tallyCalls_onLive, tallyCalls_run,
    allocator_counters_balance 1 2 3 (fun _ => 0) tallyCalls tallyCalls_onLive⟩

end Babl
